import Mathlib

/-!
# PCA9685 driver (`pca9685.c`): embedding and verified properties

The driver computes with C `float` (IEEE-754 binary32), 8-bit and 32-bit
unsigned integers, and talks to the chip through `HAL_I2C_Master_Transmit`,
`HAL_I2C_Master_Receive` and `HAL_Delay`.  The embedding keeps all three:

* `Binary32` models `float` bit-exactly for the operations the driver uses
  (`*`, `/`, `roundf`, comparisons, conversions), with round-to-nearest-even;
* machine integers are `Nat` with explicit `% 2^w`;
* every HAL call is recorded in a trace, and its outcome is supplied by an
  arbitrary environment `Env`.
-/

namespace PCA9685

/-! ## IEEE-754 binary32 -/

/-- A binary32 datum, given by its sign bit, its 8-bit biased exponent field and
its 23-bit fraction field. -/
structure Binary32 where
  sign : Bool
  expo : Nat
  mant : Nat
deriving DecidableEq

namespace Binary32

/-- The datum encoded by a 32-bit word. -/
def ofBits (w : Nat) : Binary32 :=
  ⟨decide (w / 2 ^ 31 % 2 = 1), w / 2 ^ 23 % 256, w % 2 ^ 23⟩

/-- The 32-bit word encoding a datum. -/
def toBits (x : Binary32) : Nat :=
  (if x.sign then 2 ^ 31 else 0) + x.expo * 2 ^ 23 + x.mant

/-- The fields fit their widths: the datum is one of the 2^32 binary32 data. -/
def valid (x : Binary32) : Prop := x.expo < 256 ∧ x.mant < 2 ^ 23

instance (x : Binary32) : Decidable x.valid := by
  unfold valid; infer_instance

def isNaN (x : Binary32) : Bool := x.expo == 255 && x.mant != 0

def isInf (x : Binary32) : Bool := x.expo == 255 && x.mant == 0

/-- Magnitude in units of `2^-149` (the smallest subnormal): a subnormal or zero
is `mant`, a normal number is `(2^23 + mant) * 2^(expo - 1)`.  For an infinity the
same formula gives `2^277`, above every finite magnitude. -/
def scaled (x : Binary32) : Nat :=
  if x.expo = 0 then x.mant else (2 ^ 23 + x.mant) * 2 ^ (x.expo - 1)

/-- Signed value in units of `2^-149` (used for comparisons; not meaningful for NaN). -/
def toInt (x : Binary32) : Int :=
  if x.sign then -(x.scaled : Int) else (x.scaled : Int)

/-- The real value of a finite datum. -/
def toRat (x : Binary32) : ℚ := (x.toInt : ℚ) / 2 ^ 149

def nan : Binary32 := ⟨false, 255, 2 ^ 22⟩

def inf (s : Bool) : Binary32 := ⟨s, 255, 0⟩

/-- Auxiliary for `ilog2`, by recursion on a bound of the number of halvings. -/
def ilog2Aux : Nat → Nat → Nat
  | 0, _ => 0
  | fuel + 1, n => if n < 2 then 0 else ilog2Aux fuel (n / 2) + 1

/-- Position of the leading binary digit: `⌊log2 n⌋` for `n > 0`, and `0` for `n = 0`. -/
def ilog2 (n : Nat) : Nat := ilog2Aux n n

/-- The datum of sign `s` and magnitude `k * 2^-149`, for a representable `k`;
magnitudes from `2^277` on are infinite. -/
def ofScaled (s : Bool) (k : Nat) : Binary32 :=
  if k < 2 ^ 23 then ⟨s, 0, k⟩
  else if 2 ^ 149 ≤ k / 2 ^ 128 then inf s
  else ⟨s, ilog2 k - 22, k / 2 ^ (ilog2 k - 23) - 2 ^ 23⟩

/-- Round-to-nearest, ties-to-even, of the non-negative rational `n / d` (a magnitude
in units of `2^-149`, `d > 0`) to a binary32 magnitude.  The spacing of binary32
magnitudes around `n / d` is `2^s` units with `s = max 0 (⌊log2 (n / d)⌋ - 23)`;
`m` is the magnitude below in units of the spacing and `r / u` the fraction left. -/
def roundMag (n d : Nat) : Nat :=
  let s := ilog2 (n / d) - 23
  let u := d * 2 ^ s
  let m := n / u
  let r := n % u
  (if u < 2 * r ∨ (2 * r = u ∧ m % 2 = 1) then m + 1 else m) * 2 ^ s

/-- The magnitudes binary32 can hold, in units of `2^-149`: the multiples of the
spacing `2^(⌊log2 k⌋ - 23)` at their own size (every `k` below `2^24`). -/
def representable (k : Nat) : Prop := 2 ^ (ilog2 k - 23) ∣ k

/-- Conversion of a non-negative integer to `float`. -/
def ofNat (n : Nat) : Binary32 := ofScaled false (roundMag (n * 2 ^ 149) 1)

/-- The C `*` on `float`. -/
def mul (x y : Binary32) : Binary32 :=
  if x.isNaN || y.isNaN then nan
  else if (x.isInf && y.scaled == 0) || (y.isInf && x.scaled == 0) then nan
  else if x.isInf || y.isInf then inf (xor x.sign y.sign)
  else ofScaled (xor x.sign y.sign) (roundMag (x.scaled * y.scaled) (2 ^ 149))

/-- The C `/` on `float`. -/
def div (x y : Binary32) : Binary32 :=
  if x.isNaN || y.isNaN then nan
  else if (x.isInf && y.isInf) || (x.scaled == 0 && y.scaled == 0) then nan
  else if x.isInf || y.scaled == 0 then inf (xor x.sign y.sign)
  else if y.isInf then ofScaled (xor x.sign y.sign) 0
  else ofScaled (xor x.sign y.sign) (roundMag (x.scaled * 2 ^ 149) y.scaled)

/-- The C `roundf`: nearest integer, halfway cases away from zero. -/
def roundf (x : Binary32) : Binary32 :=
  if x.isNaN then nan
  else if x.isInf then x
  else ofScaled x.sign ((2 * x.scaled + 2 ^ 149) / 2 ^ 150 * 2 ^ 149)

/-- The C `<=` on `float` (false when an operand is NaN). -/
def le (x y : Binary32) : Bool :=
  !x.isNaN && !y.isNaN && decide (x.toInt ≤ y.toInt)

/-- The C `==` on `float` (false when an operand is NaN; `-0.0 == 0.0`). -/
def eq (x y : Binary32) : Bool :=
  !x.isNaN && !y.isNaN && decide (x.toInt = y.toInt)

/-- Conversion of a `float` to an unsigned integer type: truncation toward zero.
The C standard defines it only when the truncated value fits the target type,
which is the case wherever the driver converts. -/
def truncToNat (x : Binary32) : Nat := x.scaled / 2 ^ 149

end Binary32

/-! ## The HAL boundary -/

/-- One call into the HAL: `HAL_I2C_Master_Transmit` with the device address and
the bytes sent, `HAL_I2C_Master_Receive` with the device address and the number
of bytes asked for, or `HAL_Delay` with its argument in milliseconds. -/
inductive Event
  | transmit (dev : Nat) (bytes : List Nat)
  | receive (dev : Nat) (len : Nat)
  | delay (ms : Nat)
deriving DecidableEq

/-- What the driver cannot control.  `ok t` tells whether the I2C call that was
just appended to the history `t` returned `HAL_OK`.  `rx t` is the content of the
destination byte of `pca9685_read_u8` when that function returns with history `t`:
the byte received if the read went through, and otherwise whatever the
uninitialised destination held. -/
structure Env where
  ok : List Event → Bool
  rx : List Event → Nat

/-- The fields of `pca9685_handle_t`; `i2c_handle` is a pointer, `0` being `NULL`. -/
structure pca9685_handle_t where
  i2c_handle : Nat
  device_address : Nat
  inverted : Bool

/-- Outcome of a function that contains `assert`: it returns a value, or an
assertion fails and the program is aborted; either way with the history so far. -/
inductive Result (α : Type)
  | ret (val : α) (trace : List Event)
  | abort (trace : List Event)
deriving DecidableEq

/-! ## Registers, masks and the dimming table -/

def PCA9685_REGISTER_MODE1 : Nat := 0x00
def PCA9685_REGISTER_MODE2 : Nat := 0x01
def PCA9685_REGISTER_LED0_ON_L : Nat := 0x06
def PCA9685_REGISTER_ALL_LED_ON_L : Nat := 0xfa
def PCA9685_REGISTER_PRESCALER : Nat := 0xfe

def PCA9685_REGISTER_MODE1_SLEEP : Nat := 1 <<< 4
def PCA9685_REGISTER_MODE1_RESTART : Nat := 1 <<< 7

/-- `(BYTE) |= (uint8_t)(MASK)` on a `uint8_t` variable: the new content. -/
def PCA9685_SET_BIT_MASK (byte mask : Nat) : Nat := (byte ||| mask % 256) % 256

/-- `(BYTE) &= (uint8_t)(~(uint8_t)(MASK))` on a `uint8_t` variable: the new content. -/
def PCA9685_CLEAR_BIT_MASK (byte mask : Nat) : Nat := (byte &&& (255 - mask % 256)) % 256

/-- `(BYTE) & (uint8_t)(MASK)`. -/
def PCA9685_READ_BIT_MASK (byte mask : Nat) : Nat := byte &&& mask % 256

/-- Logarithmic dimming table. -/
def CIEL_8_12 : List Nat := [
  0, 2, 4, 5, 7, 9, 11, 12, 14, 16, 18, 20, 21, 23, 25, 27, 28, 30, 32, 34, 36, 37, 39, 41, 43, 45, 47, 49, 52,
  54, 56, 59, 61, 64, 66, 69, 72, 75, 77, 80, 83, 87, 90, 93, 97, 100, 103, 107, 111, 115, 118, 122, 126, 131,
  135, 139, 144, 148, 153, 157, 162, 167, 172, 177, 182, 187, 193, 198, 204, 209, 215, 221, 227, 233, 239, 246,
  252, 259, 265, 272, 279, 286, 293, 300, 308, 315, 323, 330, 338, 346, 354, 362, 371, 379, 388, 396, 405, 414,
  423, 432, 442, 451, 461, 471, 480, 490, 501, 511, 521, 532, 543, 554, 565, 576, 587, 599, 610, 622, 634, 646,
  658, 670, 683, 696, 708, 721, 734, 748, 761, 775, 789, 802, 817, 831, 845, 860, 875, 890, 905, 920, 935, 951,
  967, 983, 999, 1015, 1032, 1048, 1065, 1082, 1099, 1117, 1134, 1152, 1170, 1188, 1206, 1225, 1243, 1262, 1281,
  1301, 1320, 1340, 1359, 1379, 1400, 1420, 1441, 1461, 1482, 1504, 1525, 1547, 1568, 1590, 1613, 1635, 1658,
  1681, 1704, 1727, 1750, 1774, 1798, 1822, 1846, 1871, 1896, 1921, 1946, 1971, 1997, 2023, 2049, 2075, 2101,
  2128, 2155, 2182, 2210, 2237, 2265, 2293, 2322, 2350, 2379, 2408, 2437, 2467, 2497, 2527, 2557, 2587, 2618,
  2649, 2680, 2712, 2743, 2775, 2807, 2840, 2872, 2905, 2938, 2972, 3006, 3039, 3074, 3108, 3143, 3178, 3213,
  3248, 3284, 3320, 3356, 3393, 3430, 3467, 3504, 3542, 3579, 3617, 3656, 3694, 3733, 3773, 3812, 3852, 3892,
  3932, 3973, 4013, 4055, 4095]

/-! ## The driver -/

/-- `pca9685_write_u8`: one transmit of the register address and the value. -/
def pca9685_write_u8 (env : Env) (handle : pca9685_handle_t) (address value : Nat)
    (t : List Event) : Bool × List Event :=
  let t1 := t ++ [Event.transmit handle.device_address [address % 256, value % 256]]
  (env.ok t1, t1)

/-- `pca9685_write_data`: `length` bytes of `data` after the register address, in one
transmit of `length + 1` bytes; nothing is sent when `length` is 0 or more than 4.
The callers pass a buffer of at least `length` bytes. -/
def pca9685_write_data (env : Env) (handle : pca9685_handle_t) (address : Nat)
    (data : List Nat) (length : Nat) (t : List Event) : Bool × List Event :=
  if length = 0 ∨ length > 4 then (false, t)
  else
    let transfer := address % 256 :: (data.take length).map (· % 256)
    let t1 := t ++ [Event.transmit handle.device_address transfer]
    (env.ok t1, t1)

/-- `pca9685_read_u8`: a transmit of the register address and, if it went through, a
receive of one byte.  Returns the success flag, the content of `*dest` afterwards
and the history. -/
def pca9685_read_u8 (env : Env) (handle : pca9685_handle_t) (address : Nat)
    (t : List Event) : Bool × Nat × List Event :=
  let t1 := t ++ [Event.transmit handle.device_address [address % 256]]
  if env.ok t1 then
    let t2 := t1 ++ [Event.receive handle.device_address 1]
    (env.ok t2, env.rx t2 % 256, t2)
  else (false, env.rx t1 % 256, t1)

/-- `pca9685_is_sleeping`: returns the success flag, `*sleeping` and the history. -/
def pca9685_is_sleeping (env : Env) (handle : pca9685_handle_t)
    (t : List Event) : Bool × Bool × List Event :=
  let success := true
  let (r, mode1_reg, t1) := pca9685_read_u8 env handle PCA9685_REGISTER_MODE1 t
  let success := success && r
  let sleeping := PCA9685_READ_BIT_MASK mode1_reg PCA9685_REGISTER_MODE1_SLEEP != 0
  (success, sleeping, t1)

/-- `pca9685_sleep`. -/
def pca9685_sleep (env : Env) (handle : pca9685_handle_t)
    (t : List Event) : Bool × List Event :=
  let success := true
  let (r, mode1_reg, t1) := pca9685_read_u8 env handle PCA9685_REGISTER_MODE1 t
  let success := success && r
  let mode1_reg := PCA9685_CLEAR_BIT_MASK mode1_reg PCA9685_REGISTER_MODE1_RESTART
  let mode1_reg := PCA9685_SET_BIT_MASK mode1_reg PCA9685_REGISTER_MODE1_SLEEP
  let (w, t2) := pca9685_write_u8 env handle PCA9685_REGISTER_MODE1 mode1_reg t1
  let success := success && w
  (success, t2)

/-- `pca9685_wakeup`. -/
def pca9685_wakeup (env : Env) (handle : pca9685_handle_t)
    (t : List Event) : Bool × List Event :=
  let success := true
  let (r, mode1_reg, t1) := pca9685_read_u8 env handle PCA9685_REGISTER_MODE1 t
  let success := success && r
  let restart_required := PCA9685_READ_BIT_MASK mode1_reg PCA9685_REGISTER_MODE1_RESTART != 0
  let mode1_reg := PCA9685_CLEAR_BIT_MASK mode1_reg PCA9685_REGISTER_MODE1_RESTART
  let mode1_reg := PCA9685_CLEAR_BIT_MASK mode1_reg PCA9685_REGISTER_MODE1_SLEEP
  let (w, t2) := pca9685_write_u8 env handle PCA9685_REGISTER_MODE1 mode1_reg t1
  let success := success && w
  if restart_required then
    let t3 := t2 ++ [Event.delay 1]
    let mode1_reg := PCA9685_SET_BIT_MASK mode1_reg PCA9685_REGISTER_MODE1_RESTART
    let (w2, t4) := pca9685_write_u8 env handle PCA9685_REGISTER_MODE1 mode1_reg t3
    let success := success && w2
    (success, t4)
  else (success, t2)

/-- The value of `(uint8_t)roundf(25000000.0f / (4096 * frequency)) - 1` stored in
the `uint8_t prescaler`: the quotient is a `float` division, the cast applies to
the rounded quotient, and the subtraction is reduced modulo 256 by the store. -/
def prescaler_of (frequency : Binary32) : Nat :=
  let q := Binary32.div (Binary32.ofNat 25000000) (Binary32.mul (Binary32.ofNat 4096) frequency)
  ((Binary32.roundf q).truncToNat % 256 + 255) % 256

/-- `pca9685_set_pwm_frequency`. -/
def pca9685_set_pwm_frequency (env : Env) (handle : pca9685_handle_t)
    (frequency : Binary32) (t : List Event) : Result Bool :=
  if !Binary32.le (Binary32.ofNat 24) frequency then Result.abort t
  else if !Binary32.le frequency (Binary32.ofNat 1526) then Result.abort t
  else
    let success := true
    let prescaler := prescaler_of frequency
    let (r, already_sleeping, t1) := pca9685_is_sleeping env handle t
    let success := success && r
    let (success, t2) :=
      if !already_sleeping then
        let (s, t2) := pca9685_sleep env handle t1
        (success && s, t2)
      else (success, t1)
    let (w, t3) := pca9685_write_u8 env handle PCA9685_REGISTER_PRESCALER prescaler t2
    let success := success && w
    let (success, t4) :=
      if !already_sleeping then
        let (k, t4) := pca9685_wakeup env handle t3
        (success && k, t4)
      else (success, t3)
    Result.ret success t4

/-- `pca9685_set_channel_pwm_times`; the arguments are `unsigned`. -/
def pca9685_set_channel_pwm_times (env : Env) (handle : pca9685_handle_t)
    (channel on_time off_time : Nat) (t : List Event) : Result Bool :=
  if !decide (channel < 16) then Result.abort t
  else if !decide (on_time ≤ 4096) then Result.abort t
  else if !decide (off_time ≤ 4096) then Result.abort t
  else
    let data := [on_time % 256, (on_time >>> 8) % 256, off_time % 256, (off_time >>> 8) % 256]
    let (w, t1) := pca9685_write_data env handle
      ((PCA9685_REGISTER_LED0_ON_L + channel * 4) % 2 ^ 32) data 4 t
    Result.ret w t1

/-- The `required_on_time` of the last branch of `pca9685_set_channel_duty_cycle`.
The table is indexed by `(unsigned)roundf(255 * duty_cycle)` without a check; the
default `0` stands for a read past the table. -/
def required_on_time (duty_cycle : Binary32) (logarithmic : Bool) : Nat :=
  if logarithmic then
    CIEL_8_12.getD
      ((Binary32.roundf (Binary32.mul (Binary32.ofNat 255) duty_cycle)).truncToNat % 2 ^ 32) 0
  else
    (Binary32.roundf (Binary32.mul (Binary32.ofNat 4095) duty_cycle)).truncToNat % 2 ^ 32

/-- The `on_time` of the last branch of `pca9685_set_channel_duty_cycle`, in
32-bit unsigned arithmetic. -/
def phase_on_time (channel : Nat) : Nat :=
  if channel = 0 then 0 else ((channel * 256) % 2 ^ 32 + (2 ^ 32 - 1)) % 2 ^ 32

/-- `pca9685_set_channel_duty_cycle`.  The comparisons with `0.0` and `1.0` are made
in `double`, to which a `float` converts exactly. -/
def pca9685_set_channel_duty_cycle (env : Env) (handle : pca9685_handle_t)
    (channel : Nat) (duty_cycle : Binary32) (logarithmic : Bool)
    (t : List Event) : Result Bool :=
  if !Binary32.le (Binary32.ofNat 0) duty_cycle then Result.abort t
  else if !Binary32.le duty_cycle (Binary32.ofNat 1) then Result.abort t
  else if Binary32.eq duty_cycle (Binary32.ofNat 0) then
    pca9685_set_channel_pwm_times env handle channel 0 4096 t
  else if Binary32.eq duty_cycle (Binary32.ofNat 1) then
    pca9685_set_channel_pwm_times env handle channel 4096 0 t
  else
    let required := required_on_time duty_cycle logarithmic
    let on_time := phase_on_time channel
    let off_time := ((on_time + required) % 2 ^ 32) &&& 0xfff
    pca9685_set_channel_pwm_times env handle channel on_time off_time t

/-- `pca9685_init`. -/
def pca9685_init (env : Env) (handle : pca9685_handle_t) (t : List Event) : Result Bool :=
  if handle.i2c_handle = 0 then Result.abort t
  else
    let success := true
    let mode1_reg_default_value := 0b00110000
    let mode2_reg_default_value := 0b00000000
    let mode2_reg_default_value :=
      if handle.inverted then mode2_reg_default_value ||| 0b00010000 else mode2_reg_default_value
    let (w1, t1) := pca9685_write_u8 env handle PCA9685_REGISTER_MODE1 mode1_reg_default_value t
    let success := success && w1
    let (w2, t2) := pca9685_write_u8 env handle PCA9685_REGISTER_MODE2 mode2_reg_default_value t1
    let success := success && w2
    let data := [0x00, 0x00, 0x00, 0x10]
    let (w3, t3) := pca9685_write_data env handle PCA9685_REGISTER_ALL_LED_ON_L data 4 t2
    let success := success && w3
    match pca9685_set_pwm_frequency env handle (Binary32.ofNat 1000) t3 with
    | Result.abort t4 => Result.abort t4
    | Result.ret f t4 =>
      let success := success && f
      let (k, t5) := pca9685_wakeup env handle t4
      Result.ret (success && k) t5

/-! ## Reading histories -/

/-- The history a result carries. -/
def Result.trace {α : Type} : Result α → List Event
  | Result.ret _ t => t
  | Result.abort t => t

/-- The events a call appended, given the history `t` it started from and the
history `t1` it ended with. -/
def issued (t t1 : List Event) : List Event := t1.drop t.length

/-- A register write is a transmit of a register address followed by data. -/
def Event.isWrite : Event → Bool
  | Event.transmit _ (_ :: _ :: _) => true
  | _ => false

def Event.isDelay : Event → Bool
  | Event.delay _ => true
  | _ => false

/-- The register writes of a history, each as the register address and the data. -/
def regWrites : List Event → List (Nat × List Nat)
  | [] => []
  | Event.transmit _ (a :: v :: vs) :: t => (a, v :: vs) :: regWrites t
  | _ :: t => regWrites t

/-- The register writes and the delays of a history, in order. -/
def writesAndDelays (t : List Event) : List Event :=
  t.filter (fun e => e.isWrite || e.isDelay)

/-- The value MODE1 holds after a history, `m0` being its value before: the data
byte of the last write that starts at register 0. -/
def mode1_content (m0 : Nat) (t : List Event) : Nat :=
  t.foldl (fun m e => match e with
    | Event.transmit _ (0 :: v :: _) => v
    | _ => m) m0

/-- A transport that never fails, in front of a chip whose MODE1 reads return the
last value written to MODE1 (`m0` before any write). -/
def idealChip (m0 : Nat) : Env where
  ok := fun _ => true
  rx := fun t => mode1_content m0 t

/-- The MODE1 value that the read at the start of a call with history `t` leaves
in `mode1_reg`. -/
def mode1_read (env : Env) (handle : pca9685_handle_t) (t : List Event) : Nat :=
  (pca9685_read_u8 env handle PCA9685_REGISTER_MODE1 t).2.1

/-- Length of a delay in microseconds (`HAL_Delay` counts milliseconds). -/
def Event.micros : Event → Nat
  | Event.delay ms => 1000 * ms
  | _ => 0

/-- A handle used for concrete runs: a non-null bus pointer and the default
device address `0x80`. -/
def sampleHandle : pca9685_handle_t := ⟨1, 0x80, false⟩

/-- The prescaler as the specification words it, for comparison with `prescaler_of`:
`round(25_000_000 / (4096 × frequency_hz)) − 1`, with the real-valued quotient and
round-half-away-from-zero. -/
def spec_prescaler (f : Binary32) : Int :=
  round ((25000000 : ℚ) / (4096 * f.toRat)) - 1

/-- The three default writes at the start of `pca9685_init`: MODE1, MODE2 and the
4-byte block at ALL_LED_ON_L. -/
def init_writes (handle : pca9685_handle_t) : List Event :=
  [Event.transmit handle.device_address [0x00, 0x30],
   Event.transmit handle.device_address [0x01, if handle.inverted then 0x10 else 0x00],
   Event.transmit handle.device_address [0xFA, 0x00, 0x00, 0x00, 0x10]]

/-- A transport on which every call fails; the destination byte of a read holds 0. -/
def failingTransport : Env where
  ok := fun _ => false
  rx := fun _ => 0

/-- The on-duration in ticks that `pca9685_set_channel_duty_cycle` encodes for a duty
cycle in [0, 1], following its branches: the pair (0, 4096) switches the channel
off, the pair (4096, 0) switches it on for all 4096 ticks, and the last branch
places `off_time` at `required_on_time` ticks after `on_time`, modulo 4096. -/
def ticks (d : Binary32) (logarithmic : Bool) : Nat :=
  if Binary32.eq d (Binary32.ofNat 0) then 0
  else if Binary32.eq d (Binary32.ofNat 1) then 4096
  else required_on_time d logarithmic

/-- The on-duration as the specification words it, for comparison with `ticks`:
0 for `d = 0`, 4096 for `d = 1`, and otherwise `round(4095 × d)` or
`CIEL_8_12[round(255 × d)]` with the real-valued product and
round-half-away-from-zero. -/
def spec_ticks (d : Binary32) (logarithmic : Bool) : Int :=
  if d.toRat = 0 then 0
  else if d.toRat = 1 then 4096
  else if logarithmic then ((CIEL_8_12.getD (round ((255 : ℚ) * d.toRat)).toNat 0 : Nat) : Int)
  else round ((4095 : ℚ) * d.toRat)

/-! ## Theorems -/

/-! ### Binary32 arithmetic -/

namespace Binary32

theorem ilog2Aux_eq_log (fuel n : Nat) (h : n ≤ fuel) : ilog2Aux fuel n = Nat.log 2 n := by
  induction fuel generalizing n with
  | zero =>
    have : n = 0 := Nat.le_zero.mp h
    subst this
    simp [ilog2Aux]
  | succ fuel ih =>
    unfold ilog2Aux
    by_cases h2 : n < 2
    · simp [h2, Nat.log_of_lt h2]
    · have h2' : 2 ≤ n := Nat.not_lt.mp h2
      have hdiv : n / 2 ≤ fuel := by omega
      simp only [h2, if_false]
      rw [ih (n / 2) hdiv]
      exact (Nat.log_of_one_lt_of_le (by decide) h2').symm

theorem ilog2_eq_log (n : Nat) : ilog2 n = Nat.log 2 n :=
  ilog2Aux_eq_log n n (Nat.le_refl n)

theorem pow_ilog2_le {n : Nat} (h : n ≠ 0) : 2 ^ ilog2 n ≤ n := by
  rw [ilog2_eq_log]; exact Nat.pow_log_le_self 2 h

theorem lt_pow_ilog2_succ (n : Nat) : n < 2 ^ (ilog2 n + 1) := by
  rw [ilog2_eq_log]; exact Nat.lt_pow_succ_log_self (by decide) n

theorem ilog2_mono {a b : Nat} (h : a ≤ b) : ilog2 a ≤ ilog2 b := by
  rw [ilog2_eq_log, ilog2_eq_log]; exact Nat.log_mono_right h

theorem ilog2_lt_of_lt_pow {n k : Nat} (h : n < 2 ^ k) (hk : 0 < k) : ilog2 n < k := by
  rw [ilog2_eq_log]
  by_cases hn : n = 0
  · subst hn; simpa using hk
  · exact Nat.log_lt_of_lt_pow hn h

theorem le_ilog2_of_pow_le {n k : Nat} (h : 2 ^ k ≤ n) : k ≤ ilog2 n := by
  rw [ilog2_eq_log]
  exact Nat.le_log_of_pow_le (by decide) h

theorem roundMag_le {n d H : Nat} (hd : 0 < d) (hH : representable H) (h : n ≤ H * d) :
    roundMag n d ≤ H := by
  have hq : n / d ≤ H := Nat.div_le_of_le_mul (by rw [Nat.mul_comm]; exact h)
  have hs : ilog2 (n / d) - 23 ≤ ilog2 H - 23 := Nat.sub_le_sub_right (ilog2_mono hq) 23
  obtain ⟨M, hM⟩ : 2 ^ (ilog2 (n / d) - 23) ∣ H := (Nat.pow_dvd_pow 2 hs).trans hH
  unfold roundMag
  generalize ilog2 (n / d) - 23 = s at hM ⊢
  have hpos : 0 < 2 ^ s := Nat.two_pow_pos s
  have hu : 0 < d * 2 ^ s := Nat.mul_pos hd hpos
  have hn : n ≤ M * (d * 2 ^ s) := by
    calc n ≤ H * d := h
      _ = M * (d * 2 ^ s) := by rw [hM]; ring
  have hm : n / (d * 2 ^ s) ≤ M := by
    apply Nat.div_le_of_le_mul
    rw [Nat.mul_comm]; exact hn
  dsimp only
  rcases Nat.lt_or_ge (n / (d * 2 ^ s)) M with hlt | hge
  · calc (if d * 2 ^ s < 2 * (n % (d * 2 ^ s)) ∨
            2 * (n % (d * 2 ^ s)) = d * 2 ^ s ∧ n / (d * 2 ^ s) % 2 = 1
          then n / (d * 2 ^ s) + 1 else n / (d * 2 ^ s)) * 2 ^ s
        ≤ (n / (d * 2 ^ s) + 1) * 2 ^ s := by
          apply Nat.mul_le_mul_right
          split <;> omega
      _ ≤ M * 2 ^ s := Nat.mul_le_mul_right _ hlt
      _ = H := by rw [hM]; ring
  · have hmM : n / (d * 2 ^ s) = M := Nat.le_antisymm hm hge
    have hr : n % (d * 2 ^ s) = 0 := by
      have := Nat.div_add_mod n (d * 2 ^ s)
      rw [hmM, Nat.mul_comm] at this
      omega
    rw [hr, hmM]
    have : ¬ (d * 2 ^ s < 2 * 0 ∨ 2 * 0 = d * 2 ^ s ∧ M % 2 = 1) := by omega
    rw [if_neg this, hM]
    exact le_of_eq (Nat.mul_comm _ _)

/-- No representable magnitude lies strictly between the exact value and the
magnitude below it on the grid of `roundMag`. -/
theorem le_floorMag {n d H : Nat} (hd : 0 < d) (hH : representable H) (h : H * d ≤ n) :
    H ≤ n / (d * 2 ^ (ilog2 (n / d) - 23)) * 2 ^ (ilog2 (n / d) - 23) := by
  have hq : H ≤ n / d := (Nat.le_div_iff_mul_le hd).mpr h
  rcases Nat.lt_or_ge (ilog2 H - 23) (ilog2 (n / d) - 23) with hlt | hge
  · have hL : ilog2 H + 1 ≤ ilog2 (n / d) := by omega
    have hne : n / d ≠ 0 := by
      intro h0
      rw [h0] at hL
      simp [ilog2, ilog2Aux] at hL
    have h1 : H < 2 ^ ilog2 (n / d) :=
      lt_of_lt_of_le (lt_pow_ilog2_succ H) (Nat.pow_le_pow_right (by decide) hL)
    have h2 : 2 ^ ilog2 (n / d) ≤ n / d := pow_ilog2_le hne
    have hs : ilog2 (n / d) - 23 ≤ ilog2 (n / d) := Nat.sub_le _ _
    generalize ilog2 (n / d) - 23 = s at hs ⊢
    generalize ilog2 (n / d) = L at h1 h2 hs
    have h3 : 2 ^ (L - s) ≤ n / (d * 2 ^ s) := by
      rw [← Nat.div_div_eq_div_mul]
      apply (Nat.le_div_iff_mul_le (Nat.two_pow_pos s)).mpr
      rw [← pow_add, Nat.sub_add_cancel hs]
      exact h2
    calc H ≤ 2 ^ L := le_of_lt h1
      _ = 2 ^ (L - s) * 2 ^ s := by rw [← pow_add, Nat.sub_add_cancel hs]
      _ ≤ n / (d * 2 ^ s) * 2 ^ s := Nat.mul_le_mul_right _ h3
  · obtain ⟨M, hM⟩ : 2 ^ (ilog2 (n / d) - 23) ∣ H := (Nat.pow_dvd_pow 2 hge).trans hH
    generalize ilog2 (n / d) - 23 = s at hM ⊢
    have hu : 0 < d * 2 ^ s := Nat.mul_pos hd (Nat.two_pow_pos s)
    have hMm : M ≤ n / (d * 2 ^ s) := by
      apply (Nat.le_div_iff_mul_le hu).mpr
      calc M * (d * 2 ^ s) = H * d := by rw [hM]; ring
        _ ≤ n := h
    calc H = M * 2 ^ s := by rw [hM]; ring
      _ ≤ n / (d * 2 ^ s) * 2 ^ s := Nat.mul_le_mul_right _ hMm

theorem le_roundMag {n d H : Nat} (hd : 0 < d) (hH : representable H) (h : H * d ≤ n) :
    H ≤ roundMag n d := by
  refine le_trans (le_floorMag hd hH h) ?_
  unfold roundMag
  dsimp only
  apply Nat.mul_le_mul_right
  split <;> omega

theorem representable_of_lt {k e : Nat} (hk : k < 2 ^ (24 + e)) (hd : 2 ^ e ∣ k) :
    representable k := by
  have hl : ilog2 k < 24 + e := ilog2_lt_of_lt_pow hk (by omega)
  exact (Nat.pow_dvd_pow 2 (by omega : ilog2 k - 23 ≤ e)).trans hd

theorem representable_mul_pow {a e : Nat} (ha : a < 2 ^ 24) : representable (a * 2 ^ e) := by
  apply representable_of_lt (e := e)
  · rw [pow_add]; exact Nat.mul_lt_mul_of_pos_right ha (Nat.two_pow_pos e)
  · exact Dvd.intro_left a rfl

theorem representable_pow (e : Nat) : representable (2 ^ e) := by
  unfold representable
  rw [ilog2_eq_log, Nat.log_pow (by decide)]
  exact Nat.pow_dvd_pow 2 (Nat.sub_le e 23)

theorem roundMag_repr (n d : Nat) : representable (roundMag n d) := by
  have hm : n / d / 2 ^ (ilog2 (n / d) - 23) < 2 ^ 24 := by
    apply (Nat.div_lt_iff_lt_mul (Nat.two_pow_pos _)).mpr
    rw [← pow_add]
    exact lt_of_lt_of_le (lt_pow_ilog2_succ (n / d))
      (Nat.pow_le_pow_right (by decide) (by omega))
  unfold roundMag
  dsimp only
  rw [← Nat.div_div_eq_div_mul]
  generalize ilog2 (n / d) - 23 = s at hm ⊢
  generalize n / d / 2 ^ s = m at hm ⊢
  have hm1 : (if d * 2 ^ s < 2 * (n % (d * 2 ^ s)) ∨
      2 * (n % (d * 2 ^ s)) = d * 2 ^ s ∧ m % 2 = 1 then m + 1 else m) ≤ 2 ^ 24 := by
    split <;> omega
  generalize (if d * 2 ^ s < 2 * (n % (d * 2 ^ s)) ∨
    2 * (n % (d * 2 ^ s)) = d * 2 ^ s ∧ m % 2 = 1 then m + 1 else m) = m1 at hm1 ⊢
  rcases Nat.lt_or_ge m1 (2 ^ 24) with hlt | hge
  · exact representable_mul_pow hlt
  · have : m1 = 2 ^ 24 := Nat.le_antisymm hm1 hge
    rw [this, ← pow_add]
    exact representable_pow _

/-- The magnitude of a valid datum is representable. -/
theorem scaled_repr {x : Binary32} (hv : x.valid) : representable x.scaled := by
  obtain ⟨-, hm⟩ := hv
  unfold scaled
  split
  · exact representable_of_lt (e := 0) (lt_trans hm (by decide)) (one_dvd _)
  · exact representable_mul_pow (by omega)

/-- Rebuilding a datum from a representable finite magnitude keeps the magnitude. -/
theorem scaled_ofScaled {s : Bool} {k : Nat} (hk : representable k)
    (hfin : k / 2 ^ 128 < 2 ^ 149) : (ofScaled s k).scaled = k := by
  unfold ofScaled
  by_cases h23 : k < 2 ^ 23
  · rw [if_pos h23]; rfl
  · have hfin' : ¬ 2 ^ 149 ≤ k / 2 ^ 128 := Nat.not_le.mpr hfin
    have hL : 23 ≤ ilog2 k := le_ilog2_of_pow_le (Nat.not_lt.mp h23)
    have hk0 : k ≠ 0 := by
      intro h0; rw [h0] at h23; exact h23 (by decide)
    have hlow : 2 ^ 23 ≤ k / 2 ^ (ilog2 k - 23) := by
      apply (Nat.le_div_iff_mul_le (Nat.two_pow_pos _)).mpr
      rw [← pow_add]
      have : 23 + (ilog2 k - 23) = ilog2 k := by omega
      rw [this]
      exact pow_ilog2_le hk0
    have hne : ilog2 k - 22 ≠ 0 := by omega
    have he : ilog2 k - 22 - 1 = ilog2 k - 23 := by omega
    rw [if_neg h23, if_neg hfin']
    unfold scaled
    dsimp only
    rw [if_neg hne, he, Nat.add_sub_cancel' hlow]
    exact Nat.div_mul_cancel hk

theorem sign_ofScaled (s : Bool) (k : Nat) : (ofScaled s k).sign = s := by
  unfold ofScaled inf
  split
  · rfl
  · split <;> rfl

theorem isNaN_ofScaled (s : Bool) (k : Nat) : (ofScaled s k).isNaN = false := by
  unfold ofScaled
  by_cases h23 : k < 2 ^ 23
  · rw [if_pos h23]; rfl
  · rw [if_neg h23]
    by_cases hfin : 2 ^ 149 ≤ k / 2 ^ 128
    · rw [if_pos hfin]; rfl
    · rw [if_neg hfin]
      have hlt : k < 2 ^ (149 + 128) := by
        have := Nat.not_le.mp hfin
        have h2 := (Nat.div_lt_iff_lt_mul (Nat.two_pow_pos 128)).mp this
        rw [← pow_add] at h2
        exact h2
      have hL : ilog2 k < 149 + 128 := ilog2_lt_of_lt_pow hlt (by decide)
      have hne : ilog2 k - 22 ≠ 255 := by omega
      simp [isNaN, hne]

theorem isInf_ofScaled (s : Bool) {k : Nat} (hfin : k / 2 ^ 128 < 2 ^ 149) :
    (ofScaled s k).isInf = false := by
  unfold ofScaled
  by_cases h23 : k < 2 ^ 23
  · rw [if_pos h23]; rfl
  · rw [if_neg h23, if_neg (Nat.not_le.mpr hfin)]
    have hlt : k < 2 ^ (149 + 128) := by
      have h2 := (Nat.div_lt_iff_lt_mul (Nat.two_pow_pos 128)).mp hfin
      rw [← pow_add] at h2
      exact h2
    have hL : ilog2 k < 149 + 128 := ilog2_lt_of_lt_pow hlt (by decide)
    have hne : ilog2 k - 22 ≠ 255 := by omega
    simp [isInf, hne]

/-- A finite magnitude stays below the threshold of `ofScaled`. -/
theorem fin_of_le {k b : Nat} (h : k ≤ b) (hb : b / 2 ^ 128 < 2 ^ 149) :
    k / 2 ^ 128 < 2 ^ 149 :=
  lt_of_le_of_lt (Nat.div_le_div_right h) hb

/-- `(unsigned)roundf(q)` for a finite `q` below `2^23`: the magnitude rounded to
the nearest integer, halves upward. -/
theorem truncToNat_roundf {q : Binary32} (hnan : q.isNaN = false) (hinf : q.isInf = false)
    (hq : q.scaled < 2 ^ 172) :
    (roundf q).truncToNat = (2 * q.scaled + 2 ^ 149) / 2 ^ 150 := by
  have hR : (2 * q.scaled + 2 ^ 149) / 2 ^ 150 < 2 ^ 24 := by
    apply (Nat.div_lt_iff_lt_mul (Nat.two_pow_pos 150)).mpr
    have : (2 : Nat) ^ 24 * 2 ^ 150 = 2 ^ 174 := by rw [← pow_add]
    have h2 : (2 : Nat) ^ 174 = 4 * 2 ^ 172 := by rw [show (174 : Nat) = 2 + 172 from rfl, pow_add]; rfl
    have h3 : (2 : Nat) ^ 149 < 2 ^ 172 := Nat.pow_lt_pow_right (by decide) (by decide)
    omega
  unfold roundf truncToNat
  rw [hnan, hinf]
  simp only [Bool.false_eq_true, if_false]
  generalize (2 * q.scaled + 2 ^ 149) / 2 ^ 150 = R at hR ⊢
  have hrep : representable (R * 2 ^ 149) := representable_mul_pow hR
  have hfin : R * 2 ^ 149 / 2 ^ 128 < 2 ^ 149 := by
    apply (Nat.div_lt_iff_lt_mul (Nat.two_pow_pos 128)).mpr
    have h1 : R * 2 ^ 149 < 2 ^ 24 * 2 ^ 149 :=
      Nat.mul_lt_mul_of_pos_right hR (Nat.two_pow_pos _)
    have h2 : (2 : Nat) ^ 24 * 2 ^ 149 ≤ 2 ^ 149 * 2 ^ 128 := by
      rw [Nat.mul_comm]
      exact Nat.mul_le_mul_left _ (Nat.pow_le_pow_right (by decide) (by decide))
    exact lt_of_lt_of_le h1 h2
  rw [scaled_ofScaled hrep hfin]
  exact Nat.mul_div_cancel _ (Nat.two_pow_pos 149)

/-- Rounding to binary32 before rounding to an integer: with `K` the integer nearest
to the exact `n / d` (halves upward; all in units of `2^-149`), the integer nearest
to the rounded magnitude is `K` or `K + 1`. -/
theorem round_roundMag {n d K : Nat} (hd : 0 < d)
    (hK : K = (2 * n + d * 2 ^ 149) / (2 * (d * 2 ^ 149))) (hlt : K < 2 ^ 22) :
    K ≤ (2 * roundMag n d + 2 ^ 149) / 2 ^ 150 ∧
    (2 * roundMag n d + 2 ^ 149) / 2 ^ 150 ≤ K + 1 := by
  have hpos : 0 < 2 * (d * 2 ^ 149) := by positivity
  have h149 : (2 : Nat) ^ 149 = 2 * 2 ^ 148 := by rw [show (149 : Nat) = 1 + 148 from rfl, pow_add]; rfl
  have h150 : (2 : Nat) ^ 150 = 4 * 2 ^ 148 := by rw [show (150 : Nat) = 2 + 148 from rfl, pow_add]; rfl
  have hlo : K * (2 * (d * 2 ^ 149)) ≤ 2 * n + d * 2 ^ 149 := by
    rw [hK]; exact Nat.div_mul_le_self _ _
  have hhi : 2 * n + d * 2 ^ 149 < (K + 1) * (2 * (d * 2 ^ 149)) := by
    have := Nat.lt_mul_div_succ (2 * n + d * 2 ^ 149) hpos
    rw [← hK] at this
    calc 2 * n + d * 2 ^ 149 < 2 * (d * 2 ^ 149) * (K + 1) := this
      _ = (K + 1) * (2 * (d * 2 ^ 149)) := Nat.mul_comm _ _
  have hrep : ∀ j, j < 2 ^ 23 → representable (j * 2 ^ 148) := fun j hj =>
    representable_mul_pow (lt_trans hj (by decide))
  constructor
  · rcases Nat.eq_zero_or_pos K with h0 | hKpos
    · rw [h0]; exact Nat.zero_le _
    · have hH : (2 * K - 1) * 2 ^ 148 ≤ roundMag n d := by
        apply le_roundMag hd (hrep _ (by omega))
        obtain ⟨K', rfl⟩ : ∃ K', K = K' + 1 := ⟨K - 1, by omega⟩
        have e : 2 * (K' + 1) - 1 = 2 * K' + 1 := by omega
        rw [e]
        rw [h149] at hlo
        nlinarith
      apply (Nat.le_div_iff_mul_le (Nat.two_pow_pos 150)).mpr
      obtain ⟨K', rfl⟩ : ∃ K', K = K' + 1 := ⟨K - 1, by omega⟩
      have e : 2 * (K' + 1) - 1 = 2 * K' + 1 := by omega
      rw [e] at hH
      rw [h149, h150]
      nlinarith
  · have hH : roundMag n d ≤ (2 * K + 1) * 2 ^ 148 := by
      apply roundMag_le hd (hrep _ (by omega))
      rw [h149] at hhi
      nlinarith
    apply Nat.div_le_of_le_mul
    rw [h149, h150]
    nlinarith

/-- No representable magnitude lies strictly between the exact value and the
magnitude above it on the grid of `roundMag`. -/
theorem ceilMag_le {n d H : Nat} (hH : representable H) (h : n ≤ H * d)
    (hrem : n % (d * 2 ^ (ilog2 (n / d) - 23)) ≠ 0) :
    (n / (d * 2 ^ (ilog2 (n / d) - 23)) + 1) * 2 ^ (ilog2 (n / d) - 23) ≤ H := by
  have hq : n / d ≤ H := Nat.div_le_of_le_mul (by rw [Nat.mul_comm]; exact h)
  have hs : ilog2 (n / d) - 23 ≤ ilog2 H - 23 := Nat.sub_le_sub_right (ilog2_mono hq) 23
  obtain ⟨M, hM⟩ : 2 ^ (ilog2 (n / d) - 23) ∣ H := (Nat.pow_dvd_pow 2 hs).trans hH
  generalize ilog2 (n / d) - 23 = s at hM hrem ⊢
  have hn : n ≤ M * (d * 2 ^ s) := by
    calc n ≤ H * d := h
      _ = M * (d * 2 ^ s) := by rw [hM]; ring
  have hm : n / (d * 2 ^ s) < M := by
    rcases Nat.lt_or_ge (n / (d * 2 ^ s)) M with hlt | hge
    · exact hlt
    · exfalso
      apply hrem
      have h1 := Nat.div_add_mod n (d * 2 ^ s)
      have h2 : M * (d * 2 ^ s) ≤ n / (d * 2 ^ s) * (d * 2 ^ s) := Nat.mul_le_mul_right _ hge
      rw [Nat.mul_comm (d * 2 ^ s)] at h1
      omega
  calc (n / (d * 2 ^ s) + 1) * 2 ^ s ≤ M * 2 ^ s := Nat.mul_le_mul_right _ hm
    _ = H := by rw [hM]; ring

/-- `roundMag n d` is a representable magnitude nearest to `n / d`: no representable
magnitude is closer (distances are compared after multiplication by `d`). -/
theorem roundMag_nearest {n d H : Nat} (hd : 0 < d) (hH : representable H) :
    |((roundMag n d * d : Nat) : Int) - n| ≤ |((H * d : Nat) : Int) - n| := by
  have hfl := @le_floorMag n d H hd hH
  have hce := @ceilMag_le n d H hH
  unfold roundMag
  dsimp only
  generalize ilog2 (n / d) - 23 = s at hfl hce ⊢
  have hu : 0 < d * 2 ^ s := Nat.mul_pos hd (Nat.two_pow_pos s)
  have hdm := Nat.div_add_mod n (d * 2 ^ s)
  have hml := Nat.mod_lt n hu
  generalize n / (d * 2 ^ s) = m at hfl hce hdm ⊢
  generalize n % (d * 2 ^ s) = r at hce hdm hml ⊢
  have e1 : ∀ k, k * 2 ^ s * d = k * (d * 2 ^ s) := fun k => by ring
  generalize hU : d * 2 ^ s = u at *
  -- everything below is linear in `P = m * u`, `u`, `r` and `B = H * d`
  have hlo : ((m * 2 ^ s * d : Nat) : Int) = (m * u : Nat) := by rw [e1]
  have hhi : (((m + 1) * 2 ^ s * d : Nat) : Int) = (m * u : Nat) + u := by
    rw [e1]; push_cast; ring
  have hn : (n : Int) = (m * u : Nat) + r := by
    rw [Nat.mul_comm] at hdm
    exact_mod_cast hdm.symm
  have hfl' : ((H * d : Nat) : Int) ≤ n → ((H * d : Nat) : Int) ≤ (m * u : Nat) := fun hle => by
    have h2 : H * d ≤ m * u := by
      calc H * d ≤ m * 2 ^ s * d := Nat.mul_le_mul_right _ (hfl (by exact_mod_cast hle))
        _ = m * u := by rw [e1]
    exact_mod_cast h2
  have hce' : (n : Int) ≤ ((H * d : Nat) : Int) → r ≠ 0 →
      ((m * u : Nat) : Int) + u ≤ ((H * d : Nat) : Int) := fun hge hr => by
    have h2 : m * u + u ≤ H * d := by
      calc m * u + u = (m + 1) * 2 ^ s * d := by rw [e1]; ring
        _ ≤ H * d := Nat.mul_le_mul_right _ (hce (by exact_mod_cast hge) hr)
    exact_mod_cast h2
  have hr0 : (0 : Int) ≤ r := Int.natCast_nonneg r
  have hru : (r : Int) < u := by exact_mod_cast hml
  generalize ((H * d : Nat) : Int) = B at hfl' hce' ⊢
  generalize ((m * u : Nat) : Int) = P at hlo hhi hn hfl' hce' ⊢
  split
  · rename_i hup
    have hup' : (u : Int) ≤ 2 * r := by
      have : u ≤ 2 * r := by omega
      exact_mod_cast this
    have hr : r ≠ 0 := by omega
    rw [hhi, hn]
    rcases le_total B (P + r) with hle | hge
    · have h1 := hfl' (by rw [hn]; exact hle)
      rw [abs_of_nonneg (by omega), abs_of_nonpos (by omega)]
      omega
    · have h1 := hce' (by rw [hn]; exact hge) hr
      rw [abs_of_nonneg (by omega), abs_of_nonneg (by omega)]
      omega
  · rename_i hup
    have hup' : 2 * (r : Int) ≤ u := by
      have : 2 * r ≤ u := by omega
      exact_mod_cast this
    rw [hlo, hn]
    rcases le_total B (P + r) with hle | hge
    · have h1 := hfl' (by rw [hn]; exact hle)
      rw [abs_of_nonpos (by omega), abs_of_nonpos (by omega)]
      omega
    · by_cases hr : r = 0
      · subst hr
        simp
      · have h1 := hce' (by rw [hn]; exact hge) hr
        rw [abs_of_nonpos (by omega), abs_of_nonneg (by omega)]
        omega

/-- On a tie `roundMag` picks the magnitude with the even significand. -/
theorem roundMag_tie_even {n d : Nat}
    (h : 2 * (n % (d * 2 ^ (ilog2 (n / d) - 23))) = d * 2 ^ (ilog2 (n / d) - 23)) :
    roundMag n d / 2 ^ (ilog2 (n / d) - 23) % 2 = 0 := by
  unfold roundMag
  dsimp only
  rw [Nat.mul_div_cancel _ (Nat.two_pow_pos _)]
  split <;> omega

/-- The arithmetic agrees with IEEE-754 on reference values: inexact quotients
(1/3, 2/3, 1/10), integer conversions on a tie and above it, an inexact product,
halving into and inside the subnormal range (ties to even), overflow to infinity,
and `roundf` at and just below a half. -/
theorem reference_values :
    (div (ofNat 1) (ofNat 3)).toBits = 0x3EAAAAAB ∧
    (div (ofNat 2) (ofNat 3)).toBits = 0x3F2AAAAB ∧
    (div (ofNat 1) (ofNat 10)).toBits = 0x3DCCCCCD ∧
    (ofNat 16777217).toBits = 0x4B800000 ∧
    (ofNat 16777219).toBits = 0x4B800002 ∧
    (mul (ofBits 0x3F800001) (ofBits 0x3F800001)).toBits = 0x3F800002 ∧
    (mul (ofBits 0x3F800003) (ofBits 0x3F800003)).toBits = 0x3F800006 ∧
    (div (ofBits 0x00800000) (ofNat 2)).toBits = 0x00400000 ∧
    (div (ofBits 0x00000003) (ofNat 2)).toBits = 0x00000002 ∧
    (div (ofBits 0x00000001) (ofNat 2)).toBits = 0x00000000 ∧
    (mul (ofBits 0x7F7FFFFF) (ofNat 2)).toBits = 0x7F800000 ∧
    (roundf (ofBits 0x40200000)).toBits = 0x40400000 ∧
    (roundf (ofBits 0x3EFFFFFF)).toBits = 0x00000000 ∧
    (roundf (ofBits 0x3F000000)).toBits = 0x3F800000 ∧
    (roundf (ofBits 0xBF000000)).toBits = 0xBF800000 := by
  (set_option maxRecDepth 100000 in decide)

theorem ofBits_toBits {w : Nat} (h : w < 2 ^ 32) : (ofBits w).toBits = w := by
  unfold ofBits toBits
  dsimp only
  by_cases hs : w / 2 ^ 31 % 2 = 1
  · simp only [hs, decide_True, if_true]
    omega
  · simp only [hs, decide_False, Bool.false_eq_true, if_false]
    omega

theorem ofBits_valid (w : Nat) : (ofBits w).valid := by
  unfold ofBits valid
  dsimp only
  constructor
  · exact Nat.mod_lt _ (by decide)
  · exact Nat.mod_lt _ (Nat.two_pow_pos 23)

theorem round_nat_div (a b : Nat) (hb : 0 < b) :
    round ((a : ℚ) / b) = (((2 * a + b) / (2 * b) : Nat) : Int) := by
  have hb' : (b : ℚ) ≠ 0 := by exact_mod_cast hb.ne'
  have e : (a : ℚ) / b + 1 / 2 = ((2 * a + b : Nat) : ℚ) / ((2 * b : Nat) : ℚ) := by
    push_cast
    field_simp
    ring
  rw [round_eq, e, Rat.floor_natCast_div_natCast]
  norm_cast

theorem le_iff {x y : Binary32} :
    le x y = true ↔ x.isNaN = false ∧ y.isNaN = false ∧ x.toInt ≤ y.toInt := by
  simp [le, and_assoc]

theorem eq_iff {x y : Binary32} :
    eq x y = true ↔ x.isNaN = false ∧ y.isNaN = false ∧ x.toInt = y.toInt := by
  simp [eq, and_assoc]

theorem toInt_of_sign_false {x : Binary32} (h : x.sign = false) : x.toInt = x.scaled := by
  simp [toInt, h]

/-- A datum above a positive one is positive. -/
theorem sign_false_of_pos {x : Binary32} (h : 0 < x.toInt) : x.sign = false := by
  unfold toInt at h
  cases hs : x.sign
  · rfl
  · rw [hs] at h
    simp only [if_true] at h
    omega

theorem isInf_eq_false {x : Binary32} (hfin : x.scaled / 2 ^ 128 < 2 ^ 149) :
    x.isInf = false := by
  cases hi : x.isInf
  · rfl
  · exfalso
    simp only [isInf, Bool.and_eq_true, beq_iff_eq] at hi
    have : x.scaled = 2 ^ 23 * 2 ^ 254 := by simp [scaled, hi.1, hi.2]
    rw [this] at hfin
    exact absurd hfin (by decide)

theorem mul_finite {c x : Binary32} (hc : c.isNaN = false) (hci : c.isInf = false)
    (hx : x.isNaN = false) (hxi : x.isInf = false) :
    mul c x = ofScaled (xor c.sign x.sign) (roundMag (c.scaled * x.scaled) (2 ^ 149)) := by
  simp [mul, hc, hci, hx, hxi]

theorem div_finite {c y : Binary32} (hc : c.isNaN = false) (hci : c.isInf = false)
    (hy : y.isNaN = false) (hyi : y.isInf = false) (hy0 : y.scaled ≠ 0) :
    div c y = ofScaled (xor c.sign y.sign) (roundMag (c.scaled * 2 ^ 149) y.scaled) := by
  simp [div, hc, hci, hy, hyi, hy0]

/-- A product or quotient that is exactly a representable magnitude is not changed
by rounding. -/
theorem roundMag_exact {n d H : Nat} (hd : 0 < d) (hH : representable H) (h : n = H * d) :
    roundMag n d = H :=
  Nat.le_antisymm (roundMag_le hd hH (le_of_eq h)) (le_roundMag hd hH (le_of_eq h.symm))

theorem representable_pow_mul {k : Nat} (hk : representable k) (e : Nat) :
    representable (2 ^ e * k) := by
  apply representable_of_lt (e := e + (ilog2 k - 23))
  · have h1 : k < 2 ^ (ilog2 k + 1) := lt_pow_ilog2_succ k
    have h2 : 2 ^ (ilog2 k + 1) ≤ 2 ^ (24 + (ilog2 k - 23)) :=
      Nat.pow_le_pow_right (by decide) (by omega)
    calc 2 ^ e * k < 2 ^ e * 2 ^ (24 + (ilog2 k - 23)) :=
          Nat.mul_lt_mul_of_pos_left (lt_of_lt_of_le h1 h2) (Nat.two_pow_pos e)
      _ = 2 ^ (24 + (e + (ilog2 k - 23))) := by rw [← pow_add]; congr 1; omega
  · rw [pow_add]
    exact Nat.mul_dvd_mul (dvd_refl _) hk

/-- What the assertions of `pca9685_set_pwm_frequency` say about the bits. -/
theorem frequency_range {f : Binary32} (h24 : le (ofNat 24) f = true)
    (h1526 : le f (ofNat 1526) = true) :
    f.isNaN = false ∧ f.isInf = false ∧ f.sign = false ∧
    24 * 2 ^ 149 ≤ f.scaled ∧ f.scaled ≤ 1526 * 2 ^ 149 := by
  obtain ⟨-, hn, h1⟩ := le_iff.mp h24
  obtain ⟨-, -, h2⟩ := le_iff.mp h1526
  have c24 : (ofNat 24).toInt = 24 * 2 ^ 149 := by (set_option maxRecDepth 100000 in decide)
  have c1526 : (ofNat 1526).toInt = 1526 * 2 ^ 149 := by (set_option maxRecDepth 100000 in decide)
  rw [c24] at h1
  rw [c1526] at h2
  have hs : f.sign = false := sign_false_of_pos (lt_of_lt_of_le (by (set_option maxRecDepth 100000 in decide)) h1)
  rw [toInt_of_sign_false hs] at h1 h2
  have h1' : 24 * 2 ^ 149 ≤ f.scaled := by exact_mod_cast h1
  have h2' : f.scaled ≤ 1526 * 2 ^ 149 := by exact_mod_cast h2
  exact ⟨hn, isInf_eq_false (fin_of_le h2' (by decide)), hs, h1', h2'⟩

/-- `4096 * frequency` is exact. -/
theorem mul_4096 {f : Binary32} (hv : f.valid) (h24 : le (ofNat 24) f = true)
    (h1526 : le f (ofNat 1526) = true) :
    (mul (ofNat 4096) f).isNaN = false ∧ (mul (ofNat 4096) f).isInf = false ∧
    (mul (ofNat 4096) f).sign = false ∧ (mul (ofNat 4096) f).scaled = 4096 * f.scaled := by
  obtain ⟨hn, hi, hs, hlo, hhi⟩ := frequency_range h24 h1526
  have hc : (ofNat 4096).isNaN = false ∧ (ofNat 4096).isInf = false ∧
      (ofNat 4096).sign = false ∧ (ofNat 4096).scaled = 2 ^ 12 * 2 ^ 149 := by (set_option maxRecDepth 100000 in decide)
  have hrep : representable (2 ^ 12 * f.scaled) := representable_pow_mul (scaled_repr hv) 12
  have hex : roundMag ((ofNat 4096).scaled * f.scaled) (2 ^ 149) = 2 ^ 12 * f.scaled := by
    apply roundMag_exact (Nat.two_pow_pos 149) hrep
    rw [hc.2.2.2]; ring
  have hfin : 2 ^ 12 * f.scaled / 2 ^ 128 < 2 ^ 149 :=
    fin_of_le (Nat.mul_le_mul_left _ hhi) (by decide)
  rw [mul_finite hc.1 hc.2.1 hn hi, hex, hc.2.2.1, hs, isNaN_ofScaled, isInf_ofScaled _ hfin,
    sign_ofScaled, scaled_ofScaled hrep hfin]
  simp

/-- The exact quotient `25000000 / (4096 * f)` rounds to an integer between 4 and 254. -/
theorem exact_quotient_range {g : Nat} (hlo : 24 * 2 ^ 149 ≤ g) (hhi : g ≤ 1526 * 2 ^ 149) :
    4 ≤ (2 * (25000000 * 2 ^ 149) + 4096 * g) / (2 * (4096 * g)) ∧
    (2 * (25000000 * 2 ^ 149) + 4096 * g) / (2 * (4096 * g)) ≤ 254 := by
  have hX : 0 < 2 ^ 149 := Nat.two_pow_pos 149
  generalize 2 ^ 149 = X at *
  have hpos : 0 < 2 * (4096 * g) := by omega
  constructor
  · apply (Nat.le_div_iff_mul_le hpos).mpr
    omega
  · apply Nat.lt_succ_iff.mp
    apply (Nat.div_lt_iff_lt_mul hpos).mpr
    omega

theorem quotient_bound_aux {X g : Nat} (hlo : 24 * X ≤ g) :
    25000000 * X * X ≤ 255 * X * (4096 * g) := by
  have h := Nat.mul_le_mul_left (255 * X * 4096) hlo
  have e1 : 255 * X * 4096 * (24 * X) = 25067520 * (X * X) := by ring
  have e2 : 255 * X * 4096 * g = 255 * X * (4096 * g) := by ring
  have e3 : 25000000 * X * X = 25000000 * (X * X) := by ring
  rw [e1, e2] at h
  rw [e3]
  exact le_trans (Nat.mul_le_mul_right _ (by decide)) h

/-- The single-precision quotient of `pca9685_set_pwm_frequency` and its rounding. -/
theorem quotient_facts {f : Binary32} (hv : f.valid) (h24 : le (ofNat 24) f = true)
    (h1526 : le f (ofNat 1526) = true) :
    (div (ofNat 25000000) (mul (ofNat 4096) f)).sign = false ∧
    (div (ofNat 25000000) (mul (ofNat 4096) f)).scaled =
      roundMag (25000000 * 2 ^ 149 * 2 ^ 149) (4096 * f.scaled) ∧
    (roundf (div (ofNat 25000000) (mul (ofNat 4096) f))).truncToNat =
      (2 * roundMag (25000000 * 2 ^ 149 * 2 ^ 149) (4096 * f.scaled) + 2 ^ 149) / 2 ^ 150 := by
  obtain ⟨hn, hi, hs, hlo, hhi⟩ := frequency_range h24 h1526
  obtain ⟨tn, ti, ts, tsc⟩ := mul_4096 hv h24 h1526
  have hc : (ofNat 25000000).isNaN = false ∧ (ofNat 25000000).isInf = false ∧
      (ofNat 25000000).sign = false ∧ (ofNat 25000000).scaled = 25000000 * 2 ^ 149 := by (set_option maxRecDepth 100000 in decide)
  have hd : 0 < 4096 * f.scaled := by
    have := Nat.two_pow_pos 149
    omega
  have hQ : roundMag (25000000 * 2 ^ 149 * 2 ^ 149) (4096 * f.scaled) ≤ 255 * 2 ^ 149 := by
    apply roundMag_le hd (representable_mul_pow (by decide))
    exact quotient_bound_aux hlo
  have hfin : roundMag (25000000 * 2 ^ 149 * 2 ^ 149) (4096 * f.scaled) / 2 ^ 128 < 2 ^ 149 :=
    fin_of_le hQ (by decide)
  have hdiv : div (ofNat 25000000) (mul (ofNat 4096) f) =
      ofScaled false (roundMag (25000000 * 2 ^ 149 * 2 ^ 149) (4096 * f.scaled)) := by
    rw [div_finite hc.1 hc.2.1 tn ti (by rw [tsc]; omega), hc.2.2.1, ts, hc.2.2.2, tsc]
    rfl
  have hsc : (div (ofNat 25000000) (mul (ofNat 4096) f)).scaled =
      roundMag (25000000 * 2 ^ 149 * 2 ^ 149) (4096 * f.scaled) := by
    rw [hdiv, scaled_ofScaled (roundMag_repr _ _) hfin]
  refine ⟨by rw [hdiv, sign_ofScaled], hsc, ?_⟩
  rw [truncToNat_roundf (by rw [hdiv, isNaN_ofScaled]) (by rw [hdiv, isInf_ofScaled _ hfin])
    (by rw [hsc]; exact lt_of_le_of_lt hQ (by decide)), hsc]

/-- What the assertions and the two comparisons of `pca9685_set_channel_duty_cycle`
say about the bits in its last branch: `0 < duty_cycle < 1`. -/
theorem duty_cycle_range {d : Binary32} (h0 : le (ofNat 0) d = true)
    (h1 : le d (ofNat 1) = true) (hn0 : eq d (ofNat 0) = false)
    (hn1 : eq d (ofNat 1) = false) :
    d.isNaN = false ∧ d.isInf = false ∧ d.sign = false ∧ 0 < d.scaled ∧ d.scaled < 2 ^ 149 := by
  obtain ⟨c0n, hn, hle0⟩ := le_iff.mp h0
  obtain ⟨-, c1n, hle1⟩ := le_iff.mp h1
  have c0 : (ofNat 0).toInt = 0 := by (set_option maxRecDepth 100000 in decide)
  have c1 : (ofNat 1).toInt = 2 ^ 149 := by (set_option maxRecDepth 100000 in decide)
  have hne0 : d.toInt ≠ (ofNat 0).toInt := by
    intro he
    have := eq_iff.mpr ⟨hn, c0n, he⟩
    rw [hn0] at this; cases this
  have hne1 : d.toInt ≠ (ofNat 1).toInt := by
    intro he
    have := eq_iff.mpr ⟨hn, c1n, he⟩
    rw [hn1] at this; cases this
  rw [c0] at hle0 hne0
  rw [c1] at hle1 hne1
  have hpos : 0 < d.toInt := lt_of_le_of_ne hle0 (Ne.symm hne0)
  have hs : d.sign = false := sign_false_of_pos hpos
  rw [toInt_of_sign_false hs] at hpos hle1 hne1
  have hlt : (d.scaled : Int) < 2 ^ 149 := lt_of_le_of_ne hle1 hne1
  have hpos' : 0 < d.scaled := by exact_mod_cast hpos
  have hlt' : d.scaled < 2 ^ 149 := by exact_mod_cast hlt
  exact ⟨hn, isInf_eq_false (fin_of_le (le_of_lt hlt') (by decide)), hs, hpos', hlt'⟩

theorem product_bound_aux {c D X : Nat} (h : D ≤ X) : c * X * D ≤ c * X * X :=
  Nat.mul_le_mul_left _ h

theorem product_scale_aux (a : Nat) {X : Nat} (hX : 0 < X) :
    (2 * a + X) / (2 * X) = (2 * (a * X) + X * X) / (2 * (X * X)) := by
  have e1 : 2 * (a * X) + X * X = (2 * a + X) * X := by ring
  have e2 : 2 * (X * X) = 2 * X * X := by ring
  rw [e1, e2, Nat.mul_div_mul_right _ _ hX]

theorem half_round_le {a c X : Nat} (hX : 0 < X) (h : a ≤ c * X) :
    (2 * a + X) / (2 * X) ≤ c := by
  apply Nat.lt_succ_iff.mp
  apply (Nat.div_lt_iff_lt_mul (by omega)).mpr
  have e : (c + 1) * (2 * X) = 2 * (c * X) + 2 * X := by ring
  rw [e]
  omega

/-- The product `c * duty_cycle` of the duty-cycle conversion (`c` is 4095 or 255),
rounded to single precision and then to an integer by `roundf`: the result is the
integer nearest to the exact product, or the next one, and at most `c`. -/
theorem product_facts {c : Nat} {C d : Binary32}
    (hC : C.isNaN = false ∧ C.isInf = false ∧ C.sign = false ∧ C.scaled = c * 2 ^ 149)
    (hc : c < 2 ^ 22) (hn : d.isNaN = false) (hi : d.isInf = false) (hs : d.sign = false)
    (hlt : d.scaled < 2 ^ 149) :
    (mul C d).sign = false ∧
    (mul C d).scaled = roundMag (c * 2 ^ 149 * d.scaled) (2 ^ 149) ∧
    (roundf (mul C d)).truncToNat =
      (2 * roundMag (c * 2 ^ 149 * d.scaled) (2 ^ 149) + 2 ^ 149) / 2 ^ 150 ∧
    (2 * (c * d.scaled) + 2 ^ 149) / (2 * 2 ^ 149) ≤ (roundf (mul C d)).truncToNat ∧
    (roundf (mul C d)).truncToNat ≤ (2 * (c * d.scaled) + 2 ^ 149) / (2 * 2 ^ 149) + 1 ∧
    (roundf (mul C d)).truncToNat ≤ c := by
  have hX : 0 < 2 ^ 149 := Nat.two_pow_pos 149
  have hP : roundMag (c * 2 ^ 149 * d.scaled) (2 ^ 149) ≤ c * 2 ^ 149 :=
    roundMag_le hX (representable_mul_pow (lt_trans hc (by decide)))
      (product_bound_aux (le_of_lt hlt))
  have hcX : c * 2 ^ 149 < 2 ^ 22 * 2 ^ 149 := Nat.mul_lt_mul_of_pos_right hc hX
  have hfin : roundMag (c * 2 ^ 149 * d.scaled) (2 ^ 149) / 2 ^ 128 < 2 ^ 149 :=
    fin_of_le (le_trans hP (le_of_lt hcX)) (by decide)
  have hmul : mul C d = ofScaled false (roundMag (c * 2 ^ 149 * d.scaled) (2 ^ 149)) := by
    rw [mul_finite hC.1 hC.2.1 hn hi, hC.2.2.1, hs, hC.2.2.2]
    rfl
  have hsc : (mul C d).scaled = roundMag (c * 2 ^ 149 * d.scaled) (2 ^ 149) := by
    rw [hmul, scaled_ofScaled (roundMag_repr _ _) hfin]
  have hR : (roundf (mul C d)).truncToNat =
      (2 * roundMag (c * 2 ^ 149 * d.scaled) (2 ^ 149) + 2 ^ 149) / 2 ^ 150 := by
    rw [truncToNat_roundf (by rw [hmul, isNaN_ofScaled]) (by rw [hmul, isInf_ofScaled _ hfin])
      (by rw [hsc]; exact lt_of_le_of_lt hP (lt_trans hcX (by decide))), hsc]
  have hK : (2 * (c * d.scaled) + 2 ^ 149) / (2 * 2 ^ 149) =
      (2 * (c * 2 ^ 149 * d.scaled) + 2 ^ 149 * 2 ^ 149) / (2 * (2 ^ 149 * 2 ^ 149)) := by
    rw [product_scale_aux _ hX]
    have e : c * d.scaled * 2 ^ 149 = c * 2 ^ 149 * d.scaled := by ring
    rw [e]
  have hKc : (2 * (c * d.scaled) + 2 ^ 149) / (2 * 2 ^ 149) ≤ c := by
    exact half_round_le hX (Nat.mul_le_mul_left c (le_of_lt hlt))
  obtain ⟨r1, r2⟩ := round_roundMag hX hK (lt_of_le_of_lt hKc hc)
  refine ⟨by rw [hmul, sign_ofScaled], hsc, hR, by rw [hR]; exact r1, by rw [hR]; exact r2, ?_⟩
  rw [hR]
  have h149 : (2 : Nat) ^ 150 = 2 * 2 ^ 149 := by rw [← pow_succ']
  rw [h149]
  exact half_round_le hX hP

end Binary32

/-! ### The dimming table -/

/-- C5. The dimming table has exactly 256 entries, every entry is at most 4095,
each entry is at most the next one for all 255 adjacent index pairs, entry 0 is 0
and entry 255 is 4095. -/
theorem C5_dimming_table :
    CIEL_8_12.length = 256 ∧
    (∀ i, i < 256 → CIEL_8_12.getD i 0 ≤ 4095) ∧
    (∀ i, i < 255 → CIEL_8_12.getD i 0 ≤ CIEL_8_12.getD (i + 1) 0) ∧
    CIEL_8_12.getD 0 0 = 0 ∧ CIEL_8_12.getD 255 0 = 4095 := by
  refine ⟨by (set_option maxRecDepth 100000 in decide), ?_, ?_, by decide, by decide⟩
  · (set_option maxRecDepth 100000 in decide)
  · (set_option maxRecDepth 100000 in decide)

/-! ### Histories -/

theorem issued_append (t l : List Event) : issued t (t ++ l) = l := by
  simp [issued]

theorem writesAndDelays_append (l k : List Event) :
    writesAndDelays (l ++ k) = writesAndDelays l ++ writesAndDelays k := by
  simp [writesAndDelays]

theorem regWrites_append (l k : List Event) :
    regWrites (l ++ k) = regWrites l ++ regWrites k := by
  induction l with
  | nil => simp [regWrites]
  | cons e l ih =>
    cases e with
    | transmit dev bytes =>
      match bytes with
      | [] => simpa [regWrites] using ih
      | [_] => simpa [regWrites] using ih
      | _ :: _ :: _ => simp [regWrites, ih]
    | receive dev len => simpa [regWrites] using ih
    | delay ms => simpa [regWrites] using ih

/-! ### Mode register masks -/

theorem wakeup_mask (m : Nat) (h : m < 256) :
    PCA9685_CLEAR_BIT_MASK (PCA9685_CLEAR_BIT_MASK m PCA9685_REGISTER_MODE1_RESTART)
      PCA9685_REGISTER_MODE1_SLEEP = m &&& 0x6F := by
  revert m; (set_option maxRecDepth 100000 in decide)

theorem restart_mask (m : Nat) (h : m < 256) :
    PCA9685_SET_BIT_MASK (m &&& 0x6F) PCA9685_REGISTER_MODE1_RESTART = m &&& 0x6F ||| 0x80 := by
  revert m; (set_option maxRecDepth 100000 in decide)

theorem sleep_mask (m : Nat) (h : m < 256) :
    PCA9685_SET_BIT_MASK (PCA9685_CLEAR_BIT_MASK m PCA9685_REGISTER_MODE1_RESTART)
      PCA9685_REGISTER_MODE1_SLEEP = m &&& 0x7F ||| 0x10 := by
  revert m; (set_option maxRecDepth 100000 in decide)

theorem restart_read (m : Nat) (h : m < 256) :
    (PCA9685_READ_BIT_MASK m PCA9685_REGISTER_MODE1_RESTART != 0) = m.testBit 7 := by
  revert m; (set_option maxRecDepth 100000 in decide)

theorem sleep_read (m : Nat) (h : m < 256) :
    (PCA9685_READ_BIT_MASK m PCA9685_REGISTER_MODE1_SLEEP != 0) = m.testBit 4 := by
  revert m; (set_option maxRecDepth 100000 in decide)

theorem wakeup_bits (m : Nat) (h : m < 256) :
    (m &&& 0x6F) % 256 = m &&& 0x6F ∧ (m &&& 0x6F ||| 0x80) % 256 = m &&& 0x6F ||| 0x80 ∧
    (m &&& 0x6F).testBit 7 = false ∧ (m &&& 0x6F).testBit 4 = false ∧
    (∀ i, i < 8 → i ≠ 7 → i ≠ 4 → (m &&& 0x6F).testBit i = m.testBit i) ∧
    (m &&& 0x6F ||| 0x80).testBit 7 = true ∧
    (∀ i, i < 8 → i ≠ 7 → (m &&& 0x6F ||| 0x80).testBit i = (m &&& 0x6F).testBit i) := by
  revert m; (set_option maxRecDepth 100000 in decide)

theorem sleep_bits (m : Nat) (h : m < 256) :
    (m &&& 0x7F ||| 0x10) % 256 = m &&& 0x7F ||| 0x10 ∧
    (m &&& 0x7F ||| 0x10).testBit 7 = false ∧ (m &&& 0x7F ||| 0x10).testBit 4 = true ∧
    (∀ i, i < 8 → i ≠ 7 → i ≠ 4 → (m &&& 0x7F ||| 0x10).testBit i = m.testBit i) := by
  revert m; (set_option maxRecDepth 100000 in decide)

/-! ### Register reads -/

theorem read_u8_lt (env : Env) (handle : pca9685_handle_t) (a : Nat) (t : List Event) :
    (pca9685_read_u8 env handle a t).2.1 < 256 := by
  unfold pca9685_read_u8
  dsimp only
  split <;> exact Nat.mod_lt _ (by decide)

theorem mode1_read_lt (env : Env) (handle : pca9685_handle_t) (t : List Event) :
    mode1_read env handle t < 256 :=
  read_u8_lt env handle _ t

/-- A register read appends one or two transactions, none of them a register
write or a delay. -/
theorem read_u8_trace (env : Env) (handle : pca9685_handle_t) (a : Nat) (t : List Event) :
    ∃ l, (pca9685_read_u8 env handle a t).2.2 = t ++ l ∧
      writesAndDelays l = [] ∧ regWrites l = [] := by
  unfold pca9685_read_u8
  dsimp only
  split
  · exact ⟨[Event.transmit handle.device_address [a % 256],
        Event.receive handle.device_address 1],
      by simp, by simp [writesAndDelays, Event.isWrite, Event.isDelay], by simp [regWrites]⟩
  · exact ⟨[Event.transmit handle.device_address [a % 256]],
      by simp, by simp [writesAndDelays, Event.isWrite, Event.isDelay], by simp [regWrites]⟩

/-! ### Sleep and wake-up -/

/-- The history of `pca9685_wakeup`: the read, then one or two MODE1 writes. -/
theorem wakeup_trace (env : Env) (handle : pca9685_handle_t) (t : List Event) :
    (pca9685_wakeup env handle t).2 =
      (pca9685_read_u8 env handle PCA9685_REGISTER_MODE1 t).2.2 ++
        (if (mode1_read env handle t).testBit 7 then
          [Event.transmit handle.device_address [0, mode1_read env handle t &&& 0x6F],
            Event.delay 1,
            Event.transmit handle.device_address [0, mode1_read env handle t &&& 0x6F ||| 0x80]]
        else
          [Event.transmit handle.device_address [0, mode1_read env handle t &&& 0x6F]]) := by
  have hm := mode1_read_lt env handle t
  unfold pca9685_wakeup mode1_read at *
  generalize pca9685_read_u8 env handle PCA9685_REGISTER_MODE1 t = r at hm ⊢
  obtain ⟨ok, m, t1⟩ := r
  simp only at hm
  simp only [pca9685_write_u8, wakeup_mask m hm, restart_mask m hm, restart_read m hm]
  obtain ⟨h1, h2, -⟩ := wakeup_bits m hm
  by_cases hb : m.testBit 7 <;> simp [hb, h1, h2, PCA9685_REGISTER_MODE1]

/-- The history of `pca9685_sleep`: the read, then one MODE1 write. -/
theorem sleep_trace (env : Env) (handle : pca9685_handle_t) (t : List Event) :
    (pca9685_sleep env handle t).2 =
      (pca9685_read_u8 env handle PCA9685_REGISTER_MODE1 t).2.2 ++
        [Event.transmit handle.device_address [0, mode1_read env handle t &&& 0x7F ||| 0x10]] := by
  have hm := mode1_read_lt env handle t
  unfold pca9685_sleep mode1_read at *
  generalize pca9685_read_u8 env handle PCA9685_REGISTER_MODE1 t = r at hm ⊢
  obtain ⟨ok, m, t1⟩ := r
  simp only at hm
  simp only [pca9685_write_u8, sleep_mask m hm]
  simp [(sleep_bits m hm).1, PCA9685_REGISTER_MODE1]

/-- C6. For every MODE1 value `m` that the read leaves in `mode1_reg`, the register
writes and delays that `pca9685_wakeup` issues are exactly: one write to MODE1 of
`m` with bits 7 and 4 cleared and the other bits unchanged; and then, if and only
if bit 7 of `m` was set, one delay of 1 ms (at least 500 microseconds) followed by
one write to MODE1 of the first written value with bit 7 set. -/
theorem C6_wakeup_writes_and_delays (env : Env) (handle : pca9685_handle_t)
    (t : List Event) :
    writesAndDelays (issued t (pca9685_wakeup env handle t).2) =
      (if (mode1_read env handle t).testBit 7 then
        [Event.transmit handle.device_address [0, mode1_read env handle t &&& 0x6F],
          Event.delay 1,
          Event.transmit handle.device_address [0, mode1_read env handle t &&& 0x6F ||| 0x80]]
      else
        [Event.transmit handle.device_address [0, mode1_read env handle t &&& 0x6F]]) ∧
    500 ≤ (Event.delay 1).micros ∧
    (mode1_read env handle t &&& 0x6F).testBit 7 = false ∧
    (mode1_read env handle t &&& 0x6F).testBit 4 = false ∧
    (∀ i, i < 8 → i ≠ 7 → i ≠ 4 →
      (mode1_read env handle t &&& 0x6F).testBit i = (mode1_read env handle t).testBit i) ∧
    (mode1_read env handle t &&& 0x6F ||| 0x80).testBit 7 = true ∧
    (∀ i, i < 8 → i ≠ 7 →
      (mode1_read env handle t &&& 0x6F ||| 0x80).testBit i =
        (mode1_read env handle t &&& 0x6F).testBit i) := by
  obtain ⟨_, _, h7, h4, hrest, h7r, hrestr⟩ := wakeup_bits _ (mode1_read_lt env handle t)
  refine ⟨?_, by decide, h7, h4, hrest, h7r, hrestr⟩
  obtain ⟨l, hl, hwd, _⟩ := read_u8_trace env handle PCA9685_REGISTER_MODE1 t
  rw [wakeup_trace, hl, List.append_assoc, issued_append, writesAndDelays_append, hwd]
  by_cases hb : (mode1_read env handle t).testBit 7 <;>
    simp [hb, writesAndDelays, Event.isWrite, Event.isDelay]

/-- C7. For every MODE1 value `m` that the read leaves in `mode1_reg`,
`pca9685_sleep` issues exactly one register write and no delay: a write to MODE1
of `(m AND 0x7F) OR 0x10`, which has bit 7 clear, bit 4 set and every other bit
equal to the corresponding bit of `m`. -/
theorem C7_sleep_single_write (env : Env) (handle : pca9685_handle_t) (t : List Event) :
    writesAndDelays (issued t (pca9685_sleep env handle t).2) =
      [Event.transmit handle.device_address [0, mode1_read env handle t &&& 0x7F ||| 0x10]] ∧
    (mode1_read env handle t &&& 0x7F ||| 0x10).testBit 7 = false ∧
    (mode1_read env handle t &&& 0x7F ||| 0x10).testBit 4 = true ∧
    (∀ i, i < 8 → i ≠ 7 → i ≠ 4 →
      (mode1_read env handle t &&& 0x7F ||| 0x10).testBit i =
        (mode1_read env handle t).testBit i) := by
  obtain ⟨_, h7, h4, hrest⟩ := sleep_bits _ (mode1_read_lt env handle t)
  refine ⟨?_, h7, h4, hrest⟩
  obtain ⟨l, hl, hwd, _⟩ := read_u8_trace env handle PCA9685_REGISTER_MODE1 t
  rw [sleep_trace, hl, List.append_assoc, issued_append, writesAndDelays_append, hwd]
  simp [writesAndDelays, Event.isWrite, Event.isDelay]

/-! ### Frequency change -/

theorem mode1_content_append (m0 : Nat) (l k : List Event) :
    mode1_content m0 (l ++ k) = mode1_content (mode1_content m0 l) k := by
  simp [mode1_content, List.foldl_append]

theorem mode1_content_nil (m : Nat) : mode1_content m [] = m := rfl

theorem mode1_content_addr (m d a : Nat) (l : List Event) :
    mode1_content m (Event.transmit d [a] :: l) = mode1_content m l := by
  match a with
  | 0 => rfl
  | _ + 1 => rfl

theorem mode1_content_receive (m d n : Nat) (l : List Event) :
    mode1_content m (Event.receive d n :: l) = mode1_content m l := rfl

theorem mode1_content_mode1 (m d v : Nat) (vs : List Nat) (l : List Event) :
    mode1_content m (Event.transmit d (0 :: v :: vs) :: l) = mode1_content v l := rfl

theorem mode1_content_prescaler (m d : Nat) (vs : List Nat) (l : List Event) :
    mode1_content m (Event.transmit d (254 :: vs) :: l) = mode1_content m l := rfl

/-- A register read leaves the content of MODE1 as it was. -/
theorem read_u8_mode1_content (env : Env) (handle : pca9685_handle_t) (a m0 : Nat)
    (t : List Event) :
    mode1_content m0 (pca9685_read_u8 env handle a t).2.2 = mode1_content m0 t := by
  unfold pca9685_read_u8
  dsimp only
  split <;>
    simp [mode1_content_append, mode1_content_addr, mode1_content_receive, mode1_content_nil]

theorem mode1_read_idealChip (m0 : Nat) (handle : pca9685_handle_t) (t : List Event) :
    mode1_read (idealChip m0) handle t = mode1_content m0 t % 256 := by
  simp [mode1_read, pca9685_read_u8, idealChip, mode1_content_append, mode1_content_addr,
    mode1_content_receive, mode1_content_nil]

theorem prescaler_of_mod (f : Binary32) : prescaler_of f % 256 = prescaler_of f := by
  simp [prescaler_of]

/-- When the chip reports to be asleep, the frequency change is the read followed
by the PRESCALER write. -/
theorem set_pwm_frequency_asleep (env : Env) (handle : pca9685_handle_t) (f : Binary32)
    (t : List Event) (h24 : Binary32.le (Binary32.ofNat 24) f = true)
    (h1526 : Binary32.le f (Binary32.ofNat 1526) = true)
    (hs : (mode1_read env handle t).testBit 4 = true) :
    (pca9685_set_pwm_frequency env handle f t).trace =
      (pca9685_read_u8 env handle PCA9685_REGISTER_MODE1 t).2.2 ++
        [Event.transmit handle.device_address [0xFE, prescaler_of f]] := by
  have hm := mode1_read_lt env handle t
  have hp := prescaler_of_mod f
  unfold pca9685_set_pwm_frequency pca9685_is_sleeping mode1_read at *
  generalize pca9685_read_u8 env handle PCA9685_REGISTER_MODE1 t = r at hm hs ⊢
  obtain ⟨ok, m, t1⟩ := r
  simp only at hm hs
  simp [h24, h1526, sleep_read m hm, hs, pca9685_write_u8, Result.trace, hp,
    PCA9685_REGISTER_PRESCALER]

theorem awake_bits (m : Nat) (h : m < 256) (h4 : m.testBit 4 = false) :
    (PCA9685_READ_BIT_MASK m PCA9685_REGISTER_MODE1_SLEEP != 0) = false ∧
    PCA9685_SET_BIT_MASK (PCA9685_CLEAR_BIT_MASK m PCA9685_REGISTER_MODE1_RESTART)
      PCA9685_REGISTER_MODE1_SLEEP % 256 = m &&& 0x7F ||| 0x10 ∧
    (PCA9685_READ_BIT_MASK ((m &&& 0x7F ||| 0x10) % 256) PCA9685_REGISTER_MODE1_RESTART != 0)
      = false ∧
    PCA9685_CLEAR_BIT_MASK (PCA9685_CLEAR_BIT_MASK ((m &&& 0x7F ||| 0x10) % 256)
      PCA9685_REGISTER_MODE1_RESTART) PCA9685_REGISTER_MODE1_SLEEP % 256 = m &&& 0x6F ∧
    (m &&& 0x7F ||| 0x10).testBit 4 = true ∧ (m &&& 0x6F).testBit 4 = false := by
  revert m; (set_option maxRecDepth 100000 in decide)

/-- On the ideal chip, when MODE1 has the sleep bit clear, the frequency change is:
the read of `pca9685_is_sleeping`, the read and the write of `pca9685_sleep`, the
PRESCALER write, and the read and the single write of `pca9685_wakeup`. -/
theorem set_pwm_frequency_awake_ideal (handle : pca9685_handle_t) (f : Binary32) (m0 : Nat)
    (t : List Event) (h24 : Binary32.le (Binary32.ofNat 24) f = true)
    (h1526 : Binary32.le f (Binary32.ofNat 1526) = true)
    (hs : (mode1_read (idealChip m0) handle t).testBit 4 = false) :
    pca9685_set_pwm_frequency (idealChip m0) handle f t =
      Result.ret true (t ++
        [Event.transmit handle.device_address [0], Event.receive handle.device_address 1,
         Event.transmit handle.device_address [0], Event.receive handle.device_address 1,
         Event.transmit handle.device_address
           [0, mode1_read (idealChip m0) handle t &&& 0x7F ||| 0x10],
         Event.transmit handle.device_address [0xFE, prescaler_of f],
         Event.transmit handle.device_address [0], Event.receive handle.device_address 1,
         Event.transmit handle.device_address
           [0, mode1_read (idealChip m0) handle t &&& 0x6F]]) := by
  have hm := mode1_read_lt (idealChip m0) handle t
  have hp := prescaler_of_mod f
  rw [mode1_read_idealChip] at hm hs ⊢
  obtain ⟨b1, b2, b3, b4, -⟩ := awake_bits _ hm hs
  simp [pca9685_set_pwm_frequency, h24, h1526, pca9685_is_sleeping, pca9685_sleep, pca9685_wakeup,
    pca9685_read_u8, pca9685_write_u8, idealChip, mode1_content_append, hp,
    PCA9685_REGISTER_PRESCALER, PCA9685_REGISTER_MODE1, mode1_content_nil, mode1_content_addr,
    mode1_content_receive, mode1_content_mode1, mode1_content_prescaler, b1, b2, b3, b4]

/-- C8. For every frequency in [24, 1526], when the MODE1 value read at the start
of `pca9685_set_pwm_frequency` has the sleep bit set, the only register write of
the call is the PRESCALER write and there is no delay: no write to MODE1 is
issued, so MODE1 keeps its content and the chip is left sleeping. -/
theorem C8_frequency_when_sleeping (env : Env) (handle : pca9685_handle_t) (f : Binary32)
    (t : List Event) (h24 : Binary32.le (Binary32.ofNat 24) f = true)
    (h1526 : Binary32.le f (Binary32.ofNat 1526) = true)
    (hs : (mode1_read env handle t).testBit 4 = true) :
    writesAndDelays (issued t (pca9685_set_pwm_frequency env handle f t).trace) =
      [Event.transmit handle.device_address [0xFE, prescaler_of f]] ∧
    regWrites (issued t (pca9685_set_pwm_frequency env handle f t).trace) =
      [(0xFE, [prescaler_of f])] ∧
    ∀ m0, mode1_content m0 (pca9685_set_pwm_frequency env handle f t).trace =
      mode1_content m0 t := by
  have htr := set_pwm_frequency_asleep env handle f t h24 h1526 hs
  obtain ⟨l, hl, hwd, hrw⟩ := read_u8_trace env handle PCA9685_REGISTER_MODE1 t
  refine ⟨?_, ?_, ?_⟩
  · rw [htr, hl, List.append_assoc, issued_append, writesAndDelays_append, hwd]
    simp [writesAndDelays, Event.isWrite, Event.isDelay]
  · rw [htr, hl, List.append_assoc, issued_append, regWrites_append, hrw]
    simp [regWrites]
  · intro m0
    rw [htr, mode1_content_append, read_u8_mode1_content]
    simp [mode1_content_prescaler, mode1_content_nil]

/-- A run of C8: 1000 Hz on a chip whose MODE1 holds `0x30` (sleeping). -/
theorem C8_frequency_when_sleeping_witness :
    Binary32.le (Binary32.ofNat 24) (Binary32.ofNat 1000) = true ∧
    Binary32.le (Binary32.ofNat 1000) (Binary32.ofNat 1526) = true ∧
    (mode1_read (idealChip 0x30) sampleHandle []).testBit 4 = true ∧
    regWrites (issued [] (pca9685_set_pwm_frequency (idealChip 0x30) sampleHandle
      (Binary32.ofNat 1000) []).trace) = [(0xFE, [prescaler_of (Binary32.ofNat 1000)])] :=
  ⟨by (set_option maxRecDepth 100000 in decide), by (set_option maxRecDepth 100000 in decide), by decide,
    (C8_frequency_when_sleeping (idealChip 0x30) sampleHandle (Binary32.ofNat 1000) []
      (by (set_option maxRecDepth 100000 in decide)) (by (set_option maxRecDepth 100000 in decide)) (by decide)).2.1⟩

/-- C9. For every frequency in [24, 1526], on a transport that never fails in front
of a chip whose MODE1 reads return the last value written, when the MODE1 value
read at the start has the sleep bit clear the call succeeds and its register
writes are, in this order: a MODE1 write with the sleep bit set, the PRESCALER
write, and one wake-up write to MODE1 with the sleep bit clear; MODE1 has the
sleep bit set when the prescaler is written and clear when the call returns. -/
theorem C9_frequency_when_awake (handle : pca9685_handle_t) (f : Binary32) (m0 : Nat)
    (t : List Event) (h24 : Binary32.le (Binary32.ofNat 24) f = true)
    (h1526 : Binary32.le f (Binary32.ofNat 1526) = true)
    (hs : (mode1_read (idealChip m0) handle t).testBit 4 = false) :
    pca9685_set_pwm_frequency (idealChip m0) handle f t =
      Result.ret true
        ((t ++
          [Event.transmit handle.device_address [0], Event.receive handle.device_address 1,
           Event.transmit handle.device_address [0], Event.receive handle.device_address 1,
           Event.transmit handle.device_address
             [0, mode1_read (idealChip m0) handle t &&& 0x7F ||| 0x10]]) ++
          Event.transmit handle.device_address [0xFE, prescaler_of f] ::
          [Event.transmit handle.device_address [0], Event.receive handle.device_address 1,
           Event.transmit handle.device_address
             [0, mode1_read (idealChip m0) handle t &&& 0x6F]]) ∧
    regWrites (issued t (pca9685_set_pwm_frequency (idealChip m0) handle f t).trace) =
      [(0, [mode1_read (idealChip m0) handle t &&& 0x7F ||| 0x10]),
       (0xFE, [prescaler_of f]),
       (0, [mode1_read (idealChip m0) handle t &&& 0x6F])] ∧
    (mode1_read (idealChip m0) handle t &&& 0x7F ||| 0x10).testBit 4 = true ∧
    (mode1_read (idealChip m0) handle t &&& 0x6F).testBit 4 = false ∧
    (mode1_content m0
      (t ++
        [Event.transmit handle.device_address [0], Event.receive handle.device_address 1,
         Event.transmit handle.device_address [0], Event.receive handle.device_address 1,
         Event.transmit handle.device_address
           [0, mode1_read (idealChip m0) handle t &&& 0x7F ||| 0x10]])).testBit 4 = true ∧
    (mode1_content m0
      (pca9685_set_pwm_frequency (idealChip m0) handle f t).trace).testBit 4 = false := by
  have htr := set_pwm_frequency_awake_ideal handle f m0 t h24 h1526 hs
  obtain ⟨-, -, -, -, b5, b6⟩ := awake_bits _ (mode1_read_lt (idealChip m0) handle t) hs
  refine ⟨by rw [htr]; simp, ?_, b5, b6, ?_, ?_⟩
  · rw [htr]
    simp [Result.trace, issued_append, regWrites]
  · simp [mode1_content_append, mode1_content_nil, mode1_content_addr,
      mode1_content_receive, mode1_content_mode1, b5]
  · rw [htr]
    simp [Result.trace, mode1_content_append, mode1_content_nil, mode1_content_addr,
      mode1_content_receive, mode1_content_mode1, mode1_content_prescaler, b6]

/-- A run of C9: 1000 Hz on a chip whose MODE1 holds `0x20` (awake). -/
theorem C9_frequency_when_awake_witness :
    Binary32.le (Binary32.ofNat 24) (Binary32.ofNat 1000) = true ∧
    Binary32.le (Binary32.ofNat 1000) (Binary32.ofNat 1526) = true ∧
    (mode1_read (idealChip 0x20) sampleHandle []).testBit 4 = false ∧
    regWrites (issued [] (pca9685_set_pwm_frequency (idealChip 0x20) sampleHandle
      (Binary32.ofNat 1000) []).trace) =
      [(0, [mode1_read (idealChip 0x20) sampleHandle [] &&& 0x7F ||| 0x10]),
       (0xFE, [prescaler_of (Binary32.ofNat 1000)]),
       (0, [mode1_read (idealChip 0x20) sampleHandle [] &&& 0x6F])] :=
  ⟨by (set_option maxRecDepth 100000 in decide), by (set_option maxRecDepth 100000 in decide), by decide,
    (C9_frequency_when_awake sampleHandle (Binary32.ofNat 1000) 0x20 []
      (by (set_option maxRecDepth 100000 in decide)) (by (set_option maxRecDepth 100000 in decide)) (by decide)).2.1⟩

/-! ### Rejected arguments -/

/-- C10. Every invalid input is rejected before any transport transaction: a channel
of 16 or more or a time above 4096 given to `pca9685_set_channel_pwm_times`, a
channel of 16 or more or a duty cycle that is not within [0, 1] given to
`pca9685_set_channel_duty_cycle`, and a frequency that is not within [24, 1526]
given to `pca9685_set_pwm_frequency` each fail an assertion with the history
unchanged; a block length of 0 or above 4 makes `pca9685_write_data` return
`false` with the history unchanged. -/
theorem C10_invalid_inputs_rejected (env : Env) (handle : pca9685_handle_t)
    (t : List Event) :
    (∀ channel on_time off_time, 16 ≤ channel ∨ 4096 < on_time ∨ 4096 < off_time →
      pca9685_set_channel_pwm_times env handle channel on_time off_time t = Result.abort t) ∧
    (∀ channel duty_cycle logarithmic,
      16 ≤ channel ∨ Binary32.le (Binary32.ofNat 0) duty_cycle = false ∨
        Binary32.le duty_cycle (Binary32.ofNat 1) = false →
      pca9685_set_channel_duty_cycle env handle channel duty_cycle logarithmic t =
        Result.abort t) ∧
    (∀ frequency, Binary32.le (Binary32.ofNat 24) frequency = false ∨
        Binary32.le frequency (Binary32.ofNat 1526) = false →
      pca9685_set_pwm_frequency env handle frequency t = Result.abort t) ∧
    (∀ address data length, length = 0 ∨ 4 < length →
      pca9685_write_data env handle address data length t = (false, t)) := by
  have hpwm : ∀ channel on_time off_time, 16 ≤ channel ∨ 4096 < on_time ∨ 4096 < off_time →
      pca9685_set_channel_pwm_times env handle channel on_time off_time t = Result.abort t := by
    intro channel on_time off_time h
    unfold pca9685_set_channel_pwm_times
    rcases h with h | h | h
    · simp [Nat.not_lt.mpr h]
    · by_cases hc : channel < 16 <;> simp [hc, Nat.not_le.mpr h]
    · by_cases hc : channel < 16 <;> by_cases ho : on_time ≤ 4096 <;>
        simp [hc, ho, Nat.not_le.mpr h]
  refine ⟨hpwm, ?_, ?_, ?_⟩
  · intro channel duty_cycle logarithmic h
    unfold pca9685_set_channel_duty_cycle
    by_cases h0 : Binary32.le (Binary32.ofNat 0) duty_cycle = true
    · by_cases h1 : Binary32.le duty_cycle (Binary32.ofNat 1) = true
      · have hc : 16 ≤ channel := by
          rcases h with h | h | h
          · exact h
          · rw [h0] at h; cases h
          · rw [h1] at h; cases h
        simp only [h0, h1, Bool.not_true, Bool.false_eq_true, if_false]
        split
        · exact hpwm _ _ _ (Or.inl hc)
        · split
          · exact hpwm _ _ _ (Or.inl hc)
          · exact hpwm _ _ _ (Or.inl hc)
      · simp [h0, h1]
    · simp [h0]
  · intro frequency h
    unfold pca9685_set_pwm_frequency
    rcases h with h | h
    · simp [h]
    · by_cases h0 : Binary32.le (Binary32.ofNat 24) frequency = true <;> simp [h0, h]
  · intro address data length h
    unfold pca9685_write_data
    rcases h with h | h
    · simp [h]
    · simp [h]

/-- Runs of C10: channel 16, duty cycle 2, frequency 2000 and an empty block. -/
theorem C10_invalid_inputs_rejected_witness :
    pca9685_set_channel_pwm_times (idealChip 0) sampleHandle 16 0 0 [] = Result.abort [] ∧
    pca9685_set_channel_duty_cycle (idealChip 0) sampleHandle 0 (Binary32.ofNat 2) false [] =
      Result.abort [] ∧
    pca9685_set_pwm_frequency (idealChip 0) sampleHandle (Binary32.ofNat 2000) [] =
      Result.abort [] ∧
    pca9685_write_data (idealChip 0) sampleHandle 0 [] 0 [] = (false, []) :=
  ⟨(C10_invalid_inputs_rejected (idealChip 0) sampleHandle []).1 16 0 0 (Or.inl (by decide)),
   (C10_invalid_inputs_rejected (idealChip 0) sampleHandle []).2.1 0 (Binary32.ofNat 2) false
     (Or.inr (Or.inr (by (set_option maxRecDepth 100000 in decide)))),
   (C10_invalid_inputs_rejected (idealChip 0) sampleHandle []).2.2.1 (Binary32.ofNat 2000)
     (Or.inr (by (set_option maxRecDepth 100000 in decide))),
   (C10_invalid_inputs_rejected (idealChip 0) sampleHandle []).2.2.2 0 [] 0 (Or.inl rfl)⟩

/-! ### Frequency to prescaler -/

theorem set_pwm_frequency_awake (env : Env) (handle : pca9685_handle_t) (f : Binary32)
    (t : List Event) (h24 : Binary32.le (Binary32.ofNat 24) f = true)
    (h1526 : Binary32.le f (Binary32.ofNat 1526) = true)
    (hs : (mode1_read env handle t).testBit 4 = false) :
    (pca9685_set_pwm_frequency env handle f t).trace =
      (pca9685_wakeup env handle
        ((pca9685_sleep env handle (pca9685_read_u8 env handle PCA9685_REGISTER_MODE1 t).2.2).2 ++
          [Event.transmit handle.device_address [0xFE, prescaler_of f]])).2 := by
  have hm := mode1_read_lt env handle t
  have hp := prescaler_of_mod f
  unfold pca9685_set_pwm_frequency pca9685_is_sleeping mode1_read at *
  generalize pca9685_read_u8 env handle PCA9685_REGISTER_MODE1 t = r at hm hs ⊢
  obtain ⟨ok, m, t1⟩ := r
  simp only at hm hs
  simp [h24, h1526, sleep_read m hm, hs, pca9685_write_u8, Result.trace, hp,
    PCA9685_REGISTER_PRESCALER]

/-- In every environment the frequency change writes the PRESCALER register once,
with the byte `prescaler_of frequency`. -/
theorem set_pwm_frequency_prescaler_write (env : Env) (handle : pca9685_handle_t)
    (f : Binary32) (t : List Event) (h24 : Binary32.le (Binary32.ofNat 24) f = true)
    (h1526 : Binary32.le f (Binary32.ofNat 1526) = true) :
    (regWrites (issued t (pca9685_set_pwm_frequency env handle f t).trace)).filter
      (fun w => w.1 = 0xFE) = [(0xFE, [prescaler_of f])] := by
  by_cases hs : (mode1_read env handle t).testBit 4 = true
  · obtain ⟨l, hl, -, hrw⟩ := read_u8_trace env handle PCA9685_REGISTER_MODE1 t
    rw [set_pwm_frequency_asleep env handle f t h24 h1526 hs, hl, List.append_assoc,
      issued_append, regWrites_append, hrw]
    simp [regWrites]
  · have hs' : (mode1_read env handle t).testBit 4 = false := by simpa using hs
    obtain ⟨l1, hl1, -, hrw1⟩ := read_u8_trace env handle PCA9685_REGISTER_MODE1 t
    rw [set_pwm_frequency_awake env handle f t h24 h1526 hs', wakeup_trace, sleep_trace]
    obtain ⟨l2, hl2, -, hrw2⟩ := read_u8_trace env handle PCA9685_REGISTER_MODE1
      (pca9685_read_u8 env handle PCA9685_REGISTER_MODE1 t).2.2
    generalize mode1_read env handle (pca9685_read_u8 env handle PCA9685_REGISTER_MODE1 t).2.2
      = m2 at *
    rw [hl2]
    obtain ⟨l3, hl3, -, hrw3⟩ := read_u8_trace env handle PCA9685_REGISTER_MODE1
      ((pca9685_read_u8 env handle PCA9685_REGISTER_MODE1 t).2.2 ++ l2 ++
        [Event.transmit handle.device_address [0, m2 &&& 127 ||| 16]] ++
        [Event.transmit handle.device_address [254, prescaler_of f]])
    generalize mode1_read env handle
      ((pca9685_read_u8 env handle PCA9685_REGISTER_MODE1 t).2.2 ++ l2 ++
        [Event.transmit handle.device_address [0, m2 &&& 127 ||| 16]] ++
        [Event.transmit handle.device_address [254, prescaler_of f]]) = m3 at *
    rw [hl3, hl1]
    simp only [List.append_assoc, issued_append, regWrites_append, hrw1, hrw2, hrw3]
    by_cases hb : m3.testBit 7 <;> simp [hb, regWrites]

theorem toRat_of_sign_false {x : Binary32} (h : x.sign = false) :
    x.toRat = (x.scaled : ℚ) / 2 ^ 149 := by
  simp [Binary32.toRat, Binary32.toInt_of_sign_false h]

/-- The specification's prescaler as integer arithmetic on the bits of `f`. -/
theorem spec_prescaler_eq {f : Binary32} (hs : f.sign = false) (hg : 0 < f.scaled) :
    spec_prescaler f =
      (((2 * (25000000 * 2 ^ 149) + 4096 * f.scaled) / (2 * (4096 * f.scaled)) : Nat) : Int)
        - 1 := by
  have hg' : (f.scaled : ℚ) ≠ 0 := by exact_mod_cast hg.ne'
  have e : (25000000 : ℚ) / (4096 * f.toRat) =
      ((25000000 * 2 ^ 149 : Nat) : ℚ) / ((4096 * f.scaled : Nat) : ℚ) := by
    rw [toRat_of_sign_false hs]
    push_cast
    field_simp
    norm_num
  unfold spec_prescaler
  rw [e, Binary32.round_nat_div _ _ (by omega)]

theorem div_scale_aux (a b : Nat) {X : Nat} (hX : 0 < X) :
    (2 * (a * X) + b) / (2 * b) = (2 * (a * X * X) + b * X) / (2 * (b * X)) := by
  have e1 : 2 * (a * X * X) + b * X = (2 * (a * X) + b) * X := by ring
  have e2 : 2 * (b * X) = 2 * b * X := by ring
  rw [e1, e2, Nat.mul_div_mul_right _ _ hX]

/-- The byte stored in `prescaler`, in terms of the rounded quotient. -/
theorem prescaler_of_facts {f : Binary32} (hv : f.valid)
    (h24 : Binary32.le (Binary32.ofNat 24) f = true)
    (h1526 : Binary32.le f (Binary32.ofNat 1526) = true) :
    (prescaler_of f : Int) =
      round (Binary32.div (Binary32.ofNat 25000000)
        (Binary32.mul (Binary32.ofNat 4096) f)).toRat - 1 ∧
    spec_prescaler f ≤ prescaler_of f ∧ (prescaler_of f : Int) ≤ spec_prescaler f + 1 := by
  obtain ⟨hn, hi, hs, hlo, hhi⟩ := Binary32.frequency_range h24 h1526
  obtain ⟨qs, qsc, qr⟩ := Binary32.quotient_facts hv h24 h1526
  obtain ⟨k4, k254⟩ := Binary32.exact_quotient_range hlo hhi
  have hg : 0 < f.scaled := lt_of_lt_of_le (by decide) hlo
  have hd : 0 < 4096 * f.scaled := by omega
  have hK : (2 * (25000000 * 2 ^ 149) + 4096 * f.scaled) / (2 * (4096 * f.scaled)) =
      (2 * (25000000 * 2 ^ 149 * 2 ^ 149) + 4096 * f.scaled * 2 ^ 149) /
        (2 * (4096 * f.scaled * 2 ^ 149)) := by
    exact div_scale_aux _ _ (Nat.two_pow_pos 149)
  obtain ⟨r1, r2⟩ := Binary32.round_roundMag hd hK (lt_of_le_of_lt k254 (by decide))
  have hp : prescaler_of f + 1 =
      (2 * Binary32.roundMag (25000000 * 2 ^ 149 * 2 ^ 149) (4096 * f.scaled) + 2 ^ 149)
        / 2 ^ 150 := by
    unfold prescaler_of
    dsimp only
    rw [qr]
    omega
  have hround : round (Binary32.div (Binary32.ofNat 25000000)
      (Binary32.mul (Binary32.ofNat 4096) f)).toRat = ((prescaler_of f + 1 : Nat) : Int) := by
    rw [toRat_of_sign_false qs, qsc, hp]
    have := Binary32.round_nat_div
      (Binary32.roundMag (25000000 * 2 ^ 149 * 2 ^ 149) (4096 * f.scaled)) (2 ^ 149)
      (Nat.two_pow_pos 149)
    rw [show (2 : Nat) * 2 ^ 149 = 2 ^ 150 from by rw [← pow_succ']] at this
    rw [← this]
    simp only [Nat.cast_pow, Nat.cast_ofNat]
  rw [spec_prescaler_eq hs hg, hround]
  refine ⟨by push_cast; ring, ?_, ?_⟩
  · have : (2 * (25000000 * 2 ^ 149) + 4096 * f.scaled) / (2 * (4096 * f.scaled)) ≤
        prescaler_of f + 1 := by rw [hp]; exact r1
    omega
  · have : prescaler_of f + 1 ≤
        (2 * (25000000 * 2 ^ 149) + 4096 * f.scaled) / (2 * (4096 * f.scaled)) + 1 := by
      rw [hp]; exact r2
    omega

/-! ### Duty cycle to time pair -/

/-- The exact product `c × d`, rounded half away from zero, as integer arithmetic on
the bits of `d`. -/
theorem round_mul_toRat (c : Nat) {d : Binary32} (hs : d.sign = false) :
    round ((c : ℚ) * d.toRat) =
      (((2 * (c * d.scaled) + 2 ^ 149) / (2 * 2 ^ 149) : Nat) : Int) := by
  have e : (c : ℚ) * d.toRat = ((c * d.scaled : Nat) : ℚ) / ((2 ^ 149 : Nat) : ℚ) := by
    rw [toRat_of_sign_false hs, Nat.cast_mul, Nat.cast_pow, Nat.cast_ofNat, mul_div_assoc]
  rw [e, Binary32.round_nat_div _ _ (Nat.two_pow_pos 149)]

/-- The value of a finite non-negative datum, rounded half away from zero. -/
theorem round_toRat {q : Binary32} (hs : q.sign = false) :
    round q.toRat = (((2 * q.scaled + 2 ^ 149) / 2 ^ 150 : Nat) : Int) := by
  have e : q.toRat = ((q.scaled : Nat) : ℚ) / ((2 ^ 149 : Nat) : ℚ) := by
    rw [toRat_of_sign_false hs, Nat.cast_pow, Nat.cast_ofNat]
  have h150 : (2 : Nat) ^ 150 = 2 * 2 ^ 149 := by rw [← pow_succ']
  rw [e, Binary32.round_nat_div _ _ (Nat.two_pow_pos 149), h150]

theorem ofNat_4095_facts :
    (Binary32.ofNat 4095).isNaN = false ∧ (Binary32.ofNat 4095).isInf = false ∧
    (Binary32.ofNat 4095).sign = false ∧ (Binary32.ofNat 4095).scaled = 4095 * 2 ^ 149 := by
  (set_option maxRecDepth 100000 in decide)

theorem ofNat_255_facts :
    (Binary32.ofNat 255).isNaN = false ∧ (Binary32.ofNat 255).isInf = false ∧
    (Binary32.ofNat 255).sign = false ∧ (Binary32.ofNat 255).scaled = 255 * 2 ^ 149 := by
  (set_option maxRecDepth 100000 in decide)

/-- The register block of a channel and the bytes of a time pair. -/
theorem set_channel_pwm_times_ok (env : Env) (handle : pca9685_handle_t)
    (channel on_time off_time : Nat) (t : List Event) (hc : channel < 16)
    (hon : on_time ≤ 4096) (hoff : off_time ≤ 4096) :
    pca9685_set_channel_pwm_times env handle channel on_time off_time t =
      Result.ret
        (env.ok (t ++ [Event.transmit handle.device_address
          [6 + 4 * channel, on_time % 256, on_time / 256, off_time % 256, off_time / 256]]))
        (t ++ [Event.transmit handle.device_address
          [6 + 4 * channel, on_time % 256, on_time / 256, off_time % 256, off_time / 256]]) := by
  have ha : (PCA9685_REGISTER_LED0_ON_L + channel * 4) % 4294967296 % 256 = 6 + 4 * channel := by
    unfold PCA9685_REGISTER_LED0_ON_L; omega
  have h1 : on_time / 256 % 256 = on_time / 256 := by omega
  have h2 : off_time / 256 % 256 = off_time / 256 := by omega
  unfold pca9685_set_channel_pwm_times pca9685_write_data
  simp [hc, hon, hoff, ha, h1, h2, Nat.shiftRight_eq_div_pow]

/-- The last branch of `pca9685_set_channel_duty_cycle`. -/
theorem set_channel_duty_cycle_inner (env : Env) (handle : pca9685_handle_t) (channel : Nat)
    (d : Binary32) (logarithmic : Bool) (t : List Event) (hc : channel < 16)
    (h0 : Binary32.le (Binary32.ofNat 0) d = true) (h1 : Binary32.le d (Binary32.ofNat 1) = true)
    (hn0 : Binary32.eq d (Binary32.ofNat 0) = false)
    (hn1 : Binary32.eq d (Binary32.ofNat 1) = false)
    (hr : required_on_time d logarithmic ≤ 4095) :
    pca9685_set_channel_duty_cycle env handle channel d logarithmic t =
      pca9685_set_channel_pwm_times env handle channel
        (if channel = 0 then 0 else channel * 256 - 1)
        (((if channel = 0 then 0 else channel * 256 - 1) + required_on_time d logarithmic)
          % 4096) t := by
  have hp : phase_on_time channel = if channel = 0 then 0 else channel * 256 - 1 := by
    unfold phase_on_time
    split
    · rfl
    · omega
  have hmask : ∀ x, x &&& 0xfff = x % 4096 := fun x => Nat.and_pow_two_sub_one_eq_mod x 12
  have hsum : ((if channel = 0 then 0 else channel * 256 - 1) + required_on_time d logarithmic)
      % 2 ^ 32 = (if channel = 0 then 0 else channel * 256 - 1)
        + required_on_time d logarithmic := by
    apply Nat.mod_eq_of_lt
    split <;> omega
  unfold pca9685_set_channel_duty_cycle
  simp only [h0, h1, hn0, hn1, Bool.not_true, Bool.false_eq_true, if_false, hp, hmask, hsum]

/-- C1 (amended). For every binary32 frequency `f` in [24, 1526],
`pca9685_set_pwm_frequency` writes to the PRESCALER register (0xFE), in every
environment, the byte `roundf(q) - 1` where `q` is the quotient
`25000000 / (4096 * f)` computed in single precision (`4096 * f` is exact, the
division is rounded to the nearest binary32 value) and `roundf` rounds half away
from zero.  The byte is `round(25000000 / (4096 * f)) - 1` for the exact quotient,
or one more than that.  For `f = 1000` the byte is 5. -/
theorem C1_prescaler_single_precision (env : Env) (handle : pca9685_handle_t)
    (f : Binary32) (t : List Event) (hv : f.valid)
    (h24 : Binary32.le (Binary32.ofNat 24) f = true)
    (h1526 : Binary32.le f (Binary32.ofNat 1526) = true) :
    (regWrites (issued t (pca9685_set_pwm_frequency env handle f t).trace)).filter
      (fun w => w.1 = 0xFE) = [(0xFE, [prescaler_of f])] ∧
    (prescaler_of f : Int) =
      round (Binary32.div (Binary32.ofNat 25000000)
        (Binary32.mul (Binary32.ofNat 4096) f)).toRat - 1 ∧
    (Binary32.mul (Binary32.ofNat 4096) f).toRat = 4096 * f.toRat ∧
    spec_prescaler f ≤ prescaler_of f ∧ (prescaler_of f : Int) ≤ spec_prescaler f + 1 ∧
    prescaler_of (Binary32.ofNat 1000) = 5 := by
  obtain ⟨p1, p2, p3⟩ := prescaler_of_facts hv h24 h1526
  obtain ⟨-, -, hs, -, -⟩ := Binary32.frequency_range h24 h1526
  obtain ⟨-, -, ts, tsc⟩ := Binary32.mul_4096 hv h24 h1526
  refine ⟨set_pwm_frequency_prescaler_write env handle f t h24 h1526, p1, ?_, p2, p3,
    by (set_option maxRecDepth 100000 in decide)⟩
  rw [toRat_of_sign_false ts, toRat_of_sign_false hs, tsc, Nat.cast_mul, Nat.cast_ofNat,
    mul_div_assoc]

/-- A run of C1: 1000 Hz on a sleeping chip. -/
theorem C1_prescaler_single_precision_witness :
    (Binary32.ofNat 1000).valid ∧
    Binary32.le (Binary32.ofNat 24) (Binary32.ofNat 1000) = true ∧
    Binary32.le (Binary32.ofNat 1000) (Binary32.ofNat 1526) = true ∧
    (regWrites (issued [] (pca9685_set_pwm_frequency (idealChip 0x30) sampleHandle
      (Binary32.ofNat 1000) []).trace)).filter (fun w => w.1 = 0xFE) =
      [(0xFE, [prescaler_of (Binary32.ofNat 1000)])] :=
  ⟨by (set_option maxRecDepth 100000 in decide), by (set_option maxRecDepth 100000 in decide),
    by (set_option maxRecDepth 100000 in decide),
    (C1_prescaler_single_precision (idealChip 0x30) sampleHandle (Binary32.ofNat 1000) []
      (by (set_option maxRecDepth 100000 in decide))
      (by (set_option maxRecDepth 100000 in decide))
      (by (set_option maxRecDepth 100000 in decide))).1⟩

/-- C1 as stated fails at the frequency 718.0606689453125 Hz (bits `0x443383E2`,
the value `11764706 / 2^14`): the exact quotient `25000000 / (4096 * f)` lies just
below 8.5 and rounds to 8, so the claimed byte is 7, while the single-precision
quotient is exactly 8.5, `roundf` gives 9 and the byte written is 8. -/
theorem C1_counterexample :
    (Binary32.ofBits 0x443383E2).valid ∧
    (Binary32.ofBits 0x443383E2).toRat = 11764706 / 16384 ∧
    Binary32.le (Binary32.ofNat 24) (Binary32.ofBits 0x443383E2) = true ∧
    Binary32.le (Binary32.ofBits 0x443383E2) (Binary32.ofNat 1526) = true ∧
    regWrites (issued [] (pca9685_set_pwm_frequency (idealChip 0x30) sampleHandle
      (Binary32.ofBits 0x443383E2) []).trace) = [(0xFE, [8])] ∧
    (Binary32.div (Binary32.ofNat 25000000)
      (Binary32.mul (Binary32.ofNat 4096) (Binary32.ofBits 0x443383E2))).toRat = 17 / 2 ∧
    round ((25000000 : ℚ) / (4096 * (Binary32.ofBits 0x443383E2).toRat)) - 1 = 7 ∧
    regWrites (issued [] (pca9685_set_pwm_frequency (idealChip 0x30) sampleHandle
      (Binary32.ofBits 0x443383E2) []).trace) ≠ [(0xFE, [7])] := by
  have hs : (Binary32.ofBits 0x443383E2).sign = false := by decide
  have hsc : (Binary32.ofBits 0x443383E2).scaled = 11764706 * 2 ^ 135 := by
    (set_option maxRecDepth 100000 in decide)
  have hq : (Binary32.div (Binary32.ofNat 25000000)
      (Binary32.mul (Binary32.ofNat 4096) (Binary32.ofBits 0x443383E2))) = ⟨false, 130, 524288⟩ := by
    (set_option maxRecDepth 100000 in decide)
  refine ⟨by decide, ?_, by (set_option maxRecDepth 100000 in decide),
    by (set_option maxRecDepth 100000 in decide),
    by (set_option maxRecDepth 100000 in decide), ?_, ?_,
    by (set_option maxRecDepth 100000 in decide)⟩
  · rw [toRat_of_sign_false hs, hsc]
    norm_num
  · rw [hq, toRat_of_sign_false rfl]
    norm_num [Binary32.scaled]
  · have h := spec_prescaler_eq hs (by rw [hsc]; positivity)
    unfold spec_prescaler at h
    rw [h, hsc]
    have : (2 * (25000000 * 2 ^ 149) + 4096 * (11764706 * 2 ^ 135)) /
        (2 * (4096 * (11764706 * 2 ^ 135))) = 8 := by decide
    rw [this]
    rfl

/-- C2. For every channel below 16 and both values of `logarithmic`,
`pca9685_set_channel_duty_cycle` with a duty cycle equal to 0.0 passes the time
pair (0, 4096) to `pca9685_set_channel_pwm_times`, and with a duty cycle equal to
1.0 the pair (4096, 0), without phase offset: the one transaction carries the
bytes 0, 0, 0, 0x10, respectively 0, 0x10, 0, 0, after the channel's register
address. -/
theorem C2_duty_cycle_sentinels (env : Env) (handle : pca9685_handle_t) (channel : Nat)
    (d : Binary32) (logarithmic : Bool) (t : List Event) (hc : channel < 16) :
    (Binary32.eq d (Binary32.ofNat 0) = true →
      pca9685_set_channel_duty_cycle env handle channel d logarithmic t =
        pca9685_set_channel_pwm_times env handle channel 0 4096 t ∧
      issued t (pca9685_set_channel_duty_cycle env handle channel d logarithmic t).trace =
        [Event.transmit handle.device_address [6 + 4 * channel, 0, 0, 0, 0x10]]) ∧
    (Binary32.eq d (Binary32.ofNat 1) = true →
      pca9685_set_channel_duty_cycle env handle channel d logarithmic t =
        pca9685_set_channel_pwm_times env handle channel 4096 0 t ∧
      issued t (pca9685_set_channel_duty_cycle env handle channel d logarithmic t).trace =
        [Event.transmit handle.device_address [6 + 4 * channel, 0, 0x10, 0, 0]]) := by
  have c0n : (Binary32.ofNat 0).isNaN = false := by (set_option maxRecDepth 100000 in decide)
  have c1n : (Binary32.ofNat 1).isNaN = false := by (set_option maxRecDepth 100000 in decide)
  have c0 : (Binary32.ofNat 0).toInt = 0 := by (set_option maxRecDepth 100000 in decide)
  have c1 : (Binary32.ofNat 1).toInt = 2 ^ 149 := by (set_option maxRecDepth 100000 in decide)
  constructor
  · intro h
    obtain ⟨hn, -, he⟩ := Binary32.eq_iff.mp h
    have h0 : Binary32.le (Binary32.ofNat 0) d = true :=
      Binary32.le_iff.mpr ⟨c0n, hn, le_of_eq he.symm⟩
    have h1 : Binary32.le d (Binary32.ofNat 1) = true :=
      Binary32.le_iff.mpr ⟨hn, c1n, by rw [he, c0, c1]; positivity⟩
    have hcall : pca9685_set_channel_duty_cycle env handle channel d logarithmic t =
        pca9685_set_channel_pwm_times env handle channel 0 4096 t := by
      unfold pca9685_set_channel_duty_cycle
      simp only [h0, h1, h, Bool.not_true, Bool.false_eq_true, if_false, if_true]
    refine ⟨hcall, ?_⟩
    rw [hcall, set_channel_pwm_times_ok env handle channel 0 4096 t hc (by decide) (by decide)]
    simp [Result.trace, issued_append]
  · intro h
    obtain ⟨hn, -, he⟩ := Binary32.eq_iff.mp h
    have h0 : Binary32.le (Binary32.ofNat 0) d = true :=
      Binary32.le_iff.mpr ⟨c0n, hn, by rw [he, c0, c1]; positivity⟩
    have h1 : Binary32.le d (Binary32.ofNat 1) = true :=
      Binary32.le_iff.mpr ⟨hn, c1n, le_of_eq he⟩
    have hne : Binary32.eq d (Binary32.ofNat 0) = false := by
      cases hz : Binary32.eq d (Binary32.ofNat 0)
      · rfl
      · exfalso
        obtain ⟨-, -, he0⟩ := Binary32.eq_iff.mp hz
        rw [he, c0, c1] at he0
        exact absurd he0 (by positivity)
    have hcall : pca9685_set_channel_duty_cycle env handle channel d logarithmic t =
        pca9685_set_channel_pwm_times env handle channel 4096 0 t := by
      unfold pca9685_set_channel_duty_cycle
      simp only [h0, h1, h, hne, Bool.not_true, Bool.false_eq_true, if_false, if_true]
    refine ⟨hcall, ?_⟩
    rw [hcall, set_channel_pwm_times_ok env handle channel 4096 0 t hc (by decide) (by decide)]
    simp [Result.trace, issued_append]

/-- Runs of C2: channel 3, duty cycles `-0.0` and `1.0`. -/
theorem C2_duty_cycle_sentinels_witness :
    issued [] (pca9685_set_channel_duty_cycle (idealChip 0) sampleHandle 3
      (Binary32.ofBits 0x80000000) true []).trace =
      [Event.transmit sampleHandle.device_address [6 + 4 * 3, 0, 0, 0, 0x10]] ∧
    issued [] (pca9685_set_channel_duty_cycle (idealChip 0) sampleHandle 3
      (Binary32.ofNat 1) false []).trace =
      [Event.transmit sampleHandle.device_address [6 + 4 * 3, 0, 0x10, 0, 0]] :=
  ⟨((C2_duty_cycle_sentinels (idealChip 0) sampleHandle 3 (Binary32.ofBits 0x80000000) true []
      (by decide)).1 (by (set_option maxRecDepth 100000 in decide))).2,
   ((C2_duty_cycle_sentinels (idealChip 0) sampleHandle 3 (Binary32.ofNat 1) false []
      (by decide)).2 (by (set_option maxRecDepth 100000 in decide))).2⟩

theorem CIEL_8_12_getD_le (i : Nat) : CIEL_8_12.getD i 0 ≤ 4095 := by
  by_cases h : i < 256
  · revert i
    (set_option maxRecDepth 100000 in decide)
  · rw [List.getD_eq_default _ _ (by
      have : CIEL_8_12.length = 256 := by (set_option maxRecDepth 100000 in decide)
      omega)]
    exact Nat.zero_le _

/-- The linear `required_on_time`: `roundf` of the single-precision product. -/
theorem required_on_time_linear {d : Binary32}
    (h0 : Binary32.le (Binary32.ofNat 0) d = true) (h1 : Binary32.le d (Binary32.ofNat 1) = true)
    (hn0 : Binary32.eq d (Binary32.ofNat 0) = false)
    (hn1 : Binary32.eq d (Binary32.ofNat 1) = false) :
    (required_on_time d false : Int) =
      round (Binary32.mul (Binary32.ofNat 4095) d).toRat ∧
    round ((4095 : ℚ) * d.toRat) ≤ required_on_time d false ∧
    (required_on_time d false : Int) ≤ round ((4095 : ℚ) * d.toRat) + 1 ∧
    required_on_time d false ≤ 4095 := by
  obtain ⟨hn, hi, hs, -, hlt⟩ := Binary32.duty_cycle_range h0 h1 hn0 hn1
  obtain ⟨ps, -, -, r1, r2, r3⟩ :=
    Binary32.product_facts ofNat_4095_facts (by decide) hn hi hs hlt
  have hreq : required_on_time d false =
      (Binary32.roundf (Binary32.mul (Binary32.ofNat 4095) d)).truncToNat := by
    unfold required_on_time
    simp only [Bool.false_eq_true, if_false]
    exact Nat.mod_eq_of_lt (lt_of_le_of_lt r3 (by decide))
  have hexact := round_mul_toRat 4095 hs
  rw [Nat.cast_ofNat] at hexact
  rw [hreq, hexact, round_toRat ps]
  refine ⟨?_, by exact_mod_cast r1, by exact_mod_cast r2, r3⟩
  obtain ⟨-, psc, pr, -⟩ := Binary32.product_facts ofNat_4095_facts (by decide) hn hi hs hlt
  rw [pr, psc]

/-- The index into the dimming table: `roundf` of the single-precision product. -/
theorem dimming_index {d : Binary32}
    (h0 : Binary32.le (Binary32.ofNat 0) d = true) (h1 : Binary32.le d (Binary32.ofNat 1) = true)
    (hn0 : Binary32.eq d (Binary32.ofNat 0) = false)
    (hn1 : Binary32.eq d (Binary32.ofNat 1) = false) :
    required_on_time d true =
      CIEL_8_12.getD (Binary32.roundf (Binary32.mul (Binary32.ofNat 255) d)).truncToNat 0 ∧
    ((Binary32.roundf (Binary32.mul (Binary32.ofNat 255) d)).truncToNat : Int) =
      round (Binary32.mul (Binary32.ofNat 255) d).toRat ∧
    round ((255 : ℚ) * d.toRat) ≤
      (Binary32.roundf (Binary32.mul (Binary32.ofNat 255) d)).truncToNat ∧
    ((Binary32.roundf (Binary32.mul (Binary32.ofNat 255) d)).truncToNat : Int) ≤
      round ((255 : ℚ) * d.toRat) + 1 ∧
    (Binary32.roundf (Binary32.mul (Binary32.ofNat 255) d)).truncToNat ≤ 255 := by
  obtain ⟨hn, hi, hs, -, hlt⟩ := Binary32.duty_cycle_range h0 h1 hn0 hn1
  obtain ⟨ps, psc, pr, r1, r2, r3⟩ :=
    Binary32.product_facts ofNat_255_facts (by decide) hn hi hs hlt
  have hreq : required_on_time d true =
      CIEL_8_12.getD (Binary32.roundf (Binary32.mul (Binary32.ofNat 255) d)).truncToNat 0 := by
    unfold required_on_time
    simp only [if_true]
    rw [Nat.mod_eq_of_lt (lt_of_le_of_lt r3 (by decide))]
  have hexact := round_mul_toRat 255 hs
  rw [Nat.cast_ofNat] at hexact
  rw [hexact, round_toRat ps]
  refine ⟨hreq, ?_, by exact_mod_cast r1, by exact_mod_cast r2, r3⟩
  rw [pr, psc]

/-- C3 (amended). For every channel below 16 and every binary32 duty cycle `d` with
`0 < d < 1`, `pca9685_set_channel_duty_cycle` with `logarithmic = false` emits
`on_time = 0` for channel 0 and `channel * 256 - 1` otherwise, and
`off_time = (on_time + R) mod 4096`, where `R` is `roundf` of the product
`4095 * d` computed in single precision (rounded to the nearest binary32 value
before `roundf`).  `R` is `round(4095 * d)` for the exact product, or one more
than that, and at most 4095.  With `d = 0.5`, channel 0 gives (0, 2048) and
channel 5 gives (1279, 3327). -/
theorem C3_linear_duty_cycle (env : Env) (handle : pca9685_handle_t) (channel : Nat)
    (d : Binary32) (t : List Event) (hc : channel < 16)
    (h0 : Binary32.le (Binary32.ofNat 0) d = true) (h1 : Binary32.le d (Binary32.ofNat 1) = true)
    (hn0 : Binary32.eq d (Binary32.ofNat 0) = false)
    (hn1 : Binary32.eq d (Binary32.ofNat 1) = false) :
    pca9685_set_channel_duty_cycle env handle channel d false t =
      pca9685_set_channel_pwm_times env handle channel
        (if channel = 0 then 0 else channel * 256 - 1)
        (((if channel = 0 then 0 else channel * 256 - 1) + required_on_time d false) % 4096)
        t ∧
    (required_on_time d false : Int) =
      round (Binary32.mul (Binary32.ofNat 4095) d).toRat ∧
    round ((4095 : ℚ) * d.toRat) ≤ required_on_time d false ∧
    (required_on_time d false : Int) ≤ round ((4095 : ℚ) * d.toRat) + 1 ∧
    required_on_time d false ≤ 4095 ∧
    pca9685_set_channel_duty_cycle env handle 0 (Binary32.ofBits 0x3F000000) false t =
      pca9685_set_channel_pwm_times env handle 0 0 2048 t ∧
    pca9685_set_channel_duty_cycle env handle 5 (Binary32.ofBits 0x3F000000) false t =
      pca9685_set_channel_pwm_times env handle 5 1279 3327 t := by
  obtain ⟨q1, q2, q3, q4⟩ := required_on_time_linear h0 h1 hn0 hn1
  have hhalf : required_on_time (Binary32.ofBits 0x3F000000) false = 2048 := by
    (set_option maxRecDepth 100000 in decide)
  refine ⟨set_channel_duty_cycle_inner env handle channel d false t hc h0 h1 hn0 hn1 q4,
    q1, q2, q3, q4, ?_, ?_⟩
  · rw [set_channel_duty_cycle_inner env handle 0 _ false t (by decide)
      (by (set_option maxRecDepth 100000 in decide))
      (by (set_option maxRecDepth 100000 in decide))
      (by (set_option maxRecDepth 100000 in decide))
      (by (set_option maxRecDepth 100000 in decide)) (by rw [hhalf]; decide), hhalf]
    rfl
  · rw [set_channel_duty_cycle_inner env handle 5 _ false t (by decide)
      (by (set_option maxRecDepth 100000 in decide))
      (by (set_option maxRecDepth 100000 in decide))
      (by (set_option maxRecDepth 100000 in decide))
      (by (set_option maxRecDepth 100000 in decide)) (by rw [hhalf]; decide), hhalf]
    rfl

/-- A run of C3: channel 5 at half duty. -/
theorem C3_linear_duty_cycle_witness :
    Binary32.le (Binary32.ofNat 0) (Binary32.ofBits 0x3F000000) = true ∧
    Binary32.le (Binary32.ofBits 0x3F000000) (Binary32.ofNat 1) = true ∧
    Binary32.eq (Binary32.ofBits 0x3F000000) (Binary32.ofNat 0) = false ∧
    Binary32.eq (Binary32.ofBits 0x3F000000) (Binary32.ofNat 1) = false ∧
    pca9685_set_channel_duty_cycle (idealChip 0) sampleHandle 5 (Binary32.ofBits 0x3F000000)
      false [] =
      pca9685_set_channel_pwm_times (idealChip 0) sampleHandle 5
        (if 5 = 0 then 0 else 5 * 256 - 1)
        (((if 5 = 0 then 0 else 5 * 256 - 1) +
          required_on_time (Binary32.ofBits 0x3F000000) false) % 4096) [] :=
  ⟨by (set_option maxRecDepth 100000 in decide), by (set_option maxRecDepth 100000 in decide),
    by (set_option maxRecDepth 100000 in decide), by (set_option maxRecDepth 100000 in decide),
    (C3_linear_duty_cycle (idealChip 0) sampleHandle 5 (Binary32.ofBits 0x3F000000) []
      (by decide) (by (set_option maxRecDepth 100000 in decide))
      (by (set_option maxRecDepth 100000 in decide))
      (by (set_option maxRecDepth 100000 in decide))
      (by (set_option maxRecDepth 100000 in decide))).1⟩

/-- C3 as stated fails on channel 0 at the duty cycle `8392705 / 2^24`
(0.5002442002296448, bits `0x3F001001`): the exact product `4095 * d` lies `2^-24`
below 2048.5 and rounds to 2048, so the claimed `off_time` is 2048, while the
single-precision product is exactly 2048.5, `roundf` gives 2049 and the
`off_time` emitted is 2049. -/
theorem C3_counterexample :
    (Binary32.ofBits 0x3F001001).valid ∧
    (Binary32.ofBits 0x3F001001).toRat = 8392705 / 16777216 ∧
    Binary32.le (Binary32.ofNat 0) (Binary32.ofBits 0x3F001001) = true ∧
    Binary32.le (Binary32.ofBits 0x3F001001) (Binary32.ofNat 1) = true ∧
    Binary32.eq (Binary32.ofBits 0x3F001001) (Binary32.ofNat 0) = false ∧
    Binary32.eq (Binary32.ofBits 0x3F001001) (Binary32.ofNat 1) = false ∧
    pca9685_set_channel_duty_cycle (idealChip 0) sampleHandle 0 (Binary32.ofBits 0x3F001001)
      false [] =
      pca9685_set_channel_pwm_times (idealChip 0) sampleHandle 0 0 2049 [] ∧
    pca9685_set_channel_pwm_times (idealChip 0) sampleHandle 0 0 2049 [] =
      Result.ret true [Event.transmit 0x80 [6, 0, 0, 1, 8]] ∧
    (Binary32.mul (Binary32.ofNat 4095) (Binary32.ofBits 0x3F001001)).toRat = 4097 / 2 ∧
    (0 + round ((4095 : ℚ) * (Binary32.ofBits 0x3F001001).toRat)) % 4096 = 2048 ∧
    pca9685_set_channel_duty_cycle (idealChip 0) sampleHandle 0 (Binary32.ofBits 0x3F001001)
      false [] ≠
      pca9685_set_channel_pwm_times (idealChip 0) sampleHandle 0 0 2048 [] := by
  have hs : (Binary32.ofBits 0x3F001001).sign = false := by decide
  have hsc : (Binary32.ofBits 0x3F001001).scaled = 8392705 * 2 ^ 125 := by
    (set_option maxRecDepth 100000 in decide)
  have hp : Binary32.mul (Binary32.ofNat 4095) (Binary32.ofBits 0x3F001001) =
      ⟨false, 138, 2048⟩ := by
    (set_option maxRecDepth 100000 in decide)
  refine ⟨by decide, ?_, by (set_option maxRecDepth 100000 in decide),
    by (set_option maxRecDepth 100000 in decide),
    by (set_option maxRecDepth 100000 in decide),
    by (set_option maxRecDepth 100000 in decide),
    by (set_option maxRecDepth 100000 in decide),
    by (set_option maxRecDepth 100000 in decide), ?_, ?_,
    by (set_option maxRecDepth 100000 in decide)⟩
  · rw [toRat_of_sign_false hs, hsc]
    norm_num
  · rw [hp, toRat_of_sign_false rfl]
    norm_num [Binary32.scaled]
  · have h := round_mul_toRat 4095 hs
    rw [Nat.cast_ofNat] at h
    rw [h, hsc]
    have : (2 * (4095 * (8392705 * 2 ^ 125)) + 2 ^ 149) / (2 * 2 ^ 149) = 2048 := by decide
    rw [this]
    rfl

/-- C4 (amended). For every channel below 16 and every binary32 duty cycle `d` with
`0 < d < 1`, `pca9685_set_channel_duty_cycle` with `logarithmic = true` uses
`required_on_time = CIEL_8_12[I]` and emits the same per-channel `on_time` as the
linear mode and `off_time = (on_time + CIEL_8_12[I]) mod 4096`, where the index
`I` is `roundf` of the product `255 * d` computed in single precision (rounded to
the nearest binary32 value before `roundf`).  `I` is `round(255 * d)` for the
exact product, or one more than that, and at most 255. -/
theorem C4_logarithmic_duty_cycle (env : Env) (handle : pca9685_handle_t) (channel : Nat)
    (d : Binary32) (t : List Event) (hc : channel < 16)
    (h0 : Binary32.le (Binary32.ofNat 0) d = true) (h1 : Binary32.le d (Binary32.ofNat 1) = true)
    (hn0 : Binary32.eq d (Binary32.ofNat 0) = false)
    (hn1 : Binary32.eq d (Binary32.ofNat 1) = false) :
    pca9685_set_channel_duty_cycle env handle channel d true t =
      pca9685_set_channel_pwm_times env handle channel
        (if channel = 0 then 0 else channel * 256 - 1)
        (((if channel = 0 then 0 else channel * 256 - 1) + required_on_time d true) % 4096)
        t ∧
    required_on_time d true =
      CIEL_8_12.getD (Binary32.roundf (Binary32.mul (Binary32.ofNat 255) d)).truncToNat 0 ∧
    ((Binary32.roundf (Binary32.mul (Binary32.ofNat 255) d)).truncToNat : Int) =
      round (Binary32.mul (Binary32.ofNat 255) d).toRat ∧
    round ((255 : ℚ) * d.toRat) ≤
      (Binary32.roundf (Binary32.mul (Binary32.ofNat 255) d)).truncToNat ∧
    ((Binary32.roundf (Binary32.mul (Binary32.ofNat 255) d)).truncToNat : Int) ≤
      round ((255 : ℚ) * d.toRat) + 1 ∧
    (Binary32.roundf (Binary32.mul (Binary32.ofNat 255) d)).truncToNat ≤ 255 := by
  obtain ⟨q1, q2, q3, q4, q5⟩ := dimming_index h0 h1 hn0 hn1
  exact ⟨set_channel_duty_cycle_inner env handle channel d true t hc h0 h1 hn0 hn1
    (by rw [q1]; exact CIEL_8_12_getD_le _), q1, q2, q3, q4, q5⟩

/-- A run of C4: channel 5 at half duty. -/
theorem C4_logarithmic_duty_cycle_witness :
    Binary32.le (Binary32.ofNat 0) (Binary32.ofBits 0x3F000000) = true ∧
    Binary32.le (Binary32.ofBits 0x3F000000) (Binary32.ofNat 1) = true ∧
    Binary32.eq (Binary32.ofBits 0x3F000000) (Binary32.ofNat 0) = false ∧
    Binary32.eq (Binary32.ofBits 0x3F000000) (Binary32.ofNat 1) = false ∧
    required_on_time (Binary32.ofBits 0x3F000000) true =
      CIEL_8_12.getD (Binary32.roundf
        (Binary32.mul (Binary32.ofNat 255) (Binary32.ofBits 0x3F000000))).truncToNat 0 :=
  ⟨by (set_option maxRecDepth 100000 in decide), by (set_option maxRecDepth 100000 in decide),
    by (set_option maxRecDepth 100000 in decide), by (set_option maxRecDepth 100000 in decide),
    (C4_logarithmic_duty_cycle (idealChip 0) sampleHandle 5 (Binary32.ofBits 0x3F000000) []
      (by decide) (by (set_option maxRecDepth 100000 in decide))
      (by (set_option maxRecDepth 100000 in decide))
      (by (set_option maxRecDepth 100000 in decide))
      (by (set_option maxRecDepth 100000 in decide))).2.1⟩

/-- C4 as stated fails on channel 0 at the duty cycle `8454401 / 2^24`
(0.5039215683937073, bits `0x3F010101`): the exact product `255 * d` lies `2^-24`
below 128.5 and rounds to 128, so the claimed `required_on_time` is
`CIEL_8_12[128] = 761`, while the single-precision product is exactly 128.5,
`roundf` gives 129 and the `off_time` emitted is `CIEL_8_12[129] = 775`. -/
theorem C4_counterexample :
    (Binary32.ofBits 0x3F010101).valid ∧
    (Binary32.ofBits 0x3F010101).toRat = 8454401 / 16777216 ∧
    Binary32.le (Binary32.ofNat 0) (Binary32.ofBits 0x3F010101) = true ∧
    Binary32.le (Binary32.ofBits 0x3F010101) (Binary32.ofNat 1) = true ∧
    Binary32.eq (Binary32.ofBits 0x3F010101) (Binary32.ofNat 0) = false ∧
    Binary32.eq (Binary32.ofBits 0x3F010101) (Binary32.ofNat 1) = false ∧
    pca9685_set_channel_duty_cycle (idealChip 0) sampleHandle 0 (Binary32.ofBits 0x3F010101)
      true [] =
      pca9685_set_channel_pwm_times (idealChip 0) sampleHandle 0 0 775 [] ∧
    pca9685_set_channel_pwm_times (idealChip 0) sampleHandle 0 0 775 [] =
      Result.ret true [Event.transmit 0x80 [6, 0, 0, 7, 3]] ∧
    (Binary32.mul (Binary32.ofNat 255) (Binary32.ofBits 0x3F010101)).toRat = 257 / 2 ∧
    (0 + CIEL_8_12.getD
      (round ((255 : ℚ) * (Binary32.ofBits 0x3F010101).toRat)).toNat 0) % 4096 = 761 ∧
    pca9685_set_channel_duty_cycle (idealChip 0) sampleHandle 0 (Binary32.ofBits 0x3F010101)
      true [] ≠
      pca9685_set_channel_pwm_times (idealChip 0) sampleHandle 0 0 761 [] := by
  have hs : (Binary32.ofBits 0x3F010101).sign = false := by decide
  have hsc : (Binary32.ofBits 0x3F010101).scaled = 8454401 * 2 ^ 125 := by
    (set_option maxRecDepth 100000 in decide)
  have hp : Binary32.mul (Binary32.ofNat 255) (Binary32.ofBits 0x3F010101) =
      ⟨false, 134, 32768⟩ := by
    (set_option maxRecDepth 100000 in decide)
  refine ⟨by decide, ?_, by (set_option maxRecDepth 100000 in decide),
    by (set_option maxRecDepth 100000 in decide),
    by (set_option maxRecDepth 100000 in decide),
    by (set_option maxRecDepth 100000 in decide),
    by (set_option maxRecDepth 100000 in decide),
    by (set_option maxRecDepth 100000 in decide), ?_, ?_,
    by (set_option maxRecDepth 100000 in decide)⟩
  · rw [toRat_of_sign_false hs, hsc]
    norm_num
  · rw [hp, toRat_of_sign_false rfl]
    norm_num [Binary32.scaled]
  · have h := round_mul_toRat 255 hs
    rw [Nat.cast_ofNat] at h
    rw [h, hsc]
    have : (2 * (255 * (8454401 * 2 ^ 125)) + 2 ^ 149) / (2 * 2 ^ 149) = 128 := by decide
    rw [this]
    (set_option maxRecDepth 100000 in decide)

/-! ### Monotone rounding -/

namespace Binary32

/-- The rounded magnitude stays within the binade of the exact value: it is at most
the next power of two. -/
theorem roundMag_le_pow (n d : Nat) :
    roundMag n d ≤ 2 ^ (24 + (ilog2 (n / d) - 23)) := by
  have hm : n / d / 2 ^ (ilog2 (n / d) - 23) < 2 ^ 24 := by
    apply (Nat.div_lt_iff_lt_mul (Nat.two_pow_pos _)).mpr
    rw [← pow_add]
    exact lt_of_lt_of_le (lt_pow_ilog2_succ (n / d))
      (Nat.pow_le_pow_right (by decide) (by omega))
  unfold roundMag
  dsimp only
  rw [← Nat.div_div_eq_div_mul, pow_add]
  apply Nat.mul_le_mul_right
  generalize n / d / 2 ^ (ilog2 (n / d) - 23) = m at hm ⊢
  split <;> omega

/-- The rounded magnitude is at least the power of two at or below the exact value. -/
theorem pow_le_roundMag {n d : Nat} (hd : 0 < d) (h0 : n / d ≠ 0) :
    2 ^ ilog2 (n / d) ≤ roundMag n d := by
  apply le_roundMag hd (representable_pow _)
  exact (Nat.le_div_iff_mul_le hd).mp (pow_ilog2_le h0)

/-- Rounding to binary32 is monotone. -/
theorem roundMag_mono {n1 n2 d : Nat} (hd : 0 < d) (h : n1 ≤ n2) :
    roundMag n1 d ≤ roundMag n2 d := by
  have hq : n1 / d ≤ n2 / d := Nat.div_le_div_right h
  have hL : ilog2 (n1 / d) ≤ ilog2 (n2 / d) := ilog2_mono hq
  rcases Nat.lt_or_ge (ilog2 (n1 / d) - 23) (ilog2 (n2 / d) - 23) with hlt | hge
  · -- the second value lies in a higher binade
    have h0 : n2 / d ≠ 0 := by
      intro h0
      rw [h0] at hlt
      simp [ilog2, ilog2Aux] at hlt
    have h1 := roundMag_le_pow n1 d
    have h2 := pow_le_roundMag hd h0
    have h3 : 2 ^ (24 + (ilog2 (n1 / d) - 23)) ≤ 2 ^ ilog2 (n2 / d) :=
      Nat.pow_le_pow_right (by decide) (by omega)
    exact le_trans h1 (le_trans h3 h2)
  · -- both values lie on the same grid
    have hs : ilog2 (n1 / d) - 23 = ilog2 (n2 / d) - 23 := by omega
    unfold roundMag
    dsimp only
    rw [hs]
    generalize ilog2 (n2 / d) - 23 = s
    have hu : 0 < d * 2 ^ s := Nat.mul_pos hd (Nat.two_pow_pos s)
    apply Nat.mul_le_mul_right
    have hm : n1 / (d * 2 ^ s) ≤ n2 / (d * 2 ^ s) := Nat.div_le_div_right h
    have e1 := Nat.div_add_mod n1 (d * 2 ^ s)
    have e2 := Nat.div_add_mod n2 (d * 2 ^ s)
    have l1 := Nat.mod_lt n1 hu
    have l2 := Nat.mod_lt n2 hu
    generalize d * 2 ^ s = u at *
    generalize n1 % u = r1 at *
    generalize n2 % u = r2 at *
    rcases Nat.lt_or_ge (n1 / u) (n2 / u) with hml | hmg
    · split <;> split <;> omega
    · have hme : n1 / u = n2 / u := Nat.le_antisymm hm hmg
      rw [hme] at e1 ⊢
      generalize n2 / u = m at *
      generalize u * m = P at *
      split <;> split <;> omega

end Binary32

/-! ### Time pairs on the wire -/

/-- C13. For every channel below 16 and every `on_time` and `off_time` up to 4096,
`pca9685_set_channel_pwm_times` issues exactly one transaction, a transmit of the
register address `0x06 + 4 * channel` followed by `on_time mod 256`,
`on_time div 256`, `off_time mod 256`, `off_time div 256`; the address and the
bytes fit in 8 bits, and each pair read back little-endian (low + 256 * high) is
`on_time`, respectively `off_time`. -/
theorem C13_pwm_times_bytes (env : Env) (handle : pca9685_handle_t)
    (channel on_time off_time : Nat) (t : List Event) (hc : channel < 16)
    (hon : on_time ≤ 4096) (hoff : off_time ≤ 4096) :
    issued t (pca9685_set_channel_pwm_times env handle channel on_time off_time t).trace =
      [Event.transmit handle.device_address
        [0x06 + 4 * channel, on_time % 256, on_time / 256, off_time % 256, off_time / 256]] ∧
    0x06 + 4 * channel < 256 ∧
    on_time % 256 < 256 ∧ on_time / 256 < 256 ∧ off_time % 256 < 256 ∧ off_time / 256 < 256 ∧
    on_time % 256 + 256 * (on_time / 256) = on_time ∧
    off_time % 256 + 256 * (off_time / 256) = off_time := by
  refine ⟨?_, by omega, by omega, by omega, by omega, by omega, by omega, by omega⟩
  rw [set_channel_pwm_times_ok env handle channel on_time off_time t hc hon hoff]
  simp [Result.trace, issued_append]

/-- A run of C13: channel 15 with the pair (4096, 4095). -/
theorem C13_pwm_times_bytes_witness :
    15 < 16 ∧ 4096 ≤ 4096 ∧ 4095 ≤ 4096 ∧
    issued [] (pca9685_set_channel_pwm_times (idealChip 0) sampleHandle 15 4096 4095 []).trace =
      [Event.transmit sampleHandle.device_address
        [0x06 + 4 * 15, 4096 % 256, 4096 / 256, 4095 % 256, 4095 / 256]] :=
  ⟨by decide, by decide, by decide,
    (C13_pwm_times_bytes (idealChip 0) sampleHandle 15 4096 4095 [] (by decide) (by decide)
      (by decide)).1⟩

/-! ### Sleep and wake-up under transport failures -/

/-- The flag `pca9685_sleep` returns: the read and the write both went through. -/
theorem sleep_result (env : Env) (handle : pca9685_handle_t) (t : List Event) :
    (pca9685_sleep env handle t).1 =
      ((pca9685_read_u8 env handle PCA9685_REGISTER_MODE1 t).1 &&
        env.ok ((pca9685_read_u8 env handle PCA9685_REGISTER_MODE1 t).2.2 ++
          [Event.transmit handle.device_address
            [0, mode1_read env handle t &&& 0x7F ||| 0x10]])) := by
  have hm := mode1_read_lt env handle t
  unfold pca9685_sleep mode1_read at *
  generalize pca9685_read_u8 env handle PCA9685_REGISTER_MODE1 t = r at hm ⊢
  obtain ⟨ok, m, t1⟩ := r
  simp only at hm
  simp only [pca9685_write_u8, sleep_mask m hm]
  simp [(sleep_bits m hm).1, PCA9685_REGISTER_MODE1]

/-- The flag `pca9685_wakeup` returns: the read and the one or two writes all went
through. -/
theorem wakeup_result (env : Env) (handle : pca9685_handle_t) (t : List Event) :
    (pca9685_wakeup env handle t).1 =
      ((pca9685_read_u8 env handle PCA9685_REGISTER_MODE1 t).1 &&
        env.ok ((pca9685_read_u8 env handle PCA9685_REGISTER_MODE1 t).2.2 ++
          [Event.transmit handle.device_address [0, mode1_read env handle t &&& 0x6F]]) &&
        (if (mode1_read env handle t).testBit 7 then
          env.ok ((pca9685_read_u8 env handle PCA9685_REGISTER_MODE1 t).2.2 ++
            [Event.transmit handle.device_address [0, mode1_read env handle t &&& 0x6F],
              Event.delay 1,
              Event.transmit handle.device_address
                [0, mode1_read env handle t &&& 0x6F ||| 0x80]])
        else true)) := by
  have hm := mode1_read_lt env handle t
  unfold pca9685_wakeup mode1_read at *
  generalize pca9685_read_u8 env handle PCA9685_REGISTER_MODE1 t = r at hm ⊢
  obtain ⟨ok, m, t1⟩ := r
  simp only at hm
  simp only [pca9685_write_u8, wakeup_mask m hm, restart_mask m hm, restart_read m hm]
  obtain ⟨h1, h2, -⟩ := wakeup_bits m hm
  by_cases hb : m.testBit 7 <;> simp [hb, h1, h2, PCA9685_REGISTER_MODE1]

/-- The flag `pca9685_read_u8` returns: the transmit and the receive both went
through. -/
theorem read_u8_result (env : Env) (handle : pca9685_handle_t) (a : Nat) (t : List Event) :
    (pca9685_read_u8 env handle a t).1 =
      (env.ok (t ++ [Event.transmit handle.device_address [a % 256]]) &&
        env.ok (t ++ [Event.transmit handle.device_address [a % 256],
          Event.receive handle.device_address 1])) := by
  unfold pca9685_read_u8
  dsimp only
  split <;> simp_all

/-- The history of `pca9685_wakeup` extends the one it started from. -/
theorem wakeup_extends (env : Env) (handle : pca9685_handle_t) (t : List Event) :
    ∃ l, (pca9685_wakeup env handle t).2 = t ++ l := by
  obtain ⟨l1, hl1, -, -⟩ := read_u8_trace env handle PCA9685_REGISTER_MODE1 t
  rw [wakeup_trace, hl1]
  exact ⟨_, List.append_assoc _ _ _⟩

/-- The history of `pca9685_sleep` extends the one it started from. -/
theorem sleep_extends (env : Env) (handle : pca9685_handle_t) (t : List Event) :
    ∃ l, (pca9685_sleep env handle t).2 = t ++ l := by
  obtain ⟨l1, hl1, -, -⟩ := read_u8_trace env handle PCA9685_REGISTER_MODE1 t
  rw [sleep_trace, hl1]
  exact ⟨_, List.append_assoc _ _ _⟩

/-- A frequency within range never fails an assertion: the call returns, and its
history extends the one it started from. -/
theorem set_pwm_frequency_returns (env : Env) (handle : pca9685_handle_t) (f : Binary32)
    (t : List Event) (h24 : Binary32.le (Binary32.ofNat 24) f = true)
    (h1526 : Binary32.le f (Binary32.ofNat 1526) = true) :
    ∃ s l, pca9685_set_pwm_frequency env handle f t = Result.ret s (t ++ l) := by
  have hret : ∃ s t1, pca9685_set_pwm_frequency env handle f t = Result.ret s t1 := by
    unfold pca9685_set_pwm_frequency
    simp only [h24, h1526, Bool.not_true, Bool.false_eq_true, if_false]
    exact ⟨_, _, rfl⟩
  obtain ⟨s, t1, hst⟩ := hret
  have htr : (pca9685_set_pwm_frequency env handle f t).trace = t1 := by rw [hst]; rfl
  obtain ⟨l1, hl1, -, -⟩ := read_u8_trace env handle PCA9685_REGISTER_MODE1 t
  by_cases hs : (mode1_read env handle t).testBit 4 = true
  · rw [set_pwm_frequency_asleep env handle f t h24 h1526 hs, hl1] at htr
    exact ⟨s, l1 ++ [Event.transmit handle.device_address [0xFE, prescaler_of f]], by
      rw [hst, ← htr, List.append_assoc]⟩
  · have hs' : (mode1_read env handle t).testBit 4 = false := by simpa using hs
    rw [set_pwm_frequency_awake env handle f t h24 h1526 hs'] at htr
    obtain ⟨l2, hl2⟩ := sleep_extends env handle
      (pca9685_read_u8 env handle PCA9685_REGISTER_MODE1 t).2.2
    obtain ⟨l3, hl3⟩ := wakeup_extends env handle
      ((pca9685_sleep env handle (pca9685_read_u8 env handle PCA9685_REGISTER_MODE1 t).2.2).2 ++
        [Event.transmit handle.device_address [0xFE, prescaler_of f]])
    rw [hl3, hl2, hl1] at htr
    refine ⟨s, l1 ++ (l2 ++
      ([Event.transmit handle.device_address [0xFE, prescaler_of f]] ++ l3)), ?_⟩
    rw [hst, ← htr]
    simp only [List.append_assoc]

/-! ### Initialisation -/

theorem frequency_1000 :
    Binary32.le (Binary32.ofNat 24) (Binary32.ofNat 1000) = true ∧
    Binary32.le (Binary32.ofNat 1000) (Binary32.ofNat 1526) = true ∧
    prescaler_of (Binary32.ofNat 1000) = 5 := by
  (set_option maxRecDepth 100000 in decide)

/-- With a bus in the handle, `pca9685_init` is its three default writes, the
frequency step on the history they leave and the wake-up on the history the
frequency step leaves; the flag is the conjunction of the five flags. -/
theorem init_steps (env : Env) (handle : pca9685_handle_t) (t : List Event)
    (hh : handle.i2c_handle ≠ 0) :
    ∃ s l, pca9685_set_pwm_frequency env handle (Binary32.ofNat 1000)
        (t ++ init_writes handle) = Result.ret s (t ++ init_writes handle ++ l) ∧
      pca9685_init env handle t =
        Result.ret
          (env.ok (t ++ (init_writes handle).take 1) &&
            env.ok (t ++ (init_writes handle).take 2) &&
            env.ok (t ++ init_writes handle) && s &&
            (pca9685_wakeup env handle (t ++ init_writes handle ++ l)).1)
          (pca9685_wakeup env handle (t ++ init_writes handle ++ l)).2 := by
  obtain ⟨s, l, hsl⟩ := set_pwm_frequency_returns env handle (Binary32.ofNat 1000)
    (t ++ init_writes handle) frequency_1000.1 frequency_1000.2.1
  refine ⟨s, l, hsl, ?_⟩
  have h3 : t ++ [Event.transmit handle.device_address [0, 48]] ++
      [Event.transmit handle.device_address [1, if handle.inverted then 16 else 0]] ++
      [Event.transmit handle.device_address [250, 0, 0, 0, 16]] = t ++ init_writes handle := by
    simp [init_writes]
  unfold pca9685_init
  rw [if_neg hh]
  cases hi : handle.inverted <;>
    simp [pca9685_write_u8, pca9685_write_data, PCA9685_REGISTER_MODE1, PCA9685_REGISTER_MODE2,
      PCA9685_REGISTER_ALL_LED_ON_L, hi] <;>
    simp [hi] at h3 <;>
    (rw [h3, hsl]; simp [init_writes, hi])

theorem mode1_content_other (m d a : Nat) (vs : List Nat) (l : List Event) :
    mode1_content m (Event.transmit d ((a + 1) :: vs) :: l) = mode1_content m l := rfl

/-- On the ideal chip `pca9685_init` succeeds with nine transactions. -/
theorem init_ideal (handle : pca9685_handle_t) (m0 : Nat) (t : List Event)
    (hh : handle.i2c_handle ≠ 0) :
    pca9685_init (idealChip m0) handle t =
      Result.ret true (t ++ init_writes handle ++
        [Event.transmit handle.device_address [0], Event.receive handle.device_address 1,
         Event.transmit handle.device_address [0xFE, 5],
         Event.transmit handle.device_address [0], Event.receive handle.device_address 1,
         Event.transmit handle.device_address [0x00, 0x20]]) := by
  have c1 := frequency_1000.1
  have c2 := frequency_1000.2.1
  have c3 := frequency_1000.2.2
  have b : (PCA9685_READ_BIT_MASK (48 % 256) PCA9685_REGISTER_MODE1_SLEEP != 0) = true ∧
      (PCA9685_READ_BIT_MASK (48 % 256) PCA9685_REGISTER_MODE1_RESTART != 0) = false ∧
      PCA9685_CLEAR_BIT_MASK (PCA9685_CLEAR_BIT_MASK (48 % 256) PCA9685_REGISTER_MODE1_RESTART)
        PCA9685_REGISTER_MODE1_SLEEP % 256 = 32 := by decide
  obtain ⟨b1, b2, b3⟩ := b
  unfold pca9685_init
  rw [if_neg hh]
  cases hi : handle.inverted <;>
    simp [pca9685_set_pwm_frequency, c1, c2, c3, pca9685_is_sleeping, pca9685_wakeup,
      pca9685_read_u8, pca9685_write_u8, pca9685_write_data, idealChip, mode1_content_append,
      PCA9685_REGISTER_PRESCALER, PCA9685_REGISTER_MODE1, PCA9685_REGISTER_MODE2,
      PCA9685_REGISTER_ALL_LED_ON_L, mode1_content_nil, mode1_content_addr,
      mode1_content_receive, mode1_content_mode1, mode1_content_prescaler,
      mode1_content_other _ _ 0, mode1_content_other _ _ 249, b1, b2, b3, init_writes, hi]

/-- The register writes `pca9685_wakeup` issues: one MODE1 write, and a second one
when the restart bit was read as set. -/
theorem wakeup_regWrites (env : Env) (handle : pca9685_handle_t) (t : List Event) :
    regWrites (issued t (pca9685_wakeup env handle t).2) =
      (if (mode1_read env handle t).testBit 7 then
        [(0, [mode1_read env handle t &&& 0x6F]),
         (0, [mode1_read env handle t &&& 0x6F ||| 0x80])]
      else [(0, [mode1_read env handle t &&& 0x6F])]) := by
  obtain ⟨l, hl, -, hrw⟩ := read_u8_trace env handle PCA9685_REGISTER_MODE1 t
  rw [wakeup_trace, hl, List.append_assoc, issued_append, regWrites_append, hrw]
  by_cases hb : (mode1_read env handle t).testBit 7 <;> simp [hb, regWrites]

/-- C11 (amended). For every handle whose `i2c_handle` is not `NULL`, in every
environment, `pca9685_init` begins with exactly these three write transactions in
this order, whatever their outcomes: MODE1 (0x00) <- 0x30, MODE2 (0x01) <- 0x10 if
`handle.inverted` and 0x00 otherwise, and one 4-byte block write at ALL_LED_ON_L
(0xFA) of the bytes 0x00, 0x00, 0x00, 0x10 (the pair on = 0, off = 4096).  It then
performs `pca9685_set_pwm_frequency` with 1000 on the history these leave, which
returns, and then `pca9685_wakeup` on the history the frequency step leaves.  A
handle whose `i2c_handle` is `NULL` fails the assertion before any transaction. -/
theorem C11_init_sequence (env : Env) (handle : pca9685_handle_t) (t : List Event)
    (hh : handle.i2c_handle ≠ 0) :
    init_writes handle =
      [Event.transmit handle.device_address [0x00, 0x30],
       Event.transmit handle.device_address [0x01, if handle.inverted then 0x10 else 0x00],
       Event.transmit handle.device_address [0xFA, 0x00, 0x00, 0x00, 0x10]] ∧
    0x00 + 256 * 0x00 = 0 ∧ 0x00 + 256 * 0x10 = 4096 ∧
    (∃ rest, (pca9685_init env handle t).trace = t ++ init_writes handle ++ rest) ∧
    (∃ s l, pca9685_set_pwm_frequency env handle (Binary32.ofNat 1000)
      (t ++ init_writes handle) = Result.ret s (t ++ init_writes handle ++ l)) ∧
    (pca9685_init env handle t).trace =
      (pca9685_wakeup env handle
        (pca9685_set_pwm_frequency env handle (Binary32.ofNat 1000)
          (t ++ init_writes handle)).trace).2 ∧
    ∀ handle0 : pca9685_handle_t, handle0.i2c_handle = 0 →
      pca9685_init env handle0 t = Result.abort t := by
  obtain ⟨s, l, hsl, hinit⟩ := init_steps env handle t hh
  obtain ⟨lw, hlw⟩ := wakeup_extends env handle (t ++ init_writes handle ++ l)
  refine ⟨rfl, rfl, rfl, ⟨l ++ lw, ?_⟩, ⟨s, l, hsl⟩, ?_, ?_⟩
  · rw [hinit, Result.trace, hlw, List.append_assoc]
  · rw [hinit, hsl]
    rfl
  · intro handle0 h0
    unfold pca9685_init
    rw [if_pos h0]

/-- A run of C11: the sample handle on a sleeping chip. -/
theorem C11_init_sequence_witness :
    sampleHandle.i2c_handle ≠ 0 ∧
    ∃ rest, (pca9685_init (idealChip 0x11) sampleHandle []).trace =
      [] ++ init_writes sampleHandle ++ rest :=
  ⟨by decide, (C11_init_sequence (idealChip 0x11) sampleHandle [] (by decide)).2.2.2.1⟩

/-- C11 as stated fails at a handle whose `i2c_handle` is `NULL`: the assertion at
the start of `pca9685_init` fails and no transaction is issued, so the history
does not begin with the three writes. -/
theorem C11_counterexample :
    pca9685_init (idealChip 0x11) ⟨0, 0x80, false⟩ [] = Result.abort [] ∧
    (pca9685_init (idealChip 0x11) ⟨0, 0x80, false⟩ []).trace = [] ∧
    ¬ ∃ rest, (pca9685_init (idealChip 0x11) ⟨0, 0x80, false⟩ []).trace =
      [] ++ init_writes ⟨0, 0x80, false⟩ ++ rest := by
  refine ⟨rfl, rfl, ?_⟩
  rintro ⟨rest, h⟩
  have h' : ([] : List Event) = [] ++ init_writes ⟨0, 0x80, false⟩ ++ rest := h
  simp [init_writes] at h'

/-- C12. For a handle with a bus and every pattern of transport failures (every
environment), `pca9685_init` attempts all five of its steps whatever the earlier
ones returned: the three default writes, the frequency step, which returns and
writes the prescaler 5, and the wake-up, which writes MODE1; and it returns the
conjunction of the five flags, so success if and only if each step succeeded. -/
theorem C12_init_aggregates (env : Env) (handle : pca9685_handle_t) (t : List Event)
    (hh : handle.i2c_handle ≠ 0) :
    ∃ s l k lw,
      pca9685_set_pwm_frequency env handle (Binary32.ofNat 1000) (t ++ init_writes handle) =
        Result.ret s (t ++ init_writes handle ++ l) ∧
      (regWrites l).filter (fun w => w.1 = 0xFE) = [(0xFE, [5])] ∧
      pca9685_wakeup env handle (t ++ init_writes handle ++ l) =
        (k, t ++ init_writes handle ++ l ++ lw) ∧
      (regWrites lw).head? =
        some (0, [mode1_read env handle (t ++ init_writes handle ++ l) &&& 0x6F]) ∧
      pca9685_init env handle t =
        Result.ret
          (env.ok (t ++ (init_writes handle).take 1) &&
            env.ok (t ++ (init_writes handle).take 2) &&
            env.ok (t ++ init_writes handle) && s && k)
          (t ++ init_writes handle ++ l ++ lw) ∧
      ((env.ok (t ++ (init_writes handle).take 1) &&
            env.ok (t ++ (init_writes handle).take 2) &&
            env.ok (t ++ init_writes handle) && s && k) = true ↔
        env.ok (t ++ (init_writes handle).take 1) = true ∧
        env.ok (t ++ (init_writes handle).take 2) = true ∧
        env.ok (t ++ init_writes handle) = true ∧ s = true ∧ k = true) := by
  obtain ⟨s, l, hsl, hinit⟩ := init_steps env handle t hh
  obtain ⟨lw, hlw⟩ := wakeup_extends env handle (t ++ init_writes handle ++ l)
  have hp := set_pwm_frequency_prescaler_write env handle (Binary32.ofNat 1000)
    (t ++ init_writes handle) frequency_1000.1 frequency_1000.2.1
  rw [hsl, Result.trace, issued_append, frequency_1000.2.2] at hp
  have hw := wakeup_regWrites env handle (t ++ init_writes handle ++ l)
  rw [hlw, issued_append] at hw
  refine ⟨s, l, (pca9685_wakeup env handle (t ++ init_writes handle ++ l)).1, lw, hsl, hp,
    ?_, ?_, ?_, ?_⟩
  · rw [← hlw]
  · rw [hw]
    split <;> rfl
  · rw [hinit, hlw]
  · simp only [Bool.and_eq_true, and_assoc]

/-- A run of C12: the transport fails on every call, and every step is still
attempted (the reads stop after their failed transmit). -/
theorem C12_init_aggregates_witness :
    sampleHandle.i2c_handle ≠ 0 ∧
    pca9685_init failingTransport sampleHandle [] =
      Result.ret false
        [Event.transmit 0x80 [0x00, 0x30], Event.transmit 0x80 [0x01, 0x00],
         Event.transmit 0x80 [0xFA, 0x00, 0x00, 0x00, 0x10],
         Event.transmit 0x80 [0x00], Event.transmit 0x80 [0x00],
         Event.transmit 0x80 [0x00, 0x10], Event.transmit 0x80 [0xFE, 5],
         Event.transmit 0x80 [0x00], Event.transmit 0x80 [0x00, 0x00],
         Event.transmit 0x80 [0x00], Event.transmit 0x80 [0x00, 0x00]] ∧
    ∃ s l k lw,
      pca9685_set_pwm_frequency failingTransport sampleHandle (Binary32.ofNat 1000)
        ([] ++ init_writes sampleHandle) = Result.ret s ([] ++ init_writes sampleHandle ++ l) ∧
      pca9685_init failingTransport sampleHandle [] =
        Result.ret
          (failingTransport.ok ([] ++ (init_writes sampleHandle).take 1) &&
            failingTransport.ok ([] ++ (init_writes sampleHandle).take 2) &&
            failingTransport.ok ([] ++ init_writes sampleHandle) && s && k)
          ([] ++ init_writes sampleHandle ++ l ++ lw) :=
  ⟨by decide, by (set_option maxRecDepth 100000 in decide),
    let ⟨s, l, k, lw, h1, _, _, _, h5, _⟩ :=
      C12_init_aggregates failingTransport sampleHandle [] (by decide)
    ⟨s, l, k, lw, h1, h5⟩⟩

/-- C15. For `pca9685_sleep` and `pca9685_wakeup`, in every environment: the
history is that of the MODE1 read followed by the MODE1 write (for the wake-up,
by the delay and the second write when bit 7 of the value read is set), also when
the read failed; and the call returns success if and only if the read and every
write it issued succeeded. -/
theorem C15_sleep_wakeup_failures (env : Env) (handle : pca9685_handle_t) (t : List Event) :
    (pca9685_sleep env handle t).2 =
      (pca9685_read_u8 env handle PCA9685_REGISTER_MODE1 t).2.2 ++
        [Event.transmit handle.device_address [0, mode1_read env handle t &&& 0x7F ||| 0x10]] ∧
    ((pca9685_read_u8 env handle PCA9685_REGISTER_MODE1 t).1 = false →
      regWrites (issued t (pca9685_sleep env handle t).2) =
        [(0, [mode1_read env handle t &&& 0x7F ||| 0x10])]) ∧
    ((pca9685_sleep env handle t).1 = true ↔
      (pca9685_read_u8 env handle PCA9685_REGISTER_MODE1 t).1 = true ∧
      env.ok ((pca9685_read_u8 env handle PCA9685_REGISTER_MODE1 t).2.2 ++
        [Event.transmit handle.device_address
          [0, mode1_read env handle t &&& 0x7F ||| 0x10]]) = true) ∧
    (pca9685_wakeup env handle t).2 =
      (pca9685_read_u8 env handle PCA9685_REGISTER_MODE1 t).2.2 ++
        (if (mode1_read env handle t).testBit 7 then
          [Event.transmit handle.device_address [0, mode1_read env handle t &&& 0x6F],
            Event.delay 1,
            Event.transmit handle.device_address [0, mode1_read env handle t &&& 0x6F ||| 0x80]]
        else
          [Event.transmit handle.device_address [0, mode1_read env handle t &&& 0x6F]]) ∧
    ((pca9685_read_u8 env handle PCA9685_REGISTER_MODE1 t).1 = false →
      (regWrites (issued t (pca9685_wakeup env handle t).2)).head? =
        some (0, [mode1_read env handle t &&& 0x6F])) ∧
    ((pca9685_wakeup env handle t).1 = true ↔
      (pca9685_read_u8 env handle PCA9685_REGISTER_MODE1 t).1 = true ∧
      env.ok ((pca9685_read_u8 env handle PCA9685_REGISTER_MODE1 t).2.2 ++
        [Event.transmit handle.device_address [0, mode1_read env handle t &&& 0x6F]]) = true ∧
      ((mode1_read env handle t).testBit 7 = true →
        env.ok ((pca9685_read_u8 env handle PCA9685_REGISTER_MODE1 t).2.2 ++
          [Event.transmit handle.device_address [0, mode1_read env handle t &&& 0x6F],
            Event.delay 1,
            Event.transmit handle.device_address
              [0, mode1_read env handle t &&& 0x6F ||| 0x80]]) = true)) ∧
    ((pca9685_read_u8 env handle PCA9685_REGISTER_MODE1 t).1 = true ↔
      env.ok (t ++ [Event.transmit handle.device_address [0]]) = true ∧
      env.ok (t ++ [Event.transmit handle.device_address [0],
        Event.receive handle.device_address 1]) = true) := by
  obtain ⟨l, hl, -, hrw⟩ := read_u8_trace env handle PCA9685_REGISTER_MODE1 t
  refine ⟨sleep_trace env handle t, ?_, ?_, wakeup_trace env handle t, ?_, ?_, ?_⟩
  · intro _
    rw [sleep_trace, hl, List.append_assoc, issued_append, regWrites_append, hrw]
    simp [regWrites]
  · rw [sleep_result]
    simp only [Bool.and_eq_true]
  · intro _
    rw [wakeup_regWrites]
    split <;> rfl
  · rw [wakeup_result]
    by_cases hb : (mode1_read env handle t).testBit 7 = true
    · simp only [hb, if_true, Bool.and_eq_true, true_implies, and_assoc]
    · simp only [hb, Bool.false_eq_true, if_false, Bool.and_eq_true, Bool.and_true,
        false_implies, and_true]
  · rw [read_u8_result]
    simp [PCA9685_REGISTER_MODE1]

/-- C20. With a transport that never fails in front of a chip whose MODE1 reads
return the last value written, for a handle with a bus and both values of
`handle.inverted`, `pca9685_init` returns success; the frequency step reads MODE1
as 0x30, asleep, so no sleep write, no delay and no restart write is issued: the
register writes are the three default writes, PRESCALER (0xFE) <- 5 and
MODE1 <- 0x20, which leaves the chip awake (bit 4 clear) with auto-increment
(bit 5) set. -/
theorem C20_init_on_ideal_chip (handle : pca9685_handle_t) (m0 : Nat) (t : List Event)
    (hh : handle.i2c_handle ≠ 0) :
    pca9685_init (idealChip m0) handle t =
      Result.ret true (t ++ init_writes handle ++
        [Event.transmit handle.device_address [0], Event.receive handle.device_address 1,
         Event.transmit handle.device_address [0xFE, 5],
         Event.transmit handle.device_address [0], Event.receive handle.device_address 1,
         Event.transmit handle.device_address [0x00, 0x20]]) ∧
    mode1_read (idealChip m0) handle (t ++ init_writes handle) = 0x30 ∧
    (0x30).testBit 4 = true ∧
    regWrites (issued t (pca9685_init (idealChip m0) handle t).trace) =
      [(0x00, [0x30]), (0x01, [if handle.inverted then 0x10 else 0x00]),
       (0xFA, [0x00, 0x00, 0x00, 0x10]), (0xFE, [5]), (0x00, [0x20])] ∧
    (issued t (pca9685_init (idealChip m0) handle t).trace).filter Event.isDelay = [] ∧
    mode1_content m0 (pca9685_init (idealChip m0) handle t).trace = 0x20 ∧
    (0x20).testBit 4 = false ∧ (0x20).testBit 5 = true ∧ (0x20).testBit 7 = false := by
  have hinit := init_ideal handle m0 t hh
  refine ⟨hinit, ?_, by decide, ?_, ?_, ?_, by decide, by decide, by decide⟩
  · rw [mode1_read_idealChip, mode1_content_append]
    simp [init_writes, mode1_content_mode1, mode1_content_other _ _ 0,
      mode1_content_other _ _ 249, mode1_content_nil]
  · rw [hinit, Result.trace, List.append_assoc, issued_append]
    simp [init_writes, regWrites]
  · rw [hinit, Result.trace, List.append_assoc, issued_append]
    simp [init_writes, Event.isDelay]
  · rw [hinit, Result.trace, List.append_assoc, mode1_content_append]
    simp [init_writes, mode1_content_mode1, mode1_content_other _ _ 0,
      mode1_content_other _ _ 249, mode1_content_nil, mode1_content_addr,
      mode1_content_receive, mode1_content_prescaler]

/-- A run of C20: an inverted handle, MODE1 holding 0x91 before the call. -/
theorem C20_init_on_ideal_chip_witness :
    (⟨1, 0x80, true⟩ : pca9685_handle_t).i2c_handle ≠ 0 ∧
    regWrites (issued [] (pca9685_init (idealChip 0x91) ⟨1, 0x80, true⟩ []).trace) =
      [(0x00, [0x30]), (0x01, [if (⟨1, 0x80, true⟩ : pca9685_handle_t).inverted then 0x10
          else 0x00]),
       (0xFA, [0x00, 0x00, 0x00, 0x10]), (0xFE, [5]), (0x00, [0x20])] :=
  ⟨by decide, (C20_init_on_ideal_chip ⟨1, 0x80, true⟩ 0x91 [] (by decide)).2.2.2.1⟩

/-! ### Ranges of the conversions -/

namespace Binary32

theorem quotient_upper_aux {X g : Nat} (hlo : 24 * (8 * X) ≤ g) :
    25000000 * (8 * X) * (8 * X) ≤ 2035 * X * (4096 * g) := by
  have h := Nat.mul_le_mul_left (2035 * X * 4096) hlo
  have e1 : 2035 * X * 4096 * (24 * (8 * X)) = 1600389120 * (X * X) := by ring
  have e2 : 2035 * X * 4096 * g = 2035 * X * (4096 * g) := by ring
  have e3 : 25000000 * (8 * X) * (8 * X) = 1600000000 * (X * X) := by ring
  rw [e1, e2] at h
  rw [e3]
  exact le_trans (Nat.mul_le_mul_right _ (by decide)) h

/-- The single-precision quotient of `pca9685_set_pwm_frequency` is at most 254.375,
so `roundf` of it is at most 254. -/
theorem rounded_quotient_le {f : Binary32} (hv : f.valid) (h24 : le (ofNat 24) f = true)
    (h1526 : le f (ofNat 1526) = true) :
    (roundf (div (ofNat 25000000) (mul (ofNat 4096) f))).truncToNat ≤ 254 := by
  obtain ⟨-, -, -, hlo, -⟩ := frequency_range h24 h1526
  obtain ⟨-, -, qr⟩ := quotient_facts hv h24 h1526
  have e149 : (2 : Nat) ^ 149 = 8 * 2 ^ 146 := by
    rw [show (149 : Nat) = 3 + 146 from rfl, pow_add]; rfl
  have e150 : (2 : Nat) ^ 150 = 16 * 2 ^ 146 := by
    rw [show (150 : Nat) = 4 + 146 from rfl, pow_add]; rfl
  have hX : 0 < 2 ^ 146 := Nat.two_pow_pos 146
  have hd : 0 < 4096 * f.scaled := by
    have := Nat.two_pow_pos 149
    omega
  have hQ : roundMag (25000000 * 2 ^ 149 * 2 ^ 149) (4096 * f.scaled) ≤ 2035 * 2 ^ 146 := by
    apply roundMag_le hd (representable_mul_pow (by decide))
    rw [e149] at hlo ⊢
    exact quotient_upper_aux hlo
  rw [qr]
  apply Nat.lt_succ_iff.mp
  apply (Nat.div_lt_iff_lt_mul (Nat.two_pow_pos 150)).mpr
  rw [e149, e150]
  generalize roundMag (25000000 * 2 ^ 149 * 2 ^ 149) (4096 * f.scaled) = Q at hQ ⊢
  generalize 2 ^ 146 = X at *
  omega

end Binary32

/-- Outside the sentinels `required_on_time` is at most 4095 in both modes. -/
theorem required_on_time_le {d : Binary32} (logarithmic : Bool)
    (h0 : Binary32.le (Binary32.ofNat 0) d = true) (h1 : Binary32.le d (Binary32.ofNat 1) = true)
    (hn0 : Binary32.eq d (Binary32.ofNat 0) = false)
    (hn1 : Binary32.eq d (Binary32.ofNat 1) = false) :
    required_on_time d logarithmic ≤ 4095 := by
  cases logarithmic
  · exact (required_on_time_linear h0 h1 hn0 hn1).2.2.2
  · rw [(dimming_index h0 h1 hn0 hn1).1]
    exact CIEL_8_12_getD_le _

/-- The two sentinel branches of `pca9685_set_channel_duty_cycle`. -/
theorem set_channel_duty_cycle_sentinel (env : Env) (handle : pca9685_handle_t) (channel : Nat)
    (d : Binary32) (logarithmic : Bool) (t : List Event) :
    (Binary32.eq d (Binary32.ofNat 0) = true →
      pca9685_set_channel_duty_cycle env handle channel d logarithmic t =
        pca9685_set_channel_pwm_times env handle channel 0 4096 t) ∧
    (Binary32.eq d (Binary32.ofNat 1) = true →
      pca9685_set_channel_duty_cycle env handle channel d logarithmic t =
        pca9685_set_channel_pwm_times env handle channel 4096 0 t) := by
  have c0n : (Binary32.ofNat 0).isNaN = false := by (set_option maxRecDepth 100000 in decide)
  have c1n : (Binary32.ofNat 1).isNaN = false := by (set_option maxRecDepth 100000 in decide)
  have c0 : (Binary32.ofNat 0).toInt = 0 := by (set_option maxRecDepth 100000 in decide)
  have c1 : (Binary32.ofNat 1).toInt = 2 ^ 149 := by (set_option maxRecDepth 100000 in decide)
  constructor
  · intro h
    obtain ⟨hn, -, he⟩ := Binary32.eq_iff.mp h
    have h0 : Binary32.le (Binary32.ofNat 0) d = true :=
      Binary32.le_iff.mpr ⟨c0n, hn, le_of_eq he.symm⟩
    have h1 : Binary32.le d (Binary32.ofNat 1) = true :=
      Binary32.le_iff.mpr ⟨hn, c1n, by rw [he, c0, c1]; positivity⟩
    unfold pca9685_set_channel_duty_cycle
    simp only [h0, h1, h, Bool.not_true, Bool.false_eq_true, if_false, if_true]
  · intro h
    obtain ⟨hn, -, he⟩ := Binary32.eq_iff.mp h
    have h0 : Binary32.le (Binary32.ofNat 0) d = true :=
      Binary32.le_iff.mpr ⟨c0n, hn, by rw [he, c0, c1]; positivity⟩
    have h1 : Binary32.le d (Binary32.ofNat 1) = true :=
      Binary32.le_iff.mpr ⟨hn, c1n, le_of_eq he⟩
    have hne : Binary32.eq d (Binary32.ofNat 0) = false := by
      cases hz : Binary32.eq d (Binary32.ofNat 0)
      · rfl
      · exfalso
        obtain ⟨-, -, he0⟩ := Binary32.eq_iff.mp hz
        rw [he, c0, c1] at he0
        exact absurd he0 (by positivity)
    unfold pca9685_set_channel_duty_cycle
    simp only [h0, h1, h, hne, Bool.not_true, Bool.false_eq_true, if_false, if_true]

/-- C14. For every channel below 16, both values of `logarithmic` and every duty
cycle `d` in [0, 1], `pca9685_set_channel_duty_cycle` returns: no assertion of
`pca9685_set_channel_pwm_times` fails on the pair it passes.  For `0 < d < 1` the
pair has `on_time` and `off_time` both at most 4095; the value 4096 is passed only
in the pairs (0, 4096) for `d = 0` and (4096, 0) for `d = 1`. -/
theorem C14_time_pair_range (env : Env) (handle : pca9685_handle_t) (channel : Nat)
    (d : Binary32) (logarithmic : Bool) (t : List Event) (hc : channel < 16)
    (h0 : Binary32.le (Binary32.ofNat 0) d = true)
    (h1 : Binary32.le d (Binary32.ofNat 1) = true) :
    (∃ r l, pca9685_set_channel_duty_cycle env handle channel d logarithmic t =
      Result.ret r (t ++ l)) ∧
    (Binary32.eq d (Binary32.ofNat 0) = false → Binary32.eq d (Binary32.ofNat 1) = false →
      pca9685_set_channel_duty_cycle env handle channel d logarithmic t =
        pca9685_set_channel_pwm_times env handle channel
          (if channel = 0 then 0 else channel * 256 - 1)
          (((if channel = 0 then 0 else channel * 256 - 1) + required_on_time d logarithmic)
            % 4096) t ∧
      (if channel = 0 then 0 else channel * 256 - 1) ≤ 4095 ∧
      ((if channel = 0 then 0 else channel * 256 - 1) + required_on_time d logarithmic)
          % 4096 ≤ 4095) ∧
    (Binary32.eq d (Binary32.ofNat 0) = true →
      pca9685_set_channel_duty_cycle env handle channel d logarithmic t =
        pca9685_set_channel_pwm_times env handle channel 0 4096 t) ∧
    (Binary32.eq d (Binary32.ofNat 1) = true →
      pca9685_set_channel_duty_cycle env handle channel d logarithmic t =
        pca9685_set_channel_pwm_times env handle channel 4096 0 t) := by
  obtain ⟨s0, s1⟩ := set_channel_duty_cycle_sentinel env handle channel d logarithmic t
  have hon : (if channel = 0 then 0 else channel * 256 - 1) ≤ 4095 := by split <;> omega
  have hoff : ((if channel = 0 then 0 else channel * 256 - 1) + required_on_time d logarithmic)
      % 4096 ≤ 4095 := by omega
  have hin : Binary32.eq d (Binary32.ofNat 0) = false → Binary32.eq d (Binary32.ofNat 1) = false →
      pca9685_set_channel_duty_cycle env handle channel d logarithmic t =
        pca9685_set_channel_pwm_times env handle channel
          (if channel = 0 then 0 else channel * 256 - 1)
          (((if channel = 0 then 0 else channel * 256 - 1) + required_on_time d logarithmic)
            % 4096) t := fun hn0 hn1 =>
    set_channel_duty_cycle_inner env handle channel d logarithmic t hc h0 h1 hn0 hn1
      (required_on_time_le logarithmic h0 h1 hn0 hn1)
  refine ⟨?_, fun hn0 hn1 => ⟨hin hn0 hn1, hon, hoff⟩, s0, s1⟩
  cases hz : Binary32.eq d (Binary32.ofNat 0)
  · cases ho : Binary32.eq d (Binary32.ofNat 1)
    · rw [hin hz ho, set_channel_pwm_times_ok env handle channel _ _ t hc (by omega) (by omega)]
      exact ⟨_, _, rfl⟩
    · rw [s1 ho, set_channel_pwm_times_ok env handle channel _ _ t hc (by decide) (by decide)]
      exact ⟨_, _, rfl⟩
  · rw [s0 hz, set_channel_pwm_times_ok env handle channel _ _ t hc (by decide) (by decide)]
    exact ⟨_, _, rfl⟩

/-- A run of C14: channel 15 at the largest duty cycle below 1, linear mode; the
pair is (3839, 3838). -/
theorem C14_time_pair_range_witness :
    Binary32.eq (Binary32.ofBits 0x3F7FFFFF) (Binary32.ofNat 0) = false ∧
    Binary32.eq (Binary32.ofBits 0x3F7FFFFF) (Binary32.ofNat 1) = false ∧
    required_on_time (Binary32.ofBits 0x3F7FFFFF) false = 4095 ∧
    (if 15 = 0 then 0 else 15 * 256 - 1) ≤ 4095 ∧
    ((if 15 = 0 then 0 else 15 * 256 - 1) + required_on_time (Binary32.ofBits 0x3F7FFFFF) false)
      % 4096 ≤ 4095 :=
  ⟨by (set_option maxRecDepth 100000 in decide), by (set_option maxRecDepth 100000 in decide),
    by (set_option maxRecDepth 100000 in decide),
    ((C14_time_pair_range (idealChip 0) sampleHandle 15 (Binary32.ofBits 0x3F7FFFFF) false []
      (by decide) (by (set_option maxRecDepth 100000 in decide))
      (by (set_option maxRecDepth 100000 in decide))).2.1
      (by (set_option maxRecDepth 100000 in decide))
      (by (set_option maxRecDepth 100000 in decide))).2⟩

/-- C16. For every duty cycle `d` with `0 < d < 1`, the index
`(unsigned)roundf(255 * d)` that `pca9685_set_channel_duty_cycle` uses in
logarithmic mode is at most 255 and is not changed by the cast, so the lookup is
inside the 256 entries of `CIEL_8_12`; the exact `round(255 * d)` lies in [0, 255]
as well. -/
theorem C16_dimming_index_in_bounds (d : Binary32)
    (h0 : Binary32.le (Binary32.ofNat 0) d = true) (h1 : Binary32.le d (Binary32.ofNat 1) = true)
    (hn0 : Binary32.eq d (Binary32.ofNat 0) = false)
    (hn1 : Binary32.eq d (Binary32.ofNat 1) = false) :
    CIEL_8_12.length = 256 ∧
    (Binary32.roundf (Binary32.mul (Binary32.ofNat 255) d)).truncToNat ≤ 255 ∧
    (Binary32.roundf (Binary32.mul (Binary32.ofNat 255) d)).truncToNat % 2 ^ 32 =
      (Binary32.roundf (Binary32.mul (Binary32.ofNat 255) d)).truncToNat ∧
    (∃ h : (Binary32.roundf (Binary32.mul (Binary32.ofNat 255) d)).truncToNat % 2 ^ 32
        < CIEL_8_12.length,
      required_on_time d true = CIEL_8_12.get
        ⟨(Binary32.roundf (Binary32.mul (Binary32.ofNat 255) d)).truncToNat % 2 ^ 32, h⟩) ∧
    0 ≤ round ((255 : ℚ) * d.toRat) ∧ round ((255 : ℚ) * d.toRat) ≤ 255 ∧
    (round ((255 : ℚ) * d.toRat)).toNat < CIEL_8_12.length := by
  obtain ⟨-, -, hs, -, hlt⟩ := Binary32.duty_cycle_range h0 h1 hn0 hn1
  obtain ⟨-, -, -, -, r3⟩ := dimming_index h0 h1 hn0 hn1
  have hlen : CIEL_8_12.length = 256 := by (set_option maxRecDepth 100000 in decide)
  have hmod : (Binary32.roundf (Binary32.mul (Binary32.ofNat 255) d)).truncToNat % 2 ^ 32 =
      (Binary32.roundf (Binary32.mul (Binary32.ofNat 255) d)).truncToNat :=
    Nat.mod_eq_of_lt (lt_of_le_of_lt r3 (by decide))
  have hexact := round_mul_toRat 255 hs
  rw [Nat.cast_ofNat] at hexact
  have hK : (2 * (255 * d.scaled) + 2 ^ 149) / (2 * 2 ^ 149) ≤ 255 :=
    Binary32.half_round_le (Nat.two_pow_pos 149) (Nat.mul_le_mul_left 255 (le_of_lt hlt))
  have hb : (Binary32.roundf (Binary32.mul (Binary32.ofNat 255) d)).truncToNat % 2 ^ 32
      < CIEL_8_12.length := by rw [hmod, hlen]; omega
  refine ⟨hlen, r3, hmod, ⟨hb, ?_⟩, ?_, ?_, ?_⟩
  · unfold required_on_time
    simp only [if_true]
    rw [List.getD_eq_getElem _ _ hb]
    rfl
  · rw [hexact]; exact Int.natCast_nonneg _
  · rw [hexact]; exact_mod_cast hK
  · rw [hexact, Int.toNat_ofNat, hlen]; omega

/-- A run of C16: at half duty the index is 128. -/
theorem C16_dimming_index_in_bounds_witness :
    Binary32.le (Binary32.ofNat 0) (Binary32.ofBits 0x3F000000) = true ∧
    Binary32.le (Binary32.ofBits 0x3F000000) (Binary32.ofNat 1) = true ∧
    Binary32.eq (Binary32.ofBits 0x3F000000) (Binary32.ofNat 0) = false ∧
    Binary32.eq (Binary32.ofBits 0x3F000000) (Binary32.ofNat 1) = false ∧
    (Binary32.roundf (Binary32.mul (Binary32.ofNat 255)
      (Binary32.ofBits 0x3F000000))).truncToNat = 128 ∧
    (Binary32.roundf (Binary32.mul (Binary32.ofNat 255)
      (Binary32.ofBits 0x3F000000))).truncToNat ≤ 255 :=
  ⟨by (set_option maxRecDepth 100000 in decide), by (set_option maxRecDepth 100000 in decide),
    by (set_option maxRecDepth 100000 in decide), by (set_option maxRecDepth 100000 in decide),
    by (set_option maxRecDepth 100000 in decide),
    (C16_dimming_index_in_bounds (Binary32.ofBits 0x3F000000)
      (by (set_option maxRecDepth 100000 in decide))
      (by (set_option maxRecDepth 100000 in decide))
      (by (set_option maxRecDepth 100000 in decide))
      (by (set_option maxRecDepth 100000 in decide))).2.1⟩

/-- C17. For every binary32 frequency `f` in [24, 1526], the exact
`round(25000000 / (4096 * f))` lies in [4, 254], and so does the value
`roundf` returns in `pca9685_set_pwm_frequency`.  The cast of that value to
`uint8_t` does not change it and subtracting 1 does not wrap, so the prescaler that
is written to register 0xFE lies in [3, 253]; it is 3 at `f = 1526` and 253 at
`f = 24`. -/
theorem C17_prescaler_range (env : Env) (handle : pca9685_handle_t) (f : Binary32)
    (t : List Event) (hv : f.valid) (h24 : Binary32.le (Binary32.ofNat 24) f = true)
    (h1526 : Binary32.le f (Binary32.ofNat 1526) = true) :
    4 ≤ round ((25000000 : ℚ) / (4096 * f.toRat)) ∧
    round ((25000000 : ℚ) / (4096 * f.toRat)) ≤ 254 ∧
    4 ≤ (Binary32.roundf (Binary32.div (Binary32.ofNat 25000000)
      (Binary32.mul (Binary32.ofNat 4096) f))).truncToNat ∧
    (Binary32.roundf (Binary32.div (Binary32.ofNat 25000000)
      (Binary32.mul (Binary32.ofNat 4096) f))).truncToNat ≤ 254 ∧
    (Binary32.roundf (Binary32.div (Binary32.ofNat 25000000)
      (Binary32.mul (Binary32.ofNat 4096) f))).truncToNat % 256 =
      (Binary32.roundf (Binary32.div (Binary32.ofNat 25000000)
        (Binary32.mul (Binary32.ofNat 4096) f))).truncToNat ∧
    prescaler_of f + 1 = (Binary32.roundf (Binary32.div (Binary32.ofNat 25000000)
      (Binary32.mul (Binary32.ofNat 4096) f))).truncToNat ∧
    3 ≤ prescaler_of f ∧ prescaler_of f ≤ 253 ∧
    (regWrites (issued t (pca9685_set_pwm_frequency env handle f t).trace)).filter
      (fun w => w.1 = 0xFE) = [(0xFE, [prescaler_of f])] ∧
    prescaler_of (Binary32.ofNat 1526) = 3 ∧ prescaler_of (Binary32.ofNat 24) = 253 := by
  obtain ⟨-, -, hs, hlo, hhi⟩ := Binary32.frequency_range h24 h1526
  obtain ⟨k4, k254⟩ := Binary32.exact_quotient_range hlo hhi
  obtain ⟨-, p2, p3⟩ := prescaler_of_facts hv h24 h1526
  have hR := Binary32.rounded_quotient_le hv h24 h1526
  have hg : 0 < f.scaled := lt_of_lt_of_le (by decide) hlo
  have hsp := spec_prescaler_eq hs hg
  rw [hsp] at p2 p3
  unfold spec_prescaler at hsp
  have hround : round ((25000000 : ℚ) / (4096 * f.toRat)) =
      (((2 * (25000000 * 2 ^ 149) + 4096 * f.scaled) / (2 * (4096 * f.scaled)) : Nat) : Int) := by
    linarith
  have hp : prescaler_of f =
      ((Binary32.roundf (Binary32.div (Binary32.ofNat 25000000)
        (Binary32.mul (Binary32.ofNat 4096) f))).truncToNat % 256 + 255) % 256 := rfl
  rw [hround]
  generalize (2 * (25000000 * 2 ^ 149) + 4096 * f.scaled) / (2 * (4096 * f.scaled)) = K at *
  generalize (Binary32.roundf (Binary32.div (Binary32.ofNat 25000000)
    (Binary32.mul (Binary32.ofNat 4096) f))).truncToNat = R at *
  refine ⟨by omega, by omega, by omega, hR, by omega, by omega, by omega, by omega,
    set_pwm_frequency_prescaler_write env handle f t h24 h1526,
    by (set_option maxRecDepth 100000 in decide), by (set_option maxRecDepth 100000 in decide)⟩

/-- A run of C17: 24 Hz gives the prescaler 253. -/
theorem C17_prescaler_range_witness :
    (Binary32.ofNat 24).valid ∧
    Binary32.le (Binary32.ofNat 24) (Binary32.ofNat 24) = true ∧
    Binary32.le (Binary32.ofNat 24) (Binary32.ofNat 1526) = true ∧
    prescaler_of (Binary32.ofNat 24) = 253 ∧
    3 ≤ prescaler_of (Binary32.ofNat 24) ∧ prescaler_of (Binary32.ofNat 24) ≤ 253 :=
  ⟨by (set_option maxRecDepth 100000 in decide), by (set_option maxRecDepth 100000 in decide),
    by (set_option maxRecDepth 100000 in decide), by (set_option maxRecDepth 100000 in decide),
    (C17_prescaler_range (idealChip 0x30) sampleHandle (Binary32.ofNat 24) []
      (by (set_option maxRecDepth 100000 in decide))
      (by (set_option maxRecDepth 100000 in decide))
      (by (set_option maxRecDepth 100000 in decide))).2.2.2.2.2.2.1,
    (C17_prescaler_range (idealChip 0x30) sampleHandle (Binary32.ofNat 24) []
      (by (set_option maxRecDepth 100000 in decide))
      (by (set_option maxRecDepth 100000 in decide))
      (by (set_option maxRecDepth 100000 in decide))).2.2.2.2.2.2.2.1⟩

/-- C18. For every channel below 16, both values of `logarithmic` and every duty
cycle `d` with `0 < d < 1`, the pair `(on_time, off_time)` that
`pca9685_set_channel_duty_cycle` passes on satisfies
`(off_time - on_time) mod 4096 = required_on_time`; when `required_on_time` is 0,
`off_time` equals `on_time`. -/
theorem C18_pulse_width_preserved (env : Env) (handle : pca9685_handle_t) (channel : Nat)
    (d : Binary32) (logarithmic : Bool) (t : List Event) (hc : channel < 16)
    (h0 : Binary32.le (Binary32.ofNat 0) d = true) (h1 : Binary32.le d (Binary32.ofNat 1) = true)
    (hn0 : Binary32.eq d (Binary32.ofNat 0) = false)
    (hn1 : Binary32.eq d (Binary32.ofNat 1) = false) :
    pca9685_set_channel_duty_cycle env handle channel d logarithmic t =
      pca9685_set_channel_pwm_times env handle channel
        (if channel = 0 then 0 else channel * 256 - 1)
        (((if channel = 0 then 0 else channel * 256 - 1) + required_on_time d logarithmic)
          % 4096) t ∧
    (((((if channel = 0 then 0 else channel * 256 - 1) + required_on_time d logarithmic)
        % 4096 : Nat) : Int) - ((if channel = 0 then 0 else channel * 256 - 1 : Nat) : Int))
      % 4096 = (required_on_time d logarithmic : Int) ∧
    (required_on_time d logarithmic = 0 →
      ((if channel = 0 then 0 else channel * 256 - 1) + required_on_time d logarithmic) % 4096 =
        (if channel = 0 then 0 else channel * 256 - 1)) := by
  have hr := required_on_time_le logarithmic h0 h1 hn0 hn1
  refine ⟨set_channel_duty_cycle_inner env handle channel d logarithmic t hc h0 h1 hn0 hn1 hr,
    ?_, ?_⟩
  · generalize required_on_time d logarithmic = R at hr ⊢
    have hon : (if channel = 0 then 0 else channel * 256 - 1) ≤ 4095 := by split <;> omega
    generalize (if channel = 0 then 0 else channel * 256 - 1) = a at hon ⊢
    omega
  · intro hz
    rw [hz]
    have hon : (if channel = 0 then 0 else channel * 256 - 1) ≤ 4095 := by split <;> omega
    omega

/-- A run of C18: channel 15 at the largest duty cycle below 1, linear mode; the
pair (3839, 3838) wraps around and keeps the width 4095. -/
theorem C18_pulse_width_preserved_witness :
    Binary32.le (Binary32.ofNat 0) (Binary32.ofBits 0x3F7FFFFF) = true ∧
    Binary32.le (Binary32.ofBits 0x3F7FFFFF) (Binary32.ofNat 1) = true ∧
    Binary32.eq (Binary32.ofBits 0x3F7FFFFF) (Binary32.ofNat 0) = false ∧
    Binary32.eq (Binary32.ofBits 0x3F7FFFFF) (Binary32.ofNat 1) = false ∧
    required_on_time (Binary32.ofBits 0x3F7FFFFF) false = 4095 ∧
    (((((if 15 = 0 then 0 else 15 * 256 - 1) + required_on_time (Binary32.ofBits 0x3F7FFFFF) false)
        % 4096 : Nat) : Int) - ((if 15 = 0 then 0 else 15 * 256 - 1 : Nat) : Int))
      % 4096 = (required_on_time (Binary32.ofBits 0x3F7FFFFF) false : Int) :=
  ⟨by (set_option maxRecDepth 100000 in decide), by (set_option maxRecDepth 100000 in decide),
    by (set_option maxRecDepth 100000 in decide), by (set_option maxRecDepth 100000 in decide),
    by (set_option maxRecDepth 100000 in decide),
    (C18_pulse_width_preserved (idealChip 0) sampleHandle 15 (Binary32.ofBits 0x3F7FFFFF) false []
      (by decide) (by (set_option maxRecDepth 100000 in decide))
      (by (set_option maxRecDepth 100000 in decide))
      (by (set_option maxRecDepth 100000 in decide))
      (by (set_option maxRecDepth 100000 in decide))).2.1⟩

/-! ### Monotone on-duration -/

namespace Binary32

/-- `roundf` of the single-precision product `c * d` is monotone in `d`. -/
theorem product_mono {c : Nat} {C d1 d2 : Binary32}
    (hC : C.isNaN = false ∧ C.isInf = false ∧ C.sign = false ∧ C.scaled = c * 2 ^ 149)
    (hc : c < 2 ^ 22)
    (hn1 : d1.isNaN = false) (hi1 : d1.isInf = false) (hs1 : d1.sign = false)
    (hlt1 : d1.scaled < 2 ^ 149)
    (hn2 : d2.isNaN = false) (hi2 : d2.isInf = false) (hs2 : d2.sign = false)
    (hlt2 : d2.scaled < 2 ^ 149) (h : d1.scaled ≤ d2.scaled) :
    (roundf (mul C d1)).truncToNat ≤ (roundf (mul C d2)).truncToNat := by
  obtain ⟨-, -, p1, -⟩ := product_facts hC hc hn1 hi1 hs1 hlt1
  obtain ⟨-, -, p2, -⟩ := product_facts hC hc hn2 hi2 hs2 hlt2
  rw [p1, p2]
  apply Nat.div_le_div_right
  have := roundMag_mono (Nat.two_pow_pos 149) (Nat.mul_le_mul_left (c * 2 ^ 149) h)
  omega

theorem eq_false_of_ne {x y : Binary32} (h : x.toInt ≠ y.toInt) : eq x y = false := by
  cases he : eq x y
  · rfl
  · exact absurd (eq_iff.mp he).2.2 h

end Binary32

/-- The dimming table is non-decreasing over its 256 entries. -/
theorem CIEL_8_12_mono {i j : Nat} (hij : i ≤ j) (hj : j ≤ 255) :
    CIEL_8_12.getD i 0 ≤ CIEL_8_12.getD j 0 := by
  have hadj : ∀ k, k < 255 → CIEL_8_12.getD k 0 ≤ CIEL_8_12.getD (k + 1) 0 := by
    (set_option maxRecDepth 100000 in decide)
  induction j, hij using Nat.le_induction with
  | base => exact le_refl _
  | succ n hn ih => exact le_trans (ih (by omega)) (hadj n (by omega))

/-- Outside the sentinels `required_on_time` is monotone in the duty cycle. -/
theorem required_on_time_mono {d1 d2 : Binary32} (logarithmic : Bool)
    (h0 : Binary32.le (Binary32.ofNat 0) d1 = true)
    (h1 : Binary32.le d1 (Binary32.ofNat 1) = true)
    (hn0 : Binary32.eq d1 (Binary32.ofNat 0) = false)
    (hn1 : Binary32.eq d1 (Binary32.ofNat 1) = false)
    (k0 : Binary32.le (Binary32.ofNat 0) d2 = true)
    (k1 : Binary32.le d2 (Binary32.ofNat 1) = true)
    (kn0 : Binary32.eq d2 (Binary32.ofNat 0) = false)
    (kn1 : Binary32.eq d2 (Binary32.ofNat 1) = false)
    (h12 : Binary32.le d1 d2 = true) :
    required_on_time d1 logarithmic ≤ required_on_time d2 logarithmic := by
  obtain ⟨a1, a2, a3, -, a5⟩ := Binary32.duty_cycle_range h0 h1 hn0 hn1
  obtain ⟨b1, b2, b3, -, b5⟩ := Binary32.duty_cycle_range k0 k1 kn0 kn1
  have hD : d1.scaled ≤ d2.scaled := by
    have := (Binary32.le_iff.mp h12).2.2
    rw [Binary32.toInt_of_sign_false a3, Binary32.toInt_of_sign_false b3] at this
    exact_mod_cast this
  cases logarithmic
  · have m := Binary32.product_mono ofNat_4095_facts (by decide) a1 a2 a3 a5 b1 b2 b3 b5 hD
    obtain ⟨-, -, -, -, -, r1⟩ :=
      Binary32.product_facts ofNat_4095_facts (by decide) a1 a2 a3 a5
    obtain ⟨-, -, -, -, -, r2⟩ :=
      Binary32.product_facts ofNat_4095_facts (by decide) b1 b2 b3 b5
    unfold required_on_time
    simp only [Bool.false_eq_true, if_false]
    rw [Nat.mod_eq_of_lt (lt_of_le_of_lt r1 (by decide)),
      Nat.mod_eq_of_lt (lt_of_le_of_lt r2 (by decide))]
    exact m
  · have m := Binary32.product_mono ofNat_255_facts (by decide) a1 a2 a3 a5 b1 b2 b3 b5 hD
    rw [(dimming_index h0 h1 hn0 hn1).1, (dimming_index k0 k1 kn0 kn1).1]
    exact CIEL_8_12_mono m (dimming_index k0 k1 kn0 kn1).2.2.2.2

/-- The pair `pca9685_set_channel_duty_cycle` passes on, in terms of `ticks`. -/
theorem ticks_encoded (env : Env) (handle : pca9685_handle_t) (channel : Nat)
    (d : Binary32) (logarithmic : Bool) (t : List Event) (hc : channel < 16)
    (h0 : Binary32.le (Binary32.ofNat 0) d = true)
    (h1 : Binary32.le d (Binary32.ofNat 1) = true) :
    (ticks d logarithmic = 0 ∧ Binary32.eq d (Binary32.ofNat 0) = true ∧
      pca9685_set_channel_duty_cycle env handle channel d logarithmic t =
        pca9685_set_channel_pwm_times env handle channel 0 4096 t) ∨
    (ticks d logarithmic = 4096 ∧ Binary32.eq d (Binary32.ofNat 1) = true ∧
      pca9685_set_channel_duty_cycle env handle channel d logarithmic t =
        pca9685_set_channel_pwm_times env handle channel 4096 0 t) ∨
    (ticks d logarithmic ≤ 4095 ∧
      pca9685_set_channel_duty_cycle env handle channel d logarithmic t =
        pca9685_set_channel_pwm_times env handle channel
          (if channel = 0 then 0 else channel * 256 - 1)
          (((if channel = 0 then 0 else channel * 256 - 1) + ticks d logarithmic) % 4096) t) := by
  obtain ⟨s0, s1⟩ := set_channel_duty_cycle_sentinel env handle channel d logarithmic t
  cases hz : Binary32.eq d (Binary32.ofNat 0)
  · cases ho : Binary32.eq d (Binary32.ofNat 1)
    · have e : ticks d logarithmic = required_on_time d logarithmic := by
        unfold ticks; simp [hz, ho]
      have hr := required_on_time_le logarithmic h0 h1 hz ho
      right; right
      rw [e]
      exact ⟨hr, set_channel_duty_cycle_inner env handle channel d logarithmic t hc h0 h1 hz ho hr⟩
    · right; left
      exact ⟨by unfold ticks; simp [hz, ho], rfl, s1 ho⟩
  · left
    exact ⟨by unfold ticks; simp [hz], rfl, s0 hz⟩

/-- The on-duration the driver encodes is monotone in the duty cycle. -/
theorem ticks_mono {d1 d2 : Binary32} (logarithmic : Bool)
    (h0 : Binary32.le (Binary32.ofNat 0) d1 = true) (h12 : Binary32.le d1 d2 = true)
    (h1 : Binary32.le d2 (Binary32.ofNat 1) = true) :
    ticks d1 logarithmic ≤ ticks d2 logarithmic := by
  have c0n : (Binary32.ofNat 0).isNaN = false := by (set_option maxRecDepth 100000 in decide)
  have c1n : (Binary32.ofNat 1).isNaN = false := by (set_option maxRecDepth 100000 in decide)
  obtain ⟨-, n1, i0⟩ := Binary32.le_iff.mp h0
  obtain ⟨-, n2, i12⟩ := Binary32.le_iff.mp h12
  obtain ⟨-, -, i1⟩ := Binary32.le_iff.mp h1
  have k0 : Binary32.le (Binary32.ofNat 0) d2 = true :=
    Binary32.le_iff.mpr ⟨c0n, n2, le_trans i0 i12⟩
  have h1' : Binary32.le d1 (Binary32.ofNat 1) = true :=
    Binary32.le_iff.mpr ⟨n1, c1n, le_trans i12 i1⟩
  cases hz : Binary32.eq d1 (Binary32.ofNat 0)
  · have z1 : d1.toInt ≠ (Binary32.ofNat 0).toInt := fun he => by
      have := Binary32.eq_iff.mpr ⟨n1, c0n, he⟩
      rw [hz] at this; cases this
    have kz : Binary32.eq d2 (Binary32.ofNat 0) = false :=
      Binary32.eq_false_of_ne (fun he => z1 (le_antisymm (by rw [← he]; exact i12) i0))
    cases ko : Binary32.eq d2 (Binary32.ofNat 1)
    · have o2 : d2.toInt ≠ (Binary32.ofNat 1).toInt := fun he => by
        have := Binary32.eq_iff.mpr ⟨n2, c1n, he⟩
        rw [ko] at this; cases this
      have ho : Binary32.eq d1 (Binary32.ofNat 1) = false :=
        Binary32.eq_false_of_ne (fun he => o2 (le_antisymm i1 (by rw [← he]; exact i12)))
      have e1 : ticks d1 logarithmic = required_on_time d1 logarithmic := by
        unfold ticks; simp [hz, ho]
      have e2 : ticks d2 logarithmic = required_on_time d2 logarithmic := by
        unfold ticks; simp [kz, ko]
      rw [e1, e2]
      exact required_on_time_mono logarithmic h0 h1' hz ho k0 h1 kz ko h12
    · have e2 : ticks d2 logarithmic = 4096 := by unfold ticks; simp [kz, ko]
      rw [e2]
      cases ho : Binary32.eq d1 (Binary32.ofNat 1)
      · have e1 : ticks d1 logarithmic = required_on_time d1 logarithmic := by
          unfold ticks; simp [hz, ho]
        have := required_on_time_le logarithmic h0 h1' hz ho
        omega
      · have e1 : ticks d1 logarithmic = 4096 := by unfold ticks; simp [hz, ho]
        omega
  · have e1 : ticks d1 logarithmic = 0 := by unfold ticks; simp [hz]
    rw [e1]
    exact Nat.zero_le _

theorem toRat_of_nonneg {x : Binary32} (h : 0 ≤ x.toInt) :
    x.toRat = ((x.toInt.toNat : Nat) : ℚ) / ((2 ^ 149 : Nat) : ℚ) := by
  unfold Binary32.toRat
  rw [Nat.cast_pow, Nat.cast_ofNat, ← Int.cast_natCast, Int.toNat_of_nonneg h]

theorem round_mul_nat_div (c N X : Nat) (hX : 0 < X) :
    round ((c : ℚ) * ((N : ℚ) / (X : ℚ))) = (((2 * (c * N) + X) / (2 * X) : Nat) : Int) := by
  have e : (c : ℚ) * ((N : ℚ) / (X : ℚ)) = ((c * N : Nat) : ℚ) / (X : ℚ) := by
    rw [Nat.cast_mul, mul_div_assoc]
  rw [e, Binary32.round_nat_div _ _ hX]

/-- The specification's on-duration as integer arithmetic on the bits of `d`. -/
theorem spec_ticks_eq {d : Binary32} (h : 0 ≤ d.toInt) (b : Bool) :
    spec_ticks d b =
      if d.toInt.toNat = 0 then (0 : Int)
      else if d.toInt.toNat = 2 ^ 149 then 4096
      else if b then
        ((CIEL_8_12.getD ((2 * (255 * d.toInt.toNat) + 2 ^ 149) / (2 * 2 ^ 149)) 0 : Nat) : Int)
      else (((2 * (4095 * d.toInt.toNat) + 2 ^ 149) / (2 * 2 ^ 149) : Nat) : Int) := by
  have hX : 0 < 2 ^ 149 := Nat.two_pow_pos 149
  have hr := toRat_of_nonneg h
  have r255 := round_mul_nat_div 255 d.toInt.toNat (2 ^ 149) hX
  have r4095 := round_mul_nat_div 4095 d.toInt.toNat (2 ^ 149) hX
  unfold spec_ticks
  rw [hr]
  generalize d.toInt.toNat = N at *
  generalize 2 ^ 149 = X at *
  have hXq : (X : ℚ) ≠ 0 := by exact_mod_cast hX.ne'
  have c0 : ((N : ℚ) / (X : ℚ) = 0) ↔ N = 0 := by
    rw [div_eq_zero_iff]; simp [hXq]
  have c1 : ((N : ℚ) / (X : ℚ) = 1) ↔ N = X := by
    rw [div_eq_one_iff_eq hXq]; exact Nat.cast_inj
  rw [Nat.cast_ofNat] at r255 r4095
  simp only [c0, c1, r255, r4095, Int.toNat_ofNat]

theorem exact_ticks_mono {X N1 N2 : Nat} (hX : 0 < X) (h12 : N1 ≤ N2) (h2 : N2 ≤ X) (b : Bool) :
    (if N1 = 0 then (0 : Int)
      else if N1 = X then 4096
      else if b then ((CIEL_8_12.getD ((2 * (255 * N1) + X) / (2 * X)) 0 : Nat) : Int)
      else (((2 * (4095 * N1) + X) / (2 * X) : Nat) : Int)) ≤
    (if N2 = 0 then (0 : Int)
      else if N2 = X then 4096
      else if b then ((CIEL_8_12.getD ((2 * (255 * N2) + X) / (2 * X)) 0 : Nat) : Int)
      else (((2 * (4095 * N2) + X) / (2 * X) : Nat) : Int)) := by
  have k255 : ∀ N, N ≤ X → (2 * (255 * N) + X) / (2 * X) ≤ 255 := fun N hN =>
    Binary32.half_round_le hX (Nat.mul_le_mul_left 255 hN)
  have k4095 : ∀ N, N ≤ X → (2 * (4095 * N) + X) / (2 * X) ≤ 4095 := fun N hN =>
    Binary32.half_round_le hX (Nat.mul_le_mul_left 4095 hN)
  have m255 : (2 * (255 * N1) + X) / (2 * X) ≤ (2 * (255 * N2) + X) / (2 * X) :=
    Nat.div_le_div_right (by omega)
  have m4095 : (2 * (4095 * N1) + X) / (2 * X) ≤ (2 * (4095 * N2) + X) / (2 * X) :=
    Nat.div_le_div_right (by omega)
  have t1 := CIEL_8_12_getD_le ((2 * (255 * N1) + X) / (2 * X))
  have t12 := CIEL_8_12_mono m255 (k255 N2 h2)
  have q1 := k4095 N1 (le_trans h12 h2)
  generalize CIEL_8_12.getD ((2 * (255 * N1) + X) / (2 * X)) 0 = T1 at *
  generalize CIEL_8_12.getD ((2 * (255 * N2) + X) / (2 * X)) 0 = T2 at *
  generalize (2 * (4095 * N1) + X) / (2 * X) = L1 at *
  generalize (2 * (4095 * N2) + X) / (2 * X) = L2 at *
  cases b <;> simp only [Bool.false_eq_true, if_false, if_true] <;> split_ifs <;> omega

/-- C19. With `ticks` the on-duration `pca9685_set_channel_duty_cycle` encodes (0
for the pair (0, 4096) of `d = 0`, 4096 for the pair (4096, 0) of `d = 1`, and
otherwise the `required_on_time` by which `off_time` follows `on_time` modulo
4096), for each mode and all binary32 `d1 <= d2` in [0, 1],
`ticks d1 <= ticks d2`.  The same holds for the on-duration computed with exact
products, `spec_ticks`. -/
theorem C19_ticks_monotone (d1 d2 : Binary32) (logarithmic : Bool)
    (h0 : Binary32.le (Binary32.ofNat 0) d1 = true) (h12 : Binary32.le d1 d2 = true)
    (h1 : Binary32.le d2 (Binary32.ofNat 1) = true) :
    ticks d1 logarithmic ≤ ticks d2 logarithmic ∧
    spec_ticks d1 logarithmic ≤ spec_ticks d2 logarithmic ∧
    (∀ (env : Env) (handle : pca9685_handle_t) (channel : Nat) (d : Binary32) (t : List Event),
      channel < 16 → Binary32.le (Binary32.ofNat 0) d = true →
      Binary32.le d (Binary32.ofNat 1) = true →
      (ticks d logarithmic = 0 ∧ Binary32.eq d (Binary32.ofNat 0) = true ∧
        pca9685_set_channel_duty_cycle env handle channel d logarithmic t =
          pca9685_set_channel_pwm_times env handle channel 0 4096 t) ∨
      (ticks d logarithmic = 4096 ∧ Binary32.eq d (Binary32.ofNat 1) = true ∧
        pca9685_set_channel_duty_cycle env handle channel d logarithmic t =
          pca9685_set_channel_pwm_times env handle channel 4096 0 t) ∨
      (ticks d logarithmic ≤ 4095 ∧
        pca9685_set_channel_duty_cycle env handle channel d logarithmic t =
          pca9685_set_channel_pwm_times env handle channel
            (if channel = 0 then 0 else channel * 256 - 1)
            (((if channel = 0 then 0 else channel * 256 - 1) + ticks d logarithmic) % 4096)
            t)) := by
  have c0 : (Binary32.ofNat 0).toInt = 0 := by (set_option maxRecDepth 100000 in decide)
  have c1 : (Binary32.ofNat 1).toInt = ((2 ^ 149 : Nat) : Int) := by
    (set_option maxRecDepth 100000 in decide)
  obtain ⟨-, -, i0⟩ := Binary32.le_iff.mp h0
  obtain ⟨-, -, i12⟩ := Binary32.le_iff.mp h12
  obtain ⟨-, -, i1⟩ := Binary32.le_iff.mp h1
  rw [c0] at i0
  rw [c1] at i1
  refine ⟨ticks_mono logarithmic h0 h12 h1, ?_,
    fun env handle channel d t hc k0 k1 => ticks_encoded env handle channel d logarithmic t hc k0 k1⟩
  rw [spec_ticks_eq i0, spec_ticks_eq (le_trans i0 i12)]
  apply exact_ticks_mono (Nat.two_pow_pos 149)
  · exact Int.toNat_le_toNat i12
  · have := Int.toNat_le_toNat i1
    rwa [Int.toNat_ofNat] at this

/-- A run of C19: linear mode, half duty against full duty, 2048 against 4096
ticks. -/
theorem C19_ticks_monotone_witness :
    Binary32.le (Binary32.ofNat 0) (Binary32.ofBits 0x3F000000) = true ∧
    Binary32.le (Binary32.ofBits 0x3F000000) (Binary32.ofNat 1) = true ∧
    Binary32.le (Binary32.ofNat 1) (Binary32.ofNat 1) = true ∧
    ticks (Binary32.ofBits 0x3F000000) false = 2048 ∧
    ticks (Binary32.ofNat 1) false = 4096 ∧
    ticks (Binary32.ofBits 0x3F000000) false ≤ ticks (Binary32.ofNat 1) false :=
  ⟨by (set_option maxRecDepth 100000 in decide), by (set_option maxRecDepth 100000 in decide),
    by (set_option maxRecDepth 100000 in decide), by (set_option maxRecDepth 100000 in decide),
    by (set_option maxRecDepth 100000 in decide),
    (C19_ticks_monotone (Binary32.ofBits 0x3F000000) (Binary32.ofNat 1) false
      (by (set_option maxRecDepth 100000 in decide))
      (by (set_option maxRecDepth 100000 in decide))
      (by (set_option maxRecDepth 100000 in decide))).1⟩

end PCA9685
